import Mathlib

/-!
# V2X OpenGym simulations: trace loading, mobility replay and the environment bridge

A shallow embedding of the two programs `simple_v2x_sim.cc` and
`training_v2x_dataset_sim.cc`.

Conventions of the embedding
* `std::string` is a list of characters, a text file is the list of its lines.
* `uint32_t` values are natural numbers; every place where the C++ arithmetic can
  wrap or narrow carries an explicit `% 2 ^ 32`.
* A `double` or `float` value is the rational number it stands for. Every arithmetic
  operation on doubles is the exact operation followed by `roundDouble`, the rounding
  to the nearest binary64 number (ties to even), and `static_cast<float>` is
  `roundFloat`, the rounding to the nearest binary32 number. Infinities, NaN and
  overflow beyond the largest finite number are not modelled.
* The process-wide variables of a program are the fields of one record, `Globals`,
  threaded through every function.  `Simulator::Now ().GetSeconds ()` is read from
  the field `now`.
* Library functions whose text is not part of the programs (`std::stod`,
  `std::sqrt`) are taken as parameters, bundled in `Lib`.
* Logging (`NS_LOG_UNCOND`, `LogStepMessage`) has no effect on the modelled state
  and is left out.
-/

namespace V2X

/-- Wrap-around modulus of `uint32_t`. -/
def U32 : Nat := 2 ^ 32

/-! ## Floating-point numbers -/

/-- The power `2 ^ e` for an integer exponent. -/
def pow2 (e : Int) : ℚ :=
  if 0 ≤ e then ((2 ^ e.toNat : Nat) : ℚ) else 1 / ((2 ^ (-e).toNat : Nat) : ℚ)

/-- Loop computing the base 2 logarithm of a natural number, rounded down. -/
def natLog2Loop : Nat → Nat → Nat
  | 0, _ => 0
  | fuel + 1, n => if 2 ≤ n then natLog2Loop fuel (n / 2) + 1 else 0

/-- The base 2 logarithm of a natural number, rounded down (0 for 0). -/
def natLog2 (n : Nat) : Nat :=
  natLog2Loop n n

/-- The exponent `e` with `2 ^ e ≤ q < 2 ^ (e + 1)`, for a positive rational `q`: it is
the difference of the logarithms of numerator and denominator, or one less. -/
def log2Floor (q : ℚ) : Int :=
  let e0 : Int := (natLog2 q.num.toNat : Int) - (natLog2 q.den : Int)
  if pow2 e0 ≤ q then e0 else e0 - 1

/-- The nearest integer of a rational that is not negative, ties to the even one. -/
def roundHalfEven (q : ℚ) : Int :=
  let f := Rat.floor q
  if q - (f : ℚ) < 1 / 2 then f
  else if 1 / 2 < q - (f : ℚ) then f + 1
  else if f % 2 = 0 then f else f + 1

/-- Rounding to the nearest binary floating-point number with `p` significant bits and
least exponent `emin` (the exponent of the smallest subnormal number), ties to even:
the default rounding of IEEE 754. The exponent range has no upper end here. -/
def roundBinary (p : Nat) (emin : Int) (q : ℚ) : ℚ :=
  if q = 0 then 0
  else
    let a := if q < 0 then -q else q
    let u := max (log2Floor a - ((p : Int) - 1)) emin
    let m := roundHalfEven (a / pow2 u)
    if q < 0 then -((m : ℚ) * pow2 u) else (m : ℚ) * pow2 u

/-- The `double` nearest to a rational: the result of an arithmetic operation on
doubles is this rounding of the exact result, and a decimal literal or numeral stands
for this rounding of its value. -/
def roundDouble (q : ℚ) : ℚ :=
  roundBinary 53 (-1074) q

/-- Model of `static_cast<float>`: the `float` nearest to a rational. -/
def roundFloat (q : ℚ) : ℚ :=
  roundBinary 24 (-149) q

/-! ## Strings -/

/-- The double-quote character. -/
def dq : Char := Char.ofNat 34

/-- First position at which `tok` occurs in `s` (`std::string::find` from position 0);
`none` stands for `npos`. -/
def strFind (s tok : List Char) : Option Nat :=
  if tok.isPrefixOf s then some 0
  else match s with
    | [] => none
    | _ :: cs => (strFind cs tok).map Nat.succ

/-- Model of `s.find (tok, pos)`: the first occurrence starting at or after `pos`. -/
def strFindFrom (s tok : List Char) (pos : Nat) : Option Nat :=
  if s.length < pos then none else (strFind (s.drop pos) tok).map (fun i => i + pos)

/-- Model of `s.substr (pos, n)`. -/
def substr (s : List Char) (pos n : Nat) : List Char :=
  (s.drop pos).take n

/-- Translation of `ExtractAttribute` (the same text in both programs). -/
def ExtractAttribute (line key : List Char) : List Char :=
  let token := key ++ ['=', dq]
  match strFind line token with
  | none => []
  | some p =>
    let pos := p + token.length
    match strFindFrom line [dq] pos with
    | none => []
    | some e => substr line pos (e - pos)

/-! ## Associative containers -/

/-- Lookup in an association list (`find` of `std::map` and `std::unordered_map`). -/
def mapFind {K V : Type} [DecidableEq K] (m : List (K × V)) (k : K) : Option V :=
  match m with
  | [] => none
  | (k1, v) :: rest => if k = k1 then some v else mapFind rest k

/-- Model of `m[k] = v` on a `std::unordered_map`: overwrite the entry of `k`, or add one. -/
def mapAssign {K V : Type} [DecidableEq K] (m : List (K × V)) (k : K) (v : V) : List (K × V) :=
  match m with
  | [] => [(k, v)]
  | (k1, v1) :: rest => if k = k1 then (k, v) :: rest else (k1, v1) :: mapAssign rest k v

/-- Model of `m[k] = v` on a `std::map` keyed by `uint32_t`: entries are kept in
increasing key order, an existing entry is overwritten. -/
def frameAssign {V : Type} (m : List (Nat × V)) (k : Nat) (v : V) : List (Nat × V) :=
  match m with
  | [] => [(k, v)]
  | (k1, v1) :: rest =>
    if k < k1 then (k, v) :: (k1, v1) :: rest
    else if k = k1 then (k, v) :: rest
    else (k1, v1) :: frameAssign rest k v

/-! ## Data model -/

/-- The ns-3 `Vector` (three doubles). -/
structure Vector where
  x : ℚ
  y : ℚ
  z : ℚ
deriving DecidableEq, Repr

/-- Translation of `struct VehicleMetrics`. -/
structure VehicleMetrics where
  position : Vector
  speed : ℚ
  active : Bool
deriving DecidableEq, Repr

/-- The default constructor `VehicleMetrics ()`. -/
def VehicleMetrics.init : VehicleMetrics :=
  { position := ⟨0, 0, 0⟩, speed := 0, active := false }

/-- Translation of `struct SumoVehicleState`. -/
structure SumoVehicleState where
  position : Vector
  speed : ℚ
  vehicleType : List Char
deriving DecidableEq, Repr

/-- One frame of the trajectory: `std::map<uint32_t, SumoVehicleState>`. -/
abbrev Frame := List (Nat × SumoVehicleState)

/-- A mobility model aggregated to a node: whether it is a
`ConstantPositionMobilityModel`, and what `GetPosition` and `GetVelocity` return. -/
structure MobilityModel where
  isConstantPosition : Bool
  position : Vector
  velocity : Vector
deriving DecidableEq, Repr

/-- An ns-3 node, reduced to the mobility models aggregated to it;
`GetObject<MobilityModel>` returns the first one. -/
structure Node where
  objects : List MobilityModel
deriving DecidableEq, Repr

/-- Library functions used by the programs. `stod` returns `none` where `std::stod`
throws. -/
structure Lib where
  stod : List Char → Option ℚ
  sqrt : ℚ → ℚ

/-- The process-wide variables of the programs.  `simulationTimeLimit`, `maxSteps`
and `loopSumoTrajectory` exist in the training program only; `now` is the simulator
clock in seconds. -/
structure Globals where
  nodes : List Node
  nodeNum : Nat
  currentStep : Nat
  envStepTime : ℚ
  simulationTimeLimit : ℚ
  maxSteps : Nat
  loopSumoTrajectory : Bool
  useSumoMobility : Bool
  sumoTrajectory : List Frame
  sumoIdToNodeIndex : List (List Char × Nat)
  currentSumoState : List (Nat × SumoVehicleState)
  sumoVehicleCount : Nat
  sumoMaxTime : ℚ
  vehicleMetrics : List VehicleMetrics
  now : ℚ
deriving DecidableEq, Repr

/-- The values of the global variables at program start (the initialisers of the
training program; the simple program has the same ones for the variables it has). -/
def Globals.initial : Globals :=
  { nodes := [], nodeNum := 0, currentStep := 0, envStepTime := roundDouble (1 / 10),
    simulationTimeLimit := 0, maxSteps := 0, loopSumoTrajectory := false,
    useSumoMobility := false, sumoTrajectory := [], sumoIdToNodeIndex := [],
    currentSumoState := [], sumoVehicleCount := 0, sumoMaxTime := 0,
    vehicleMetrics := [], now := 0 }

/-! ## Trace loading -/

/-- Ways in which `LoadSumoTrajectory` can leave defined behaviour: `std::stod`
throws, the conversion of the rounded tick to `uint32_t` is out of range, or the
frame subscript is past the end of the frame sequence. -/
inductive LoadError where
  | stodThrows
  | castOutOfRange
  | frameOutOfRange
deriving DecidableEq, Repr

/-- Model of `std::round` on a double: nearest integer, halves away from zero. -/
def roundHalfAway (q : ℚ) : Int :=
  if 0 ≤ q then Rat.floor (q + 1 / 2) else -Rat.floor (-q + 1 / 2)

/-- Model of `static_cast<uint32_t>` applied to an integral double; `none` where the
value does not fit. -/
def toUInt32 (v : Int) : Option Nat :=
  if 0 ≤ v ∧ v < (U32 : Int) then some v.toNat else none

/-- Model of `std::vector::resize (n)` on the frame sequence: new frames are empty. -/
def resizeFrames (t : List Frame) (n : Nat) : List Frame :=
  t.take n ++ List.replicate (n - t.length) []

/-- The registry lookup of `LoadSumoTrajectory` (the `find` on `g_sumoIdToNodeIndex`
and its two branches): the node index of `idStr` and the registry afterwards. A new
identifier gets the current size of the registry, narrowed to `uint32_t`. -/
def registerId (registry : List (List Char × Nat)) (idStr : List Char) :
    Nat × List (List Char × Nat) :=
  match mapFind registry idStr with
  | none => (registry.length % U32, mapAssign registry idStr (registry.length % U32))
  | some n => (n, registry)

/-- The part of the loop body of `LoadSumoTrajectory` that stores a parsed vehicle
record: default tick duration, quantization of the current time, growth of the frame
sequence, registry lookup, and the assignment into the frame. -/
def storeVehicle (g : Globals) (currentTime : ℚ) (idStr : List Char)
    (state : SumoVehicleState) : Except LoadError Globals :=
  let envStepTime := if g.envStepTime ≤ 0 then roundDouble (1 / 10) else g.envStepTime
  match toUInt32 (roundHalfAway (roundDouble (currentTime / envStepTime))) with
  | none => .error .castOutOfRange
  | some timestepIndex =>
    let trajectory :=
      if g.sumoTrajectory.length ≤ timestepIndex then
        resizeFrames g.sumoTrajectory ((timestepIndex + 1) % U32)
      else g.sumoTrajectory
    let r := registerId g.sumoIdToNodeIndex idStr
    match trajectory[timestepIndex]? with
    | none => .error .frameOutOfRange
    | some frame =>
      .ok { g with envStepTime := envStepTime,
                   sumoTrajectory := trajectory.set timestepIndex (frameAssign frame r.1 state),
                   sumoIdToNodeIndex := r.2 }

/-- The body of the `while (std::getline (in, line))` loop of `LoadSumoTrajectory`.
The pair carries the local variable `currentTime` and the global variables. -/
def loadLine (lib : Lib) (st : ℚ × Globals) (line : List Char) :
    Except LoadError (ℚ × Globals) :=
  let currentTime := st.1
  let g := st.2
  if (strFind line "<timestep".toList).isSome then
    let timeStr := ExtractAttribute line "time".toList
    if timeStr ≠ [] then
      match lib.stod timeStr with
      | none => .error .stodThrows
      | some t => .ok (t, g)
    else .ok (currentTime, g)
  else if (strFind line "<vehicle".toList).isSome then
    let idStr := ExtractAttribute line "id".toList
    let xStr := ExtractAttribute line "x".toList
    let yStr := ExtractAttribute line "y".toList
    let speedStr := ExtractAttribute line "speed".toList
    let typeStr := ExtractAttribute line "type".toList
    if idStr = [] ∨ xStr = [] ∨ yStr = [] then .ok (currentTime, g)
    else
      match lib.stod xStr with
      | none => .error .stodThrows
      | some x =>
      match lib.stod yStr with
      | none => .error .stodThrows
      | some y =>
      match (if speedStr = [] then some 0 else lib.stod speedStr) with
      | none => .error .stodThrows
      | some speed =>
      let vehicleType := if typeStr = [] then "passenger".toList else typeStr
      match storeVehicle g currentTime idStr
          { position := ⟨x, y, 0⟩, speed := speed, vehicleType := vehicleType } with
      | .error e => .error e
      | .ok g1 => .ok (currentTime, g1)
  else .ok (currentTime, g)

/-- The `while` loop of `LoadSumoTrajectory` over the lines of the file. -/
def loadLines (lib : Lib) : List (List Char) → ℚ × Globals → Except LoadError (ℚ × Globals)
  | [], st => .ok st
  | line :: rest, st =>
    match loadLine lib st line with
    | .error e => .error e
    | .ok st1 => loadLines lib rest st1

/-- Translation of `LoadSumoTrajectory` (the same text in both programs). The file is
`none` when it cannot be opened, and the list of its lines otherwise. The result
carries the returned flag and the global variables after the call. -/
def LoadSumoTrajectory (lib : Lib) (file : Option (List (List Char))) (g : Globals) :
    Except LoadError (Bool × Globals) :=
  match file with
  | none => .ok (false, g)
  | some lines =>
    let g0 := { g with sumoTrajectory := [], sumoIdToNodeIndex := [], sumoVehicleCount := 0 }
    match loadLines lib lines (0, g0) with
    | .error e => .error e
    | .ok (_, g1) =>
      let g2 := { g1 with sumoVehicleCount := g1.sumoIdToNodeIndex.length % U32 }
      let g3 :=
        if g2.sumoTrajectory ≠ [] then
          { g2 with sumoMaxTime :=
              roundDouble (g2.envStepTime * ((g2.sumoTrajectory.length - 1 : Nat) : ℚ)) }
        else g2
      .ok (decide (0 < g3.sumoVehicleCount ∧ g3.sumoTrajectory ≠ []), g3)

/-! ## Per-actor metrics and mobility replay -/

/-- Translation of `InitializeVehicleMetrics`. -/
def InitializeVehicleMetrics (g : Globals) : Globals :=
  { g with vehicleMetrics := List.replicate g.nodes.length VehicleMetrics.init }

/-- The metrics `UpdateVehicleMetrics` writes for actor `i` in trace mode. -/
def sumoMetrics (snapshot : List (Nat × SumoVehicleState)) (i : Nat) : VehicleMetrics :=
  match mapFind snapshot i with
  | some s => { position := s.position, speed := s.speed, active := true }
  | none => { position := ⟨0, 0, 0⟩, speed := 0, active := false }

/-- The metrics `UpdateVehicleMetrics` writes for a node in procedural mode. -/
def nodeMetrics (lib : Lib) (node : Node) : VehicleMetrics :=
  match node.objects.head? with
  | some mobility =>
    { position := mobility.position,
      speed := lib.sqrt (roundDouble (roundDouble (mobility.velocity.x * mobility.velocity.x)
                          + roundDouble (mobility.velocity.y * mobility.velocity.y))),
      active := true }
  | none => { position := ⟨0, 0, 0⟩, speed := 0, active := false }

/-- Translation of `UpdateVehicleMetrics` (the same text in both programs). Both loops
assign every element of `g_vehicleMetrics`, whose size equals `g_nodes.GetN ()` after
the first statement. -/
def UpdateVehicleMetrics (lib : Lib) (g : Globals) : Globals :=
  let g1 := if g.vehicleMetrics.length ≠ g.nodes.length then InitializeVehicleMetrics g else g
  if g1.useSumoMobility then
    { g1 with vehicleMetrics :=
        (List.range g1.vehicleMetrics.length).map (sumoMetrics g1.currentSumoState) }
  else
    { g1 with vehicleMetrics := g1.nodes.map (nodeMetrics lib) }

/-- The effect of `constant->SetPosition (p)` on a node, after the dynamic cast of
its mobility model: a node whose mobility model is not a constant-position model
gets a new one aggregated. -/
def setNodePosition (node : Node) (p : Vector) : Node :=
  match node.objects with
  | m :: rest =>
    if m.isConstantPosition then { objects := { m with position := p } :: rest }
    else { objects := m :: rest ++ [⟨true, p, ⟨0, 0, 0⟩⟩] }
  | [] => { objects := [⟨true, p, ⟨0, 0, 0⟩⟩] }

/-- One iteration of the loop `for (const auto& entry : states)` of
`ApplySumoMobility`, on the roster and the snapshot. -/
def applyEntry (acc : List Node × List (Nat × SumoVehicleState))
    (entry : Nat × SumoVehicleState) : List Node × List (Nat × SumoVehicleState) :=
  if acc.1.length ≤ entry.1 then acc
  else (acc.1.modify (fun node => setNodePosition node entry.2.position) entry.1,
        mapAssign acc.2 entry.1 entry.2)

/-- The part of `ApplySumoMobility` after the frame was selected: clear the snapshot,
replay the frame onto the roster, refresh the metrics. -/
def replayFrame (lib : Lib) (states : Frame) (g : Globals) : Globals :=
  let r := states.foldl applyEntry (g.nodes, [])
  UpdateVehicleMetrics lib { g with nodes := r.1, currentSumoState := r.2 }

/-! ## Observation, shared by the two programs -/

/-- An `OpenGymBoxContainer<float>`: the declared shape and the values added so far. -/
structure Box where
  shape : List Nat
  values : List ℚ
deriving DecidableEq, Repr

/-- An `OpenGymBoxSpace`: bounds and shape. -/
structure BoxSpace where
  low : ℚ
  high : ℚ
  shape : List Nat
deriving DecidableEq, Repr

/-- One iteration of the first loop of `MyGetObservation`, on the local variables
`activeNodes`, `totalSpeed`, `avgX`, `avgY`. -/
def accumulate (acc : Nat × ℚ × ℚ × ℚ) (m : VehicleMetrics) : Nat × ℚ × ℚ × ℚ :=
  if m.active then
    ((acc.1 + 1) % U32, roundDouble (acc.2.1 + m.speed), roundDouble (acc.2.2.1 + m.position.x),
     roundDouble (acc.2.2.2 + m.position.y))
  else acc

/-- The local variables `activeNodes`, `avgSpeed`, `avgPosX`, `avgPosY` of
`MyGetObservation` after the first loop and the three divisions. -/
def globalStats (metrics : List VehicleMetrics) : Nat × ℚ × ℚ × ℚ :=
  let acc := metrics.foldl accumulate (0, 0, 0, 0)
  let activeNodes := acc.1
  (activeNodes,
   if 0 < activeNodes then roundDouble (acc.2.1 / (activeNodes : ℚ)) else 0,
   if 0 < activeNodes then roundDouble (acc.2.2.1 / (activeNodes : ℚ)) else 0,
   if 0 < activeNodes then roundDouble (acc.2.2.2 / (activeNodes : ℚ)) else 0)

/-- The three values the second loop of `MyGetObservation` adds for actor `i`. -/
def actorValues (metrics : List VehicleMetrics) (i : Nat) : List ℚ :=
  match metrics[i]? with
  | some m =>
    if m.active then [roundFloat m.position.x, roundFloat m.position.y, roundFloat m.speed]
    else [0, 0, 0]
  | none => [0, 0, 0]

/-- The part of `MyGetObservation` that builds the box from `g_nodeNum` and
`g_vehicleMetrics` (the same text in both programs). -/
def buildObservation (g : Globals) : Box :=
  let obsSize := (4 + (g.nodeNum * 3) % U32) % U32
  let stats := globalStats g.vehicleMetrics
  { shape := [obsSize],
    values := [roundFloat (stats.1 : ℚ), roundFloat stats.2.1, roundFloat stats.2.2.1,
               roundFloat stats.2.2.2]
      ++ (List.range g.nodeNum).flatMap (actorValues g.vehicleMetrics) }

/-- The loop of `MyGetReward` counting the active actors. -/
def countActive (metrics : List VehicleMetrics) : Nat :=
  metrics.foldl (fun n m => if m.active then (n + 1) % U32 else n) 0

/-- Translation of `MyGetExtraInfo` (the same in both programs). -/
def MyGetExtraInfo (g : Globals) : List Char :=
  "step:".toList ++ (Nat.repr g.currentStep).toList ++ ";vehicles:".toList
    ++ (Nat.repr g.vehicleMetrics.length).toList

/-- The six callbacks of the environment bridge, and `executeActions`. -/
inductive BridgeOp where
  | observationSpace
  | actionSpace
  | gameOver
  | observation
  | reward
  | extraInfo
  | executeActions
deriving DecidableEq, Repr

/-! ## The training program -/

namespace Training

/-- The frame index `safeIndex` computed by `ApplySumoMobility`. -/
def safeIndex (g : Globals) (timestep : Nat) : Nat :=
  let effectiveSize := g.sumoTrajectory.length % U32
  let clamped := min timestep ((effectiveSize + U32 - 1) % U32)
  if g.loopSumoTrajectory ∧ 0 < effectiveSize then timestep % effectiveSize else clamped

/-- Translation of `ApplySumoMobility` of the training program. -/
def ApplySumoMobility (lib : Lib) (timestep : Nat) (g : Globals) : Globals :=
  if ¬ g.useSumoMobility ∨ g.sumoTrajectory = [] then UpdateVehicleMetrics lib g
  else replayFrame lib (g.sumoTrajectory.getD (safeIndex g timestep) []) g

/-- Translation of `MyGetObservationSpace` of the training program. -/
def MyGetObservationSpace (g : Globals) : BoxSpace :=
  { low := -10000, high := 10000, shape := [(4 + (g.nodeNum * 3) % U32) % U32] }

/-- Translation of `MyGetActionSpace` of the training program. -/
def MyGetActionSpace : BoxSpace :=
  { low := 0, high := 10, shape := [4] }

/-- Translation of `MyGetGameOver` of the training program. -/
def MyGetGameOver (g : Globals) : Bool :=
  let stepLimitReached := decide (0 < g.maxSteps ∧ g.maxSteps ≤ g.currentStep)
  let timeLimitReached := decide (0 < g.simulationTimeLimit ∧ g.simulationTimeLimit ≤ g.now)
  stepLimitReached || timeLimitReached

/-- Translation of `MyGetObservation` of the training program: it reads the stored
metrics and does not replay. -/
def MyGetObservation (g : Globals) : Box :=
  buildObservation g

/-- Translation of `MyGetReward` of the training program. -/
def MyGetReward (g : Globals) : ℚ :=
  roundFloat (roundDouble ((countActive g.vehicleMetrics : ℚ) * roundDouble (1 / 10)))

/-- Translation of `MyExecuteActions` of the training program: the returned flag and
the global variables after the call. The action is not read. -/
def MyExecuteActions (g : Globals) : Bool × Globals :=
  if 0 < g.maxSteps ∧ g.maxSteps ≤ g.currentStep then (false, g)
  else (true, { g with currentStep := (g.currentStep + 1) % U32 })

/-- The global variables after one bridge operation of the training program. -/
def runOp (op : BridgeOp) (g : Globals) : Globals :=
  match op with
  | .executeActions => (MyExecuteActions g).2
  | _ => g

end Training

/-! ## The simple program -/

namespace Simple

/-- The frame index `clampedStep` computed by `ApplySumoMobility`. -/
def clampedStep (g : Globals) (timestep : Nat) : Nat :=
  min timestep ((g.sumoTrajectory.length - 1) % U32)

/-- Translation of `ApplySumoMobility` of the simple program. -/
def ApplySumoMobility (lib : Lib) (timestep : Nat) (g : Globals) : Globals :=
  if ¬ g.useSumoMobility ∨ g.sumoTrajectory = [] then UpdateVehicleMetrics lib g
  else replayFrame lib (g.sumoTrajectory.getD (clampedStep g timestep) []) g

/-- Translation of `MyGetObservationSpace` of the simple program. -/
def MyGetObservationSpace (g : Globals) : BoxSpace :=
  { low := -1000, high := 1000, shape := [(4 + (g.nodeNum * 3) % U32) % U32] }

/-- Translation of `MyGetActionSpace` of the simple program. -/
def MyGetActionSpace : BoxSpace :=
  { low := 0, high := 10, shape := [4] }

/-- Translation of `MyGetGameOver` of the simple program. -/
def MyGetGameOver (g : Globals) : Bool :=
  decide (1000 ≤ g.currentStep)

/-- Translation of `MyGetObservation` of the simple program: in trace mode it first
replays the frame of `g_currentStep`. The result is the box and the global variables
after the call. -/
def MyGetObservation (lib : Lib) (g : Globals) : Box × Globals :=
  let g1 := if g.useSumoMobility then ApplySumoMobility lib g.currentStep g else g
  (buildObservation g1, g1)

/-- Translation of `MyGetReward` of the simple program. -/
def MyGetReward (g : Globals) : ℚ :=
  roundFloat (roundDouble (roundDouble ((g.currentStep : ℚ) * roundDouble (1 / 20))
    + roundDouble ((countActive g.vehicleMetrics : ℚ) * roundDouble (1 / 10))))

/-- Translation of `MyExecuteActions` of the simple program: the returned flag and the
global variables after the call. The action is only logged. -/
def MyExecuteActions (g : Globals) : Bool × Globals :=
  (true, { g with currentStep := (g.currentStep + 1) % U32 })

/-- The global variables after one bridge operation of the simple program. -/
def runOp (lib : Lib) (op : BridgeOp) (g : Globals) : Globals :=
  match op with
  | .observation => (MyGetObservation lib g).2
  | .executeActions => (MyExecuteActions g).2
  | _ => g

end Simple

/-! ## Sample states and inputs -/

/-- A training state in which only the simulation-time limit has been reached:
no step budget, tick 5, limit 120 s, clock at 120 s. -/
def timeLimitState : Globals :=
  { Globals.initial with currentStep := 5, simulationTimeLimit := 120, now := 120 }

/-- A state of the simple program at tick 1000, where `MyGetGameOver` holds. -/
def terminalState : Globals :=
  { Globals.initial with currentStep := 1000 }

/-- A training state with a step budget of 10 that was reached at tick 10. -/
def budgetState : Globals :=
  { Globals.initial with currentStep := 10, maxSteps := 10 }

/-- The state `budgetState` at a later tick and a later clock reading. -/
def laterState : Globals :=
  { Globals.initial with currentStep := 1500, maxSteps := 10, now := 7 }

/-- The global variables of the simple program after a sequence of bridge operations. -/
def Simple.runOps (lib : Lib) (ops : List BridgeOp) (g : Globals) : Globals :=
  ops.foldl (fun s op => Simple.runOp lib op s) g

/-- Value of a decimal digit. -/
def digitValue (c : Char) : Option Nat :=
  if 48 ≤ c.toNat ∧ c.toNat ≤ 57 then some (c.toNat - 48) else none

/-- Reads an unsigned decimal integer, digit by digit. -/
def readDecimal (acc : Nat) : List Char → Option Nat
  | [] => some acc
  | c :: cs =>
    match digitValue c with
    | none => none
    | some d => readDecimal (10 * acc + d) cs

/-- Reads an unsigned decimal numeral with an optional fraction, such as `12`, `0.15`
or `.5`: its exact value. -/
def readNumeral (s : List Char) : Option ℚ :=
  let whole := s.takeWhile (fun c => decide (c ≠ '.'))
  match s.dropWhile (fun c => decide (c ≠ '.')) with
  | [] => if whole = [] then none else (readDecimal 0 whole).map (fun n => (n : ℚ))
  | _ :: frac =>
    if whole = [] ∧ frac = [] then none
    else
      match readDecimal 0 whole, readDecimal 0 frac with
      | some a, some b => some ((a : ℚ) + (b : ℚ) / ((10 ^ frac.length : Nat) : ℚ))
      | _, _ => none

/-- A sample interpretation of the library functions, used for concrete runs. On an
unsigned decimal numeral with an optional fraction `stod` returns the nearest double,
as `std::stod` does, and on a string that does not start with a numeral, such as
`abc`, it throws, as `std::stod` does. It is used on such strings only: signs,
exponents, leading blanks and characters after the numeral are not handled. `sqrt`
is exact on the squares of rationals, the only arguments it is given here. -/
def sampleLib : Lib :=
  { stod := fun s => (readNumeral s).map roundDouble,
    sqrt := fun q => (Nat.sqrt q.num.toNat : ℚ) / (Nat.sqrt q.den : ℚ) }

/-- A training state with a loaded trajectory of three (empty) frames and looping on. -/
def threeFrameState : Globals :=
  { Globals.initial with useSumoMobility := true, loopSumoTrajectory := true,
                         sumoTrajectory := [[], [], []] }

/-! ## The replay and aggregation contracts, following the words of the specification -/

/-- The two replay policies of the specification (section 4.2). -/
inductive Policy where
  | clamp
  | loop
deriving DecidableEq, Repr

/-- Specification, section 4.2: the effective frame index. Clamp is
`min (tick, frameCount - 1)`, Loop is `tick mod frameCount`. -/
def specEffectiveIndex (p : Policy) (tick frameCount : Nat) : Nat :=
  match p with
  | .clamp => min tick (frameCount - 1)
  | .loop => tick % frameCount

/-- Specification, section 4.2: the fresh snapshot holds the pairs of the resolved
frame whose actor index is within `[0, rosterSize)`. -/
def specSnapshot (frame : Frame) (rosterSize : Nat) : List (Nat × SumoVehicleState) :=
  frame.filter (fun e => decide (e.1 < rosterSize))

/-- Specification, section 4.3: the states of the active actors, by actor index. -/
def specActive (snapshot : List (Nat × SumoVehicleState)) (rosterSize : Nat) :
    List SumoVehicleState :=
  (List.range rosterSize).filterMap (mapFind snapshot)

/-- The sum of a list of doubles, added one after the other in double arithmetic. -/
def doubleSum (l : List ℚ) : ℚ :=
  l.foldl (fun s x => roundDouble (s + x)) 0

/-- Specification, section 4.3: `globalStats = (activeCount, meanSpeed, meanX, meanY)`
over the active actors, all four 0 when no actor is active; with the arithmetic of the
programs: sums and quotients of doubles, taken in roster order, and values narrowed to
`float`. -/
def specGlobalStats (snapshot : List (Nat × SumoVehicleState)) (rosterSize : Nat) : List ℚ :=
  let active := specActive snapshot rosterSize
  if active.length = 0 then [0, 0, 0, 0]
  else [roundFloat (active.length : ℚ),
        roundFloat (roundDouble (doubleSum (active.map (fun s => s.speed))
          / (active.length : ℚ))),
        roundFloat (roundDouble (doubleSum (active.map (fun s => s.position.x))
          / (active.length : ℚ))),
        roundFloat (roundDouble (doubleSum (active.map (fun s => s.position.y))
          / (active.length : ℚ)))]

/-- Specification, section 4.3: `perActor[i] = (x, y, speed)` from the snapshot if
active, else `(0, 0, 0)`; the values are narrowed to `float`, the type of the box. -/
def specPerActor (snapshot : List (Nat × SumoVehicleState)) (i : Nat) : List ℚ :=
  match mapFind snapshot i with
  | some s => [roundFloat s.position.x, roundFloat s.position.y, roundFloat s.speed]
  | none => [0, 0, 0]

/-- Specification, section 4.3: the feature vector
`[activeCount, meanSpeed, meanX, meanY] ++ flatten (perActor)`. -/
def specFeatureVector (snapshot : List (Nat × SumoVehicleState)) (rosterSize : Nat) : List ℚ :=
  specGlobalStats snapshot rosterSize
    ++ (List.range rosterSize).flatMap (specPerActor snapshot)

/-- A vehicle state used in the examples: position (1, 2), speed 3. -/
def stateA : SumoVehicleState :=
  { position := ⟨1, 2, 0⟩, speed := 3, vehicleType := "passenger".toList }

/-- A training state in trace mode: one actor with a constant-position model, a
trajectory of two frames (the actor is present in frame 0 only), looping off, tick 0. -/
def twoFrameState : Globals :=
  { Globals.initial with useSumoMobility := true, nodeNum := 1,
                         nodes := [⟨[⟨true, ⟨0, 0, 0⟩, ⟨0, 0, 0⟩⟩]⟩],
                         sumoTrajectory := [[(0, stateA)], []] }

/-- The training state reached from `twoFrameState` by the replay of tick 0 followed
by one `executeActions`: the tick is 1, the stored metrics are those of frame 0. -/
def staleState : Globals :=
  (Training.MyExecuteActions (Training.ApplySumoMobility sampleLib 0 twoFrameState)).2

/-- The text of one attribute: the key, an equals sign and the quoted value. -/
def attributeText (key value : String) : List Char :=
  key.toList ++ ['=', dq] ++ value.toList ++ [dq]

/-- The timestep record of the example trace, with time 0. -/
def timestepLine : List Char :=
  "<timestep ".toList ++ attributeText "time" "0" ++ ">".toList

/-- The first vehicle record of the example trace: id A, x 1, y 2, speed 3. -/
def vehicleLineA : List Char :=
  "<vehicle ".toList ++ attributeText "id" "A" ++ [' '] ++ attributeText "x" "1" ++ [' ']
    ++ attributeText "y" "2" ++ [' '] ++ attributeText "speed" "3" ++ "/>".toList

/-- The second vehicle record of the example trace: id B, x 5, y 6, no speed. -/
def vehicleLineB : List Char :=
  "<vehicle ".toList ++ attributeText "id" "B" ++ [' '] ++ attributeText "x" "5" ++ [' ']
    ++ attributeText "y" "6" ++ "/>".toList

/-- The example trace of the specification (section 8). -/
def exampleTrace : List (List Char) :=
  [timestepLine, vehicleLineA, vehicleLineB]

/-- Frame 0 of the example trace. -/
def exampleFrame : Frame :=
  [(0, { position := ⟨1, 2, 0⟩, speed := 3, vehicleType := "passenger".toList }),
   (1, { position := ⟨5, 6, 0⟩, speed := 0, vehicleType := "passenger".toList })]

/-- A node with a constant-position mobility model at the origin. -/
def constantNode : Node :=
  { objects := [⟨true, ⟨0, 0, 0⟩, ⟨0, 0, 0⟩⟩] }

/-- The global variables after a successful load, once the startup code has switched
trace mode on and created a roster. -/
def withRoster (g : Globals) (nodes : List Node) : Globals :=
  { g with useSumoMobility := true, nodeNum := nodes.length, nodes := nodes,
           vehicleMetrics := List.replicate nodes.length VehicleMetrics.init }

/-- The global variables at program start with a tick duration of one second. -/
def unitTickState : Globals :=
  { Globals.initial with envStepTime := 1 }

/-- The global variables after loading the example trace from the state `g`. -/
def exampleLoaded (g : Globals) : Globals :=
  { g with sumoTrajectory := [exampleFrame],
           sumoIdToNodeIndex := [("A".toList, 0), ("B".toList, 1)],
           sumoVehicleCount := 2, sumoMaxTime := 0 }

/-! ## Accepted records and identifiers in order of first appearance -/

/-- The identifier of a vehicle record that `LoadSumoTrajectory` accepts: the line is
not taken as a timestep record, it is a vehicle record, and its `id`, `x` and `y`
attributes are non-empty. -/
def acceptedId (line : List Char) : Option (List Char) :=
  if (strFind line "<timestep".toList).isSome then none
  else if (strFind line "<vehicle".toList).isSome then
    if ExtractAttribute line "id".toList = [] ∨ ExtractAttribute line "x".toList = []
        ∨ ExtractAttribute line "y".toList = [] then none
    else some (ExtractAttribute line "id".toList)
  else none

/-- The identifiers of the accepted vehicle records of a trace, in file order. -/
def acceptedIds (lines : List (List Char)) : List (List Char) :=
  lines.filterMap acceptedId

/-- The distinct elements of a list, in order of first appearance. -/
def firstOccurrences : List (List Char) → List (List Char)
  | [] => []
  | s :: rest => s :: (firstOccurrences rest).filter (fun s1 => decide (s1 ≠ s))

/-- An identifier made of `n + 1` letters `a`. -/
def unaryId (n : Nat) : List Char :=
  List.replicate (n + 1) 'a'

/-- A vehicle record with identifier `unaryId n`, at position (0, 0), without speed. -/
def unaryLine (n : Nat) : List Char :=
  "<vehicle id=".toList ++ [dq] ++ unaryId n ++ [dq] ++ " x=".toList ++ [dq, '0', dq]
    ++ " y=".toList ++ [dq, '0', dq] ++ "/>".toList

/-- A trace of `2 ^ 32 + 1` vehicle records with pairwise distinct identifiers. -/
def manyIdsTrace : List (List Char) :=
  (List.range (U32 + 1)).map unaryLine

/-- The global variables of the training program after `n` calls of `MyExecuteActions`. -/
def Training.executeN (n : Nat) (g : Globals) : Globals :=
  (fun s => (Training.MyExecuteActions s).2)^[n] g

/-- A training state at tick 0 with a step budget of 3. -/
def budgetThreeState : Globals :=
  { Globals.initial with maxSteps := 3 }

/-- A frame with an entry for actor 3 and one for actor 50. -/
def mismatchFrame : Frame :=
  [(3, stateA), (50, stateA)]

/-- A trace-mode state with a roster of ten constant-position nodes and the single
frame `mismatchFrame`. -/
def tenNodeState : Globals :=
  withRoster { Globals.initial with sumoTrajectory := [mismatchFrame] }
    (List.replicate 10 constantNode)

/-- The state `twoFrameState` with a stale snapshot in which actor 0 is active. -/
def staleSnapshotState : Globals :=
  { twoFrameState with currentSumoState := [(0, stateA)] }

/-! ## Well-formed vehicle records -/

/-- The text of a list of attributes, each written as a blank, the name, an equals
sign and the quoted value, followed by the end of the tag. -/
def attributesText : List (List Char × List Char) → List Char
  | [] => "/>".toList
  | a :: rest => ' ' :: a.1 ++ '=' :: dq :: a.2 ++ dq :: attributesText rest

/-- A vehicle record made of well-formed attribute pairs. -/
def vehicleRecord (attrs : List (List Char × List Char)) : List Char :=
  "<vehicle".toList ++ attributesText attrs

/-- Well-formed attribute pairs: no name and no value holds an equals sign or an opening
angle bracket, and no value holds a quote. -/
def WellFormedAttrs (attrs : List (List Char × List Char)) : Prop :=
  ∀ a ∈ attrs, '=' ∉ a.1 ∧ '<' ∉ a.1 ∧ '=' ∉ a.2 ∧ dq ∉ a.2 ∧ '<' ∉ a.2

/-- A plain attribute name: not empty, without equals sign and without blank. -/
def PlainKey (k : List Char) : Prop :=
  k ≠ [] ∧ '=' ∉ k ∧ ' ' ∉ k

/-- The value of the first attribute whose name ends with `k`, or the empty string. -/
def valueOfFirstEndingWith (k : List Char) (attrs : List (List Char × List Char)) : List Char :=
  match attrs.find? (fun a => decide (k <:+ a.1)) with
  | some a => a.2
  | none => []

/-- Attributes named `id`, `max` and `y`: none is named `x`. -/
def maxAttrs : List (List Char × List Char) :=
  [("id".toList, "A".toList), ("max".toList, "1".toList), ("y".toList, "2".toList)]

/-- A well-formed vehicle record without an attribute named `x`. -/
def maxRecord : List Char :=
  vehicleRecord maxAttrs

/-- Attributes named `id` and `y` only. -/
def noXAttrs : List (List Char × List Char) :=
  [("id".toList, "A".toList), ("y".toList, "2".toList)]

/-- Attributes `id`, `x`, `y` and an unrecognised `lane`, with `x` last but one. -/
def sampleAttrs : List (List Char × List Char) :=
  [("y".toList, "2".toList), ("lane".toList, "e1".toList), ("x".toList, "1".toList),
    ("id".toList, "A".toList)]

/-! ## The step scheduler -/

/-- Translation of `ScheduleNextStateRead` of the training program. `ops` are the
callbacks that `NotifyCurrentState` (code of the bridge library) runs before it
returns. The result says whether the next firing was scheduled, and carries the global
variables at the end of the firing. -/
def Training.ScheduleNextStateRead (lib : Lib) (ops : List BridgeOp) (g : Globals) :
    Bool × Globals :=
  let g1 := if g.useSumoMobility then Training.ApplySumoMobility lib g.currentStep g
            else UpdateVehicleMetrics lib g
  let g2 := ops.foldl (fun s op => Training.runOp op s) g1
  if 0 < g2.maxSteps ∧ g2.maxSteps ≤ g2.currentStep then (false, g2) else (true, g2)

/-- Translation of `ScheduleNextStateRead` of the simple program: the next firing is
scheduled before `NotifyCurrentState` is called, on every path. -/
def Simple.ScheduleNextStateRead (lib : Lib) (ops : List BridgeOp) (g : Globals) :
    Bool × Globals :=
  let g1 := if ¬ g.useSumoMobility then UpdateVehicleMetrics lib g else g
  (true, ops.foldl (fun s op => Simple.runOp lib op s) g1)

/-- The callbacks of one notification: observation, reward, game-over, extra info, and
then `executeActions` with the received action. -/
def stepOps : List BridgeOp :=
  [.observation, .reward, .gameOver, .extraInfo, .executeActions]

/-! ## Startup of the training program -/

/-- The current time after a line: a timestep record with a non-empty `time` attribute
sets it, every other line keeps it. -/
def timeAfter (lib : Lib) (t : ℚ) (line : List Char) : ℚ :=
  if (strFind line "<timestep".toList).isSome then
    if ExtractAttribute line "time".toList ≠ [] then
      (lib.stod (ExtractAttribute line "time".toList)).getD t
    else t
  else t

/-- The vehicle state that `LoadSumoTrajectory` builds from an accepted record:
position from `x` and `y`, speed 0 without `speed` attribute, type `passenger` without
`type` attribute. -/
def recordState (lib : Lib) (line : List Char) : SumoVehicleState :=
  { position := ⟨(lib.stod (ExtractAttribute line "x".toList)).getD 0,
                 (lib.stod (ExtractAttribute line "y".toList)).getD 0, 0⟩,
    speed := if ExtractAttribute line "speed".toList = [] then 0
             else (lib.stod (ExtractAttribute line "speed".toList)).getD 0,
    vehicleType := if ExtractAttribute line "type".toList = [] then "passenger".toList
                   else ExtractAttribute line "type".toList }

/-- An accepted vehicle record: the time of the timestep it is scoped to, its
identifier and its state. -/
structure Record where
  time : ℚ
  id : List Char
  state : SumoVehicleState
deriving DecidableEq, Repr

/-- The accepted vehicle records of a trace, in file order, each with the time in force
where it stands; `t` is the time in force at the start. -/
def records (lib : Lib) : ℚ → List (List Char) → List Record
  | _, [] => []
  | t, line :: rest =>
    match acceptedId line with
    | some s => ⟨t, s, recordState lib line⟩ :: records lib t rest
    | none => records lib (timeAfter lib t line) rest

/-- The stores of `LoadSumoTrajectory` for a list of accepted records, in order. -/
def storeAll : Globals → List Record → Except LoadError Globals
  | g, [] => .ok g
  | g, r :: rest =>
    match storeVehicle g r.time r.id r.state with
    | .error e => .error e
    | .ok g1 => storeAll g1 rest

/-- The tick duration that the loader uses: the configured one when it is positive,
and the double 0.1 otherwise. -/
def tickDuration (g : Globals) : ℚ :=
  if g.envStepTime ≤ 0 then roundDouble (1 / 10) else g.envStepTime

/-- Specification, section 4.1: the tick of a time is `round (time / tickDuration)`,
with the quotient of doubles that the programs compute. -/
def specTick (d t : ℚ) : Nat :=
  (roundHalfAway (roundDouble (t / d))).toNat

/-- The frame sequence after an entry was placed at a tick: the sequence is grown with
empty frames up to the tick, and the entry is assigned in the frame of the tick. -/
def placeEntry (traj : List Frame) (tick k : Nat) (state : SumoVehicleState) : List Frame :=
  (traj ++ List.replicate (tick + 1 - traj.length) []).set tick
    (frameAssign (traj.getD tick []) k state)

/-- The effect of one store on the frame sequence and the registry, for the tick
duration `d`. -/
def specStore (d : ℚ) (acc : List Frame × List (List Char × Nat)) (r : Record) :
    List Frame × List (List Char × Nat) :=
  (placeEntry acc.1 (specTick d r.time) (registerId acc.2 r.id).1 r.state,
   (registerId acc.2 r.id).2)

/-! ## Traces on which the loader returns -/

/-- The numeric attributes that the loader converts on a line are accepted by
`std::stod`: the `time` of a timestep record when it is not empty, and `x`, `y` and a
non-empty `speed` of an accepted vehicle record. -/
def lineParses (lib : Lib) (line : List Char) : Bool :=
  if (strFind line "<timestep".toList).isSome then
    decide (ExtractAttribute line "time".toList = [])
      || (lib.stod (ExtractAttribute line "time".toList)).isSome
  else if (acceptedId line).isSome then
    (lib.stod (ExtractAttribute line "x".toList)).isSome
      && (lib.stod (ExtractAttribute line "y".toList)).isSome
      && (decide (ExtractAttribute line "speed".toList = [])
          || (lib.stod (ExtractAttribute line "speed".toList)).isSome)
  else true

/-- A vehicle record with an `x` attribute that is not a number. -/
def badNumberLine : List Char :=
  vehicleRecord [("id".toList, "A".toList), ("x".toList, "abc".toList),
    ("y".toList, "2".toList)]

/-- A timestep record with time 4294967295, which is `2 ^ 32 - 1`. -/
def lateTimestepLine : List Char :=
  "<timestep ".toList ++ attributeText "time" "4294967295" ++ ">".toList

/-- The accepted record of vehicle B of the example trace. -/
def recordB : Record :=
  ⟨0, "B".toList, { position := ⟨5, 6, 0⟩, speed := 0, vehicleType := "passenger".toList }⟩

/-- The state of a vehicle at the origin, without speed, of the default type. -/
def originState : SumoVehicleState :=
  { position := ⟨0, 0, 0⟩, speed := 0, vehicleType := "passenger".toList }

/-- A vehicle record with identifier `b` at (1, 0). -/
def bLineOne : List Char :=
  vehicleRecord [("id".toList, "b".toList), ("x".toList, "1".toList), ("y".toList, "0".toList)]

/-- A vehicle record with identifier `b` at (2, 0). -/
def bLineTwo : List Char :=
  vehicleRecord [("id".toList, "b".toList), ("x".toList, "2".toList), ("y".toList, "0".toList)]

/-- A trace without timestep record: two records of vehicle `b`, then `2 ^ 32` records
with pairwise distinct other identifiers. -/
def overwriteTrace : List (List Char) :=
  bLineOne :: bLineTwo :: (List.range U32).map unaryLine

/-- A trace-mode state with a roster of `n` constant-position nodes and a single frame
that has an entry for each of the actors `0, ..., n - 1`. -/
def fullRosterState (n : Nat) : Globals :=
  withRoster { Globals.initial with
                 sumoTrajectory := [(List.range n).map (fun i => (i, originState))] }
    (List.replicate n constantNode)

/-- A timestep record with time 0.15. -/
def earlyTimestepLine : List Char :=
  "<timestep ".toList ++ attributeText "time" "0.15" ++ ">".toList

/-- A timestep record with time 0.85. -/
def laterTimestepLine : List Char :=
  "<timestep ".toList ++ attributeText "time" "0.85" ++ ">".toList

/-- A vehicle record with identifier `A` at (512.37, 2) with speed 3. -/
def decimalLineA : List Char :=
  vehicleRecord [("id".toList, "A".toList), ("x".toList, "512.37".toList),
    ("y".toList, "2".toList), ("speed".toList, "3".toList)]

/-- A trace with decimal times: a record of `A` at time 0.15 and the record of `B` of
the example trace at time 0.85. -/
def decimalTrace : List (List Char) :=
  [earlyTimestepLine, decimalLineA, laterTimestepLine, vehicleLineB]

/-- A trace with two records of the identifier `b` in the timestep of time 0.15. -/
def repeatTrace : List (List Char) :=
  [earlyTimestepLine, bLineOne, bLineTwo]

/-- The global variables after loading `decimalTrace` with the default tick duration:
ten frames, the record of `A` in frame 1 and the record of `B` in frame 9. -/
def decimalLoaded : Globals :=
  { Globals.initial with
      sumoTrajectory :=
        [[], [(0, { position := ⟨4506854181788713 / 8796093022208, 2, 0⟩, speed := 3,
                    vehicleType := "passenger".toList })],
         [], [], [], [], [], [], [],
         [(1, { position := ⟨5, 6, 0⟩, speed := 0, vehicleType := "passenger".toList })]],
      sumoIdToNodeIndex := [("A".toList, 0), ("B".toList, 1)],
      sumoVehicleCount := 2,
      sumoMaxTime := 8106479329266893 / 9007199254740992 }

/-- The accepted record of `decimalLineA` in `decimalTrace`, scoped to the double
nearest to 0.15. -/
def decimalRecordA : Record :=
  ⟨roundDouble (15 / 100), "A".toList,
    { position := ⟨roundDouble (51237 / 100), 2, 0⟩, speed := 3,
      vehicleType := "passenger".toList }⟩

/-- The accepted record of `vehicleLineB` in `decimalTrace`, scoped to the double
nearest to 0.85. -/
def decimalRecordB : Record :=
  ⟨roundDouble (85 / 100), "B".toList,
    { position := ⟨5, 6, 0⟩, speed := 0, vehicleType := "passenger".toList }⟩

/-- The global variables after loading `repeatTrace` with the default tick duration:
two frames, the later record of `b` in frame 1. -/
def repeatLoaded : Globals :=
  { Globals.initial with
      sumoTrajectory :=
        [[], [(0, { position := ⟨2, 0, 0⟩, speed := 0, vehicleType := "passenger".toList })]],
      sumoIdToNodeIndex := [("b".toList, 0)],
      sumoVehicleCount := 1,
      sumoMaxTime := 3602879701896397 / 36028797018963968 }

/-- The accepted record of `bLineOne` in `repeatTrace`. -/
def repeatRecordOne : Record :=
  ⟨roundDouble (15 / 100), "b".toList,
    { position := ⟨1, 0, 0⟩, speed := 0, vehicleType := "passenger".toList }⟩

/-- The accepted record of `bLineTwo` in `repeatTrace`. -/
def repeatRecordTwo : Record :=
  ⟨roundDouble (15 / 100), "b".toList,
    { position := ⟨2, 0, 0⟩, speed := 0, vehicleType := "passenger".toList }⟩

/-! ## Theorems -/

/-! ### Rounding -/

/-- Zero is a floating-point number of every format. -/
theorem roundBinary_zero (p : Nat) (emin : Int) : roundBinary p emin 0 = 0 := by
  simp [roundBinary]

/-- Zero is a double. -/
@[simp] theorem roundDouble_zero : roundDouble 0 = 0 :=
  roundBinary_zero 53 (-1074)

/-- Zero is a float. -/
@[simp] theorem roundFloat_zero : roundFloat 0 = 0 :=
  roundBinary_zero 24 (-149)

/-- Powers of two are positive. -/
theorem pow2_pos (e : Int) : 0 < pow2 e := by
  unfold pow2
  split
  · exact Nat.cast_pos.mpr (Nat.two_pow_pos _)
  · apply div_pos one_pos
    exact Nat.cast_pos.mpr (Nat.two_pow_pos _)

/-- The nearest integer of a rational that is not negative is not negative. -/
theorem roundHalfEven_nonneg (q : ℚ) (h : 0 ≤ q) : 0 ≤ roundHalfEven q := by
  have hf : 0 ≤ Rat.floor q := Rat.le_floor.mpr (by simpa using h)
  unfold roundHalfEven
  simp only
  split
  · exact hf
  · split
    · omega
    · split
      · exact hf
      · omega

/-- Rounding a rational that is not negative gives a number that is not negative. -/
theorem roundBinary_nonneg (p : Nat) (emin : Int) (q : ℚ) (h : 0 ≤ q) :
    0 ≤ roundBinary p emin q := by
  unfold roundBinary
  split
  · exact le_refl 0
  · have hlt : ¬ q < 0 := not_lt.mpr h
    simp only [hlt, if_false]
    apply mul_nonneg
    · exact_mod_cast roundHalfEven_nonneg _ (div_nonneg h (le_of_lt (pow2_pos _)))
    · exact le_of_lt (pow2_pos _)

/-- Rounding to double keeps a number that is not negative so. -/
theorem roundDouble_nonneg (q : ℚ) (h : 0 ≤ q) : 0 ≤ roundDouble q :=
  roundBinary_nonneg 53 (-1074) q h

/-- The loop of `natLog2` stays at or below `k` on numbers below `2 ^ (k + 1)`. -/
theorem natLog2Loop_le (fuel : Nat) : ∀ (n k : Nat), n < 2 ^ (k + 1) →
    natLog2Loop fuel n ≤ k := by
  induction fuel with
  | zero => intro n k _; exact Nat.zero_le k
  | succ f ih =>
    intro n k hn
    unfold natLog2Loop
    split
    · rename_i h2
      cases k with
      | zero => omega
      | succ j =>
        have : n / 2 < 2 ^ (j + 1) := by
          rw [Nat.div_lt_iff_lt_mul (by decide)]
          rw [pow_succ] at hn
          exact hn
        have := ih (n / 2) j this
        omega
    · exact Nat.zero_le k

/-- Half-even rounding leaves an integer as it is. -/
theorem roundHalfEven_intCast (z : Int) : roundHalfEven (z : ℚ) = z := by
  have hf : Rat.floor (z : ℚ) = z := by
    rw [Rat.floor_def']
    simp
  unfold roundHalfEven
  simp only [hf, sub_self]
  rw [if_pos (by norm_num)]

/-- A natural number whose binary logarithm is at most `p - 1` is a number of the
format with `p` digits: rounding leaves it as it is. -/
theorem roundBinary_natCast (p : Nat) (emin : Int) (n : Nat) (hemin : emin ≤ 0)
    (hn : n < 2 ^ p) (hp : 0 < p) : roundBinary p emin (n : ℚ) = (n : ℚ) := by
  unfold roundBinary
  by_cases h0 : (n : ℚ) = 0
  · rw [if_pos h0, h0]
  · rw [if_neg h0]
    have hlt : ¬ ((n : ℚ) < 0) := not_lt.mpr (Nat.cast_nonneg n)
    simp only [hlt, if_false]
    have hlog : log2Floor (n : ℚ) ≤ (p : Int) - 1 := by
      have hnl : natLog2 n ≤ p - 1 := by
        unfold natLog2
        apply natLog2Loop_le
        rw [Nat.sub_add_cancel hp]
        exact hn
      have h1 : natLog2 1 = 0 := rfl
      unfold log2Floor
      simp only [Rat.num_natCast, Rat.den_natCast, Int.toNat_ofNat, h1]
      split <;> omega
    have hu : max (log2Floor (n : ℚ) - ((p : Int) - 1)) emin ≤ 0 := by
      apply max_le
      · omega
      · exact hemin
    generalize max (log2Floor (n : ℚ) - ((p : Int) - 1)) emin = u at hu
    by_cases hu0 : 0 ≤ u
    · have : u = 0 := le_antisymm hu hu0
      subst this
      have hp1 : pow2 0 = 1 := by simp [pow2]
      rw [hp1, div_one, mul_one]
      have := roundHalfEven_intCast (n : Int)
      rw [Int.cast_natCast] at this
      rw [this, Int.cast_natCast]
    · have hpw : pow2 u = 1 / ((2 ^ (-u).toNat : Nat) : ℚ) := by
        unfold pow2
        rw [if_neg hu0]
      rw [hpw]
      have hk : ((2 ^ (-u).toNat : Nat) : ℚ) ≠ 0 :=
        ne_of_gt (Nat.cast_pos.mpr (Nat.two_pow_pos _))
      have hq : (n : ℚ) / (1 / ((2 ^ (-u).toNat : Nat) : ℚ))
          = (((n * 2 ^ (-u).toNat : Nat) : Int) : ℚ) := by
        rw [div_div_eq_mul_div, div_one]
        push_cast
        ring
      rw [hq, roundHalfEven_intCast]
      push_cast
      field_simp

/-- Every natural number up to `2 ^ 24` is a float. -/
theorem roundFloat_natCast (n : Nat) (h : n ≤ 2 ^ 24) : roundFloat (n : ℚ) = (n : ℚ) := by
  rcases Nat.lt_or_eq_of_le h with hlt | heq
  · exact roundBinary_natCast 24 (-149) n (by decide) hlt (by decide)
  · subst heq
    decide!

/-- The double 0.1 is positive. -/
theorem roundDouble_tenth_pos : 0 < roundDouble (1 / 10) := by
  decide!

/-! ### `executeActions` and `gameOver` -/

/-- C1, as stated, fails: in `timeLimitState` the training `MyGetGameOver` returns
true (the simulation-time limit is reached), yet `MyExecuteActions` returns success
and moves the tick from 5 to 6. -/
theorem training_executeActions_ignores_time_limit :
    Training.MyGetGameOver timeLimitState = true
    ∧ (Training.MyExecuteActions timeLimitState).1 = true
    ∧ timeLimitState.currentStep = 5
    ∧ (Training.MyExecuteActions timeLimitState).2.currentStep = 6 := by
  refine ⟨?_, ?_, ?_, ?_⟩ <;>
    simp [Training.MyGetGameOver, Training.MyExecuteActions, timeLimitState, Globals.initial, U32]

/-- C1, amended: the training `MyExecuteActions` fails exactly when the step budget is
exhausted (`maxSteps > 0` and `currentStep >= maxSteps`), and then leaves every global
variable unchanged; in every other state, whatever the clock and the time limit are,
it succeeds and only replaces `currentStep` by `currentStep + 1` modulo `2 ^ 32`,
which is `currentStep + 1` unless the counter is at its largest value. -/
theorem training_executeActions_step_budget (g : Globals) :
    ((Training.MyExecuteActions g).1 = false ↔ (0 < g.maxSteps ∧ g.maxSteps ≤ g.currentStep))
    ∧ ((0 < g.maxSteps ∧ g.maxSteps ≤ g.currentStep) → Training.MyExecuteActions g = (false, g))
    ∧ (¬ (0 < g.maxSteps ∧ g.maxSteps ≤ g.currentStep) →
        Training.MyExecuteActions g
          = (true, { g with currentStep := (g.currentStep + 1) % U32 }))
    ∧ (¬ (0 < g.maxSteps ∧ g.maxSteps ≤ g.currentStep) → g.currentStep + 1 < U32 →
        (Training.MyExecuteActions g).2.currentStep = g.currentStep + 1) := by
  by_cases h : 0 < g.maxSteps ∧ g.maxSteps ≤ g.currentStep
  · simp [Training.MyExecuteActions, h]
  · refine ⟨?_, ?_, ?_, ?_⟩
    · simp [Training.MyExecuteActions, h]
    · intro h1; exact absurd h1 h
    · intro _; simp [Training.MyExecuteActions, h]
    · intro _ hlt
      simp only [Training.MyExecuteActions, h, if_false]
      exact Nat.mod_eq_of_lt hlt

/-- C2, as stated, fails: in `terminalState` the simple `MyGetGameOver` returns true
(tick 1000), yet `MyExecuteActions` returns success and moves the tick to 1001. -/
theorem simple_executeActions_after_gameOver :
    Simple.MyGetGameOver terminalState = true
    ∧ (Simple.MyExecuteActions terminalState).1 = true
    ∧ terminalState.currentStep = 1000
    ∧ (Simple.MyExecuteActions terminalState).2.currentStep = 1001 := by
  refine ⟨?_, ?_, ?_, ?_⟩ <;>
    simp [Simple.MyGetGameOver, Simple.MyExecuteActions, terminalState, Globals.initial, U32]

/-- C2, amended: the simple `MyExecuteActions` has no terminal guard. In every state,
also when `MyGetGameOver` is true, it returns success and only replaces `currentStep`
by `currentStep + 1` modulo `2 ^ 32`. -/
theorem simple_executeActions_always_advances (g : Globals) :
    (Simple.MyExecuteActions g).1 = true
    ∧ (Simple.MyExecuteActions g).2 = { g with currentStep := (g.currentStep + 1) % U32 }
    ∧ (Simple.MyExecuteActions g).2.currentStep = (g.currentStep + 1) % U32 := by
  simp [Simple.MyExecuteActions]

/-! ### Shape of the observation -/

/-- Every actor contributes three values to the observation. -/
theorem actorValues_length (ms : List VehicleMetrics) (i : Nat) :
    (actorValues ms i).length = 3 := by
  unfold actorValues
  split
  · split <;> rfl
  · rfl

/-- Length of a `flatMap` whose pieces all have the same length. -/
theorem flatMap_length_const {α β : Type} (f : α → List β) (c : Nat)
    (h : ∀ a, (f a).length = c) (l : List α) :
    (l.flatMap f).length = c * l.length := by
  induction l with
  | nil => simp
  | cons a t ih => simp [List.flatMap_cons, h, ih, Nat.mul_succ, Nat.add_comm]

/-- The box built from the stored metrics holds `4 + 3 * nodeNum` values. -/
theorem buildObservation_length (g : Globals) :
    (buildObservation g).values.length = 4 + 3 * g.nodeNum := by
  simp [buildObservation, flatMap_length_const _ 3 (actorValues_length g.vehicleMetrics)]
  omega

/-- The replay and the metrics refresh never write `g_nodeNum`. -/
theorem UpdateVehicleMetrics_nodeNum (lib : Lib) (g : Globals) :
    (UpdateVehicleMetrics lib g).nodeNum = g.nodeNum := by
  unfold UpdateVehicleMetrics InitializeVehicleMetrics
  by_cases h1 : g.vehicleMetrics.length ≠ g.nodes.length <;>
    by_cases h2 : g.useSumoMobility = true <;> simp [h1, h2]

/-- The simple `ApplySumoMobility` never writes `g_nodeNum`. -/
theorem simple_ApplySumoMobility_nodeNum (lib : Lib) (t : Nat) (g : Globals) :
    (Simple.ApplySumoMobility lib t g).nodeNum = g.nodeNum := by
  unfold Simple.ApplySumoMobility replayFrame
  split <;> simp [UpdateVehicleMetrics_nodeNum]

/-- C3: for every roster size `nodeNum` and every state of the metrics (and of
everything else), the observation of the simple program and the observation of the
training program both hold exactly `4 + 3 * nodeNum` values. -/
theorem observation_length (lib : Lib) (g : Globals) :
    (Simple.MyGetObservation lib g).1.values.length = 4 + 3 * g.nodeNum
    ∧ (Training.MyGetObservation g).values.length = 4 + 3 * g.nodeNum := by
  constructor
  · simp only [Simple.MyGetObservation, buildObservation_length]
    split <;> simp [simple_ApplySumoMobility_nodeNum]
  · exact buildObservation_length g

/-! ### The game-over predicate -/

/-- C5: the training `MyGetGameOver` returns true if and only if the step budget is
set and reached, or the simulation-time limit is set and reached by the clock. -/
theorem training_gameOver_iff (g : Globals) :
    Training.MyGetGameOver g = true ↔
      (0 < g.maxSteps ∧ g.maxSteps ≤ g.currentStep)
      ∨ (0 < g.simulationTimeLimit ∧ g.simulationTimeLimit ≤ g.now) := by
  simp [Training.MyGetGameOver]

/-- C6: with the same budgets, a state with a tick and a clock at least as large as
those of a state where game-over holds is itself game-over, for the predicate of the
training program and for the predicate of the simple program. -/
theorem gameOver_monotone (g g2 : Globals)
    (hsteps : g2.maxSteps = g.maxSteps)
    (hlimit : g2.simulationTimeLimit = g.simulationTimeLimit)
    (htick : g.currentStep ≤ g2.currentStep) (hclock : g.now ≤ g2.now) :
    (Training.MyGetGameOver g = true → Training.MyGetGameOver g2 = true)
    ∧ (Simple.MyGetGameOver g = true → Simple.MyGetGameOver g2 = true) := by
  constructor
  · simp only [Training.MyGetGameOver, Bool.or_eq_true, decide_eq_true_eq, hsteps, hlimit]
    rintro (⟨h1, h2⟩ | ⟨h1, h2⟩)
    · exact Or.inl ⟨h1, le_trans h2 htick⟩
    · exact Or.inr ⟨h1, le_trans h2 hclock⟩
  · simp only [Simple.MyGetGameOver, decide_eq_true_eq]
    intro h
    exact le_trans h htick

/-- Witness for C6: `budgetState` (budget 10 reached at tick 10) and `laterState`
(tick 1500, clock 7 s) have the same budgets, and game-over carries over. -/
theorem gameOver_monotone_witness :
    Training.MyGetGameOver budgetState = true
    ∧ (Training.MyGetGameOver budgetState = true → Training.MyGetGameOver laterState = true)
    ∧ (Simple.MyGetGameOver budgetState = true → Simple.MyGetGameOver laterState = true) :=
  ⟨by simp [Training.MyGetGameOver, budgetState, Globals.initial],
   gameOver_monotone budgetState laterState rfl rfl
     (by simp [budgetState, laterState])
     (by simp [budgetState, laterState, Globals.initial])⟩

/-! ### Frame conditions used below -/

/-- `UpdateVehicleMetrics` writes `g_vehicleMetrics` and nothing else. -/
theorem UpdateVehicleMetrics_frame (lib : Lib) (g : Globals) :
    UpdateVehicleMetrics lib g
      = { g with vehicleMetrics := (UpdateVehicleMetrics lib g).vehicleMetrics } := by
  unfold UpdateVehicleMetrics InitializeVehicleMetrics
  by_cases h1 : g.vehicleMetrics.length ≠ g.nodes.length <;>
    by_cases h2 : g.useSumoMobility = true <;> simp [h1, h2]

/-- `UpdateVehicleMetrics` keeps the tick. -/
theorem UpdateVehicleMetrics_currentStep (lib : Lib) (g : Globals) :
    (UpdateVehicleMetrics lib g).currentStep = g.currentStep := by
  rw [UpdateVehicleMetrics_frame]

/-- The simple `ApplySumoMobility` keeps the tick. -/
theorem simple_ApplySumoMobility_currentStep (lib : Lib) (t : Nat) (g : Globals) :
    (Simple.ApplySumoMobility lib t g).currentStep = g.currentStep := by
  unfold Simple.ApplySumoMobility replayFrame
  split <;> simp [UpdateVehicleMetrics_currentStep]

/-- The simple `MyGetObservation` keeps the tick. -/
theorem simple_MyGetObservation_currentStep (lib : Lib) (g : Globals) :
    (Simple.MyGetObservation lib g).2.currentStep = g.currentStep := by
  simp only [Simple.MyGetObservation]
  split
  · exact simple_ApplySumoMobility_currentStep lib _ g
  · rfl

/-! ### The terminal state of the simple program -/

/-- Effect of one bridge operation of the simple program on the tick. -/
theorem simple_runOp_currentStep (lib : Lib) (op : BridgeOp) (g : Globals) :
    (Simple.runOp lib op g).currentStep
      = if op = .executeActions then (g.currentStep + 1) % U32 else g.currentStep := by
  cases op <;> simp [Simple.runOp, Simple.MyExecuteActions, simple_MyGetObservation_currentStep]

/-- The tick after a sequence of bridge operations of the simple program: the number
of `executeActions` calls is added modulo `2 ^ 32`. -/
theorem simple_runOps_currentStep (lib : Lib) (ops : List BridgeOp) (g : Globals)
    (h : g.currentStep < U32) :
    (Simple.runOps lib ops g).currentStep
      = (g.currentStep + ops.count .executeActions) % U32 := by
  induction ops generalizing g with
  | nil => simp [Simple.runOps, Nat.mod_eq_of_lt h]
  | cons op rest ih =>
    have hpos : 0 < U32 := by simp [U32]
    have hstep := simple_runOp_currentStep lib op g
    have hlt : (Simple.runOp lib op g).currentStep < U32 := by
      rw [hstep]; split
      · exact Nat.mod_lt _ hpos
      · exact h
    have := ih (Simple.runOp lib op g) hlt
    simp only [Simple.runOps, List.foldl_cons] at this ⊢
    rw [this, hstep]
    by_cases hop : op = .executeActions
    · subst hop
      simp only [if_true, List.count_cons_self]
      rw [Nat.mod_add_mod]; congr 1; omega
    · have hne : (op == BridgeOp.executeActions) = false := by simp [hop]
      simp [hop, List.count_cons, hne]

/-- A run of `n` calls of `executeActions` contains `n` of them. -/
theorem count_replicate_executeActions (n : Nat) :
    (List.replicate n BridgeOp.executeActions).count .executeActions = n := by
  simp

/-- C7, as stated, fails: starting the simple program from tick 0, after the first
1000 of `2 ^ 32` consecutive `executeActions` calls `MyGetGameOver` returns true; at
the end of the sequence the 32-bit tick has wrapped to 0 and `MyGetGameOver` returns
false again. -/
theorem simple_gameOver_reverts :
    Globals.initial.currentStep = 0
    ∧ Simple.MyGetGameOver (Simple.runOps sampleLib
        ((List.replicate U32 BridgeOp.executeActions).take 1000) Globals.initial) = true
    ∧ Simple.MyGetGameOver (Simple.runOps sampleLib
        (List.replicate U32 BridgeOp.executeActions) Globals.initial) = false := by
  have h0 : Globals.initial.currentStep < U32 := by simp [Globals.initial, U32]
  refine ⟨rfl, ?_, ?_⟩
  · simp only [Simple.MyGetGameOver, decide_eq_true_eq]
    rw [simple_runOps_currentStep _ _ _ h0, List.take_replicate,
      count_replicate_executeActions]
    simp [Globals.initial, U32]
  · simp only [Simple.MyGetGameOver, decide_eq_false_iff_not]
    rw [simple_runOps_currentStep _ _ _ h0, count_replicate_executeActions]
    simp [Globals.initial]

/-- C7, amended: in the simple program, along a sequence of bridge operations that
starts at tick 0 and holds fewer than `2 ^ 32` calls of `executeActions` (so that the
32-bit tick does not wrap), once `MyGetGameOver` has returned true after a prefix of
the sequence it returns true after every longer prefix. -/
theorem simple_gameOver_latched (lib : Lib) (g : Globals) (ops later : List BridgeOp)
    (hstart : g.currentStep = 0)
    (hcount : (ops ++ later).count .executeActions < U32)
    (hover : Simple.MyGetGameOver (Simple.runOps lib ops g) = true) :
    Simple.MyGetGameOver (Simple.runOps lib (ops ++ later) g) = true := by
  have h0 : g.currentStep < U32 := by simp [hstart, U32]
  simp only [Simple.MyGetGameOver, decide_eq_true_eq] at hover ⊢
  rw [simple_runOps_currentStep _ _ _ h0] at hover ⊢
  rw [hstart, Nat.zero_add] at hover ⊢
  rw [Nat.mod_eq_of_lt hcount]
  have hle : ops.count .executeActions ≤ (ops ++ later).count .executeActions := by
    simp [List.count_append]
  rw [Nat.mod_eq_of_lt (lt_of_le_of_lt hle hcount)] at hover
  exact le_trans hover hle

/-- Witness for C7 amended: 1000 calls of `executeActions` reach game-over, and it
still holds after an observation and one more call. -/
theorem simple_gameOver_latched_witness :
    Simple.MyGetGameOver (Simple.runOps sampleLib
      (List.replicate 1000 BridgeOp.executeActions
        ++ [BridgeOp.observation, BridgeOp.executeActions]) Globals.initial) = true :=
  simple_gameOver_latched sampleLib Globals.initial
    (List.replicate 1000 BridgeOp.executeActions)
    [BridgeOp.observation, BridgeOp.executeActions] rfl
    (by
      rw [List.count_append, count_replicate_executeActions]
      simp [U32, List.count_cons])
    (by
      have h0 : Globals.initial.currentStep < U32 := by simp [Globals.initial, U32]
      simp only [Simple.MyGetGameOver, decide_eq_true_eq]
      rw [simple_runOps_currentStep _ _ _ h0, count_replicate_executeActions]
      simp [Globals.initial, U32])

/-! ### The frame index -/

/-- C8: for a non-empty trajectory (whose frame count fits 32 bits, as every loaded
trajectory does) and every tick `t`, the frame index of the simple program, and of the
training program with looping off, is `min t (frameCount - 1)`, hence `frameCount - 1`
for `t >= frameCount`; the frame index of the training program with looping on is
`t % frameCount`. In trace mode `ApplySumoMobility` replays the frame at that index. -/
theorem frame_index_policy (lib : Lib) (g : Globals) (t : Nat)
    (hne : g.sumoTrajectory ≠ []) (hlen : g.sumoTrajectory.length < U32) :
    Simple.clampedStep g t = min t (g.sumoTrajectory.length - 1)
    ∧ (g.sumoTrajectory.length ≤ t → Simple.clampedStep g t = g.sumoTrajectory.length - 1)
    ∧ (g.loopSumoTrajectory = false →
        Training.safeIndex g t = min t (g.sumoTrajectory.length - 1))
    ∧ (g.loopSumoTrajectory = false → g.sumoTrajectory.length ≤ t →
        Training.safeIndex g t = g.sumoTrajectory.length - 1)
    ∧ (g.loopSumoTrajectory = true → Training.safeIndex g t = t % g.sumoTrajectory.length)
    ∧ (g.useSumoMobility = true →
        Simple.ApplySumoMobility lib t g
          = replayFrame lib (g.sumoTrajectory.getD (Simple.clampedStep g t) []) g
        ∧ Training.ApplySumoMobility lib t g
          = replayFrame lib (g.sumoTrajectory.getD (Training.safeIndex g t) []) g) := by
  have hpos : 0 < g.sumoTrajectory.length := List.length_pos.mpr hne
  have hmod : g.sumoTrajectory.length % U32 = g.sumoTrajectory.length := Nat.mod_eq_of_lt hlen
  have hpred : (g.sumoTrajectory.length - 1) % U32 = g.sumoTrajectory.length - 1 :=
    Nat.mod_eq_of_lt (by omega)
  have hwrap : (g.sumoTrajectory.length + U32 - 1) % U32 = g.sumoTrajectory.length - 1 := by
    have : g.sumoTrajectory.length + U32 - 1 = (g.sumoTrajectory.length - 1) + U32 := by omega
    rw [this, Nat.add_mod_right, hpred]
  refine ⟨?_, ?_, ?_, ?_, ?_, ?_⟩
  · simp [Simple.clampedStep, hpred]
  · intro hle
    simp only [Simple.clampedStep, hpred]
    omega
  · intro hloop
    simp [Training.safeIndex, hloop, hmod, hwrap]
  · intro hloop hle
    simp only [Training.safeIndex, hloop, hmod, hwrap]
    simp
    omega
  · intro hloop
    simp [Training.safeIndex, hloop, hmod, hpos]
  · intro huse
    simp [Simple.ApplySumoMobility, Training.ApplySumoMobility, huse, hne]

/-- Witness for C8: with three frames, tick 7 resolves to frame 2 under Clamp and to
frame `7 % 3 = 1` under Loop. -/
theorem frame_index_policy_witness :
    Simple.clampedStep threeFrameState 7 = 2 ∧ Training.safeIndex threeFrameState 7 = 1 :=
  have h := frame_index_policy sampleLib threeFrameState 7
    (by simp [threeFrameState]) (by simp [threeFrameState, U32])
  ⟨by rw [h.1]; simp [threeFrameState],
   by rw [h.2.2.2.2.1 (by simp [threeFrameState])]; simp [threeFrameState]⟩

/-! ### Lookup in the containers -/

/-- Lookup after an assignment in an unordered map. -/
theorem mapFind_mapAssign {K V : Type} [DecidableEq K] (m : List (K × V)) (k : K) (v : V)
    (i : K) : mapFind (mapAssign m k v) i = if i = k then some v else mapFind m i := by
  induction m with
  | nil => simp [mapAssign, mapFind]
  | cons e rest ih =>
    obtain ⟨k1, v1⟩ := e
    by_cases hk : k = k1
    · subst hk
      by_cases hi : i = k <;> simp [mapAssign, mapFind, hi]
    · by_cases hi : i = k
      · subst hi
        simp [mapAssign, mapFind, hk, ih]
      · by_cases hi1 : i = k1
        · subst hi1; simp [mapAssign, mapFind, hk, hi]
        · simp [mapAssign, mapFind, hk, hi, hi1, ih]

/-- A key that is not among the keys of a map is not found. -/
theorem mapFind_eq_none {K V : Type} [DecidableEq K] (m : List (K × V)) (i : K)
    (h : i ∉ m.map Prod.fst) : mapFind m i = none := by
  induction m with
  | nil => rfl
  | cons e rest ih =>
    obtain ⟨k1, v1⟩ := e
    simp only [List.map_cons, List.mem_cons, not_or] at h
    simp [mapFind, h.1, ih h.2]

/-- Lookup in the snapshot of the specification: the entry of the frame, for indices
within the roster. -/
theorem mapFind_specSnapshot (frame : Frame) (n i : Nat) :
    mapFind (specSnapshot frame n) i = if i < n then mapFind frame i else none := by
  induction frame with
  | nil => simp [specSnapshot, mapFind]
  | cons e rest ih =>
    obtain ⟨k1, v1⟩ := e
    simp only [specSnapshot] at ih
    by_cases hk : k1 < n
    · by_cases hi : i = k1
      · subst hi; simp [specSnapshot, List.filter_cons, hk, mapFind]
      · simp [specSnapshot, List.filter_cons, hk, mapFind, hi, ih]
    · by_cases hi : i = k1
      · subst hi; simp [specSnapshot, List.filter_cons, hk, mapFind, ih]
      · simp [specSnapshot, List.filter_cons, hk, mapFind, hi, ih]

/-! ### The replay loop -/

/-- The replay loop keeps the size of the roster. -/
theorem applyEntry_nodes_length (acc : List Node × List (Nat × SumoVehicleState))
    (e : Nat × SumoVehicleState) : (applyEntry acc e).1.length = acc.1.length := by
  unfold applyEntry
  split <;> simp

/-- The replay loop keeps the size of the roster, over a whole frame. -/
theorem foldl_applyEntry_nodes_length (frame : Frame)
    (acc : List Node × List (Nat × SumoVehicleState)) :
    (frame.foldl applyEntry acc).1.length = acc.1.length := by
  induction frame generalizing acc with
  | nil => rfl
  | cons e rest ih => simp [List.foldl_cons, ih, applyEntry_nodes_length]

/-- Lookup in the snapshot left by the replay loop: the entry of the frame for an
index within the roster, and what the snapshot held before otherwise. -/
theorem mapFind_foldl_applyEntry (frame : Frame) (hkeys : (frame.map Prod.fst).Nodup)
    (acc : List Node × List (Nat × SumoVehicleState)) (i : Nat) :
    mapFind (frame.foldl applyEntry acc).2 i
      = match (if i < acc.1.length then mapFind frame i else none) with
        | some s => some s
        | none => mapFind acc.2 i := by
  induction frame generalizing acc with
  | nil => simp [mapFind]
  | cons e rest ih =>
    obtain ⟨k1, v1⟩ := e
    simp only [List.map_cons, List.nodup_cons] at hkeys
    rw [List.foldl_cons, ih hkeys.2, applyEntry_nodes_length]
    by_cases hi : i = k1
    · subst hi
      rw [mapFind_eq_none rest i hkeys.1]
      by_cases hlt : i < acc.1.length
      · have : ¬ acc.1.length ≤ i := by omega
        simp [applyEntry, this, hlt, mapFind, mapFind_mapAssign]
      · have : acc.1.length ≤ i := by omega
        simp [applyEntry, this, hlt]
    · by_cases hlt : acc.1.length ≤ k1
      · simp [applyEntry, hlt, mapFind, hi]
      · simp [applyEntry, hlt, mapFind, hi, mapFind_mapAssign]

/-! ### Metrics and aggregation in trace mode -/

/-- In trace mode `UpdateVehicleMetrics` stores, for every roster index, the metrics
read from the snapshot. -/
theorem UpdateVehicleMetrics_sumo (lib : Lib) (g : Globals) (huse : g.useSumoMobility = true) :
    (UpdateVehicleMetrics lib g).vehicleMetrics
      = (List.range g.nodes.length).map (sumoMetrics g.currentSumoState) := by
  unfold UpdateVehicleMetrics InitializeVehicleMetrics
  by_cases h1 : g.vehicleMetrics.length = g.nodes.length
  · simp [h1, huse]
  · simp [h1, huse]

/-- The first loop of `MyGetObservation`: it counts the active actors (modulo
`2 ^ 32`) and adds their speeds and coordinates one after the other, in double
arithmetic. -/
theorem foldl_accumulate (ms : List VehicleMetrics) (c : Nat) (a b d : ℚ) (hc : c < U32) :
    ms.foldl accumulate (c, a, b, d)
      = ((c + (ms.filter (fun m => m.active)).length) % U32,
         ((ms.filter (fun m => m.active)).map (fun m => m.speed)).foldl
            (fun s x => roundDouble (s + x)) a,
         ((ms.filter (fun m => m.active)).map (fun m => m.position.x)).foldl
            (fun s x => roundDouble (s + x)) b,
         ((ms.filter (fun m => m.active)).map (fun m => m.position.y)).foldl
            (fun s x => roundDouble (s + x)) d) := by
  induction ms generalizing c a b d with
  | nil => simp [Nat.mod_eq_of_lt hc]
  | cons m rest ih =>
    have hpos : 0 < U32 := by simp [U32]
    by_cases hact : m.active = true
    · rw [List.foldl_cons]
      have hstep : accumulate (c, a, b, d) m
          = ((c + 1) % U32, roundDouble (a + m.speed), roundDouble (b + m.position.x),
             roundDouble (d + m.position.y)) := by
        simp [accumulate, hact]
      rw [hstep, ih _ _ _ _ (Nat.mod_lt _ hpos)]
      simp only [List.filter_cons, hact, if_true, List.length_cons, List.map_cons,
        List.foldl_cons, Nat.mod_add_mod]
      refine Prod.ext ?_ rfl
      simp only
      congr 1
      omega
    · rw [List.foldl_cons]
      have hstep : accumulate (c, a, b, d) m = (c, a, b, d) := by
        simp [accumulate, hact]
      rw [hstep, ih _ _ _ _ hc]
      simp only [List.filter_cons, hact]
      rfl

/-- The active metrics among those read from a snapshot are those of the indices the
snapshot holds. -/
theorem filter_active_sumoMetrics (snap : List (Nat × SumoVehicleState)) (l : List Nat) :
    (l.map (sumoMetrics snap)).filter (fun m => m.active)
      = (l.filterMap (mapFind snap)).map
          (fun s => ({ position := s.position, speed := s.speed, active := true } :
            VehicleMetrics)) := by
  induction l with
  | nil => rfl
  | cons i rest ih =>
    cases hfind : mapFind snap i with
    | none => simp [List.filterMap_cons, hfind, sumoMetrics, List.filter_cons, ih]
    | some s => simp [List.filterMap_cons, hfind, sumoMetrics, List.filter_cons, ih]

/-- The four global values computed from metrics read from a snapshot are the global
statistics of the specification. -/
theorem globalStats_sumo (snap : List (Nat × SumoVehicleState)) (n : Nat) (hn : n < U32) :
    [roundFloat ((globalStats ((List.range n).map (sumoMetrics snap))).1 : ℚ),
     roundFloat (globalStats ((List.range n).map (sumoMetrics snap))).2.1,
     roundFloat (globalStats ((List.range n).map (sumoMetrics snap))).2.2.1,
     roundFloat (globalStats ((List.range n).map (sumoMetrics snap))).2.2.2]
      = specGlobalStats snap n := by
  have hpos : 0 < U32 := by simp [U32]
  have hle : ((List.range n).filterMap (mapFind snap)).length ≤ n := by
    have := List.length_filterMap_le (mapFind snap) (List.range n)
    simpa using this
  have hmod : ((List.range n).filterMap (mapFind snap)).length % U32
      = ((List.range n).filterMap (mapFind snap)).length :=
    Nat.mod_eq_of_lt (lt_of_le_of_lt hle hn)
  simp only [globalStats, foldl_accumulate _ _ _ _ _ hpos, filter_active_sumoMetrics,
    List.length_map, List.map_map, Nat.zero_add, hmod, specGlobalStats, specActive, doubleSum]
  by_cases hzero : ((List.range n).filterMap (mapFind snap)).length = 0
  · simp [hzero]
  · have hgt : 0 < ((List.range n).filterMap (mapFind snap)).length := Nat.pos_of_ne_zero hzero
    simp only [hzero, hgt, if_true, if_false]
    rfl

/-- The three per-actor values computed from metrics read from a snapshot are the
per-actor values of the specification. -/
theorem actorValues_sumo (snap : List (Nat × SumoVehicleState)) (n i : Nat) (hi : i < n) :
    actorValues ((List.range n).map (sumoMetrics snap)) i = specPerActor snap i := by
  have hget : ((List.range n).map (sumoMetrics snap))[i]? = some (sumoMetrics snap i) := by
    simp [List.getElem?_map, List.getElem?_range hi]
  simp only [actorValues, hget, specPerActor, sumoMetrics]
  cases mapFind snap i <;> simp

/-- Two functions that agree on the elements of a list have the same `flatMap`. -/
theorem flatMap_congr_mem {α β : Type} (f h : α → List β) (l : List α)
    (hfh : ∀ a ∈ l, f a = h a) : l.flatMap f = l.flatMap h := by
  induction l with
  | nil => rfl
  | cons a rest ih =>
    simp only [List.flatMap_cons]
    rw [hfh a (List.mem_cons_self a rest), ih (fun b hb => hfh b (List.mem_cons_of_mem a hb))]

/-- The feature vector of the specification depends on the snapshot through its
lookups only. -/
theorem specFeatureVector_congr (s1 s2 : List (Nat × SumoVehicleState)) (n : Nat)
    (h : ∀ i, mapFind s1 i = mapFind s2 i) :
    specFeatureVector s1 n = specFeatureVector s2 n := by
  have hfun : mapFind s1 = mapFind s2 := funext h
  have hper : specPerActor s1 = specPerActor s2 := by
    funext i
    simp only [specPerActor, h i]
  simp only [specFeatureVector, specGlobalStats, specActive, hfun, hper]

/-- The observation built from metrics read from a snapshot is the feature vector of
the specification for that snapshot. -/
theorem buildObservation_sumo (g : Globals) (snap : List (Nat × SumoVehicleState))
    (hm : g.vehicleMetrics = (List.range g.nodeNum).map (sumoMetrics snap))
    (hn : g.nodeNum < U32) :
    (buildObservation g).values = specFeatureVector snap g.nodeNum := by
  simp only [buildObservation, hm, specFeatureVector]
  rw [← globalStats_sumo snap g.nodeNum hn]
  rw [flatMap_congr_mem _ (specPerActor snap) (List.range g.nodeNum)
    (fun i hi => actorValues_sumo snap g.nodeNum i (List.mem_range.mp hi))]

/-- Replaying a frame in trace mode and building the observation gives the feature
vector of the specification for the snapshot of that frame. -/
theorem buildObservation_replayFrame (lib : Lib) (frame : Frame) (g : Globals)
    (huse : g.useSumoMobility = true) (hroster : g.nodes.length = g.nodeNum)
    (hn : g.nodeNum < U32) (hkeys : (frame.map Prod.fst).Nodup) :
    (buildObservation (replayFrame lib frame g)).values
      = specFeatureVector (specSnapshot frame g.nodeNum) g.nodeNum := by
  have hnum : (replayFrame lib frame g).nodeNum = g.nodeNum := by
    simp [replayFrame, UpdateVehicleMetrics_nodeNum]
  have hm : (replayFrame lib frame g).vehicleMetrics
      = (List.range (replayFrame lib frame g).nodeNum).map
          (sumoMetrics (frame.foldl applyEntry (g.nodes, [])).2) := by
    rw [hnum]
    have h := UpdateVehicleMetrics_sumo lib
      { g with nodes := (frame.foldl applyEntry (g.nodes, [])).1,
               currentSumoState := (frame.foldl applyEntry (g.nodes, [])).2 } huse
    simp only [foldl_applyEntry_nodes_length, hroster] at h
    exact h
  rw [buildObservation_sumo _ _ hm (by rw [hnum]; exact hn), hnum]
  apply specFeatureVector_congr
  intro i
  rw [mapFind_foldl_applyEntry frame hkeys, mapFind_specSnapshot]
  simp only [hroster]
  split <;> simp_all [mapFind]

/-! ### The observation and the current tick -/

/-- Keys of the frame selected by an index are distinct when they are in every frame. -/
theorem getD_keys_nodup (traj : List Frame) (i : Nat)
    (hkeys : ∀ f ∈ traj, (f.map Prod.fst).Nodup) :
    ((traj.getD i []).map Prod.fst).Nodup := by
  by_cases hi : i < traj.length
  · have hmem : traj.getD i [] ∈ traj := by
      rw [List.getD_eq_getElem traj [] hi]
      exact List.getElem_mem hi
    exact hkeys _ hmem
  · have : traj.getD i [] = [] := by
      rw [List.getD_eq_default]
      omega
    rw [this]
    exact List.nodup_nil

/-- C4, as stated, fails for the training program: in `staleState` (replay of tick 0,
then one successful `executeActions`) the tick is 1, and `MyGetObservation` returns
the aggregation of frame 0, `[1, 3, 1, 2, 1, 2, 3]`, while the aggregation of the
frame resolved from tick 1 is all zeros. -/
theorem training_observation_stale :
    staleState.currentStep = 1
    ∧ (Training.MyGetObservation staleState).values = [1, 3, 1, 2, 1, 2, 3]
    ∧ specFeatureVector (specSnapshot (staleState.sumoTrajectory.getD
        (specEffectiveIndex .clamp staleState.currentStep staleState.sumoTrajectory.length) [])
        staleState.nodeNum) staleState.nodeNum = [0, 0, 0, 0, 0, 0, 0] := by
  decide!

/-- C4, amended: in trace mode (trajectory loaded, roster of `nodeNum` nodes, distinct
keys within each frame), the simple `MyGetObservation` replays the frame resolved from
the current tick under Clamp and returns the feature vector of that frame, whatever
snapshot and metrics were stored before. The training `MyGetObservation` does not
replay; called right after `ApplySumoMobility (currentStep)`, as the step scheduler
does, it returns the feature vector of the frame resolved from the current tick under
the configured policy. -/
theorem observation_of_current_frame (lib : Lib) (g : Globals)
    (huse : g.useSumoMobility = true) (hne : g.sumoTrajectory ≠ [])
    (hlen : g.sumoTrajectory.length < U32)
    (hroster : g.nodes.length = g.nodeNum) (hn : g.nodeNum < U32)
    (hkeys : ∀ f ∈ g.sumoTrajectory, (f.map Prod.fst).Nodup) :
    (Simple.MyGetObservation lib g).1.values
      = specFeatureVector (specSnapshot (g.sumoTrajectory.getD
          (specEffectiveIndex .clamp g.currentStep g.sumoTrajectory.length) []) g.nodeNum)
          g.nodeNum
    ∧ (Training.MyGetObservation (Training.ApplySumoMobility lib g.currentStep g)).values
      = specFeatureVector (specSnapshot (g.sumoTrajectory.getD
          (specEffectiveIndex (if g.loopSumoTrajectory then .loop else .clamp)
            g.currentStep g.sumoTrajectory.length) []) g.nodeNum) g.nodeNum := by
  obtain ⟨hclamp, _, hoff, _, hon, happly⟩ := frame_index_policy lib g g.currentStep hne hlen
  obtain ⟨hsimple, htraining⟩ := happly huse
  constructor
  · simp only [Simple.MyGetObservation, huse, if_true, hsimple, hclamp, specEffectiveIndex]
    exact buildObservation_replayFrame lib _ g huse hroster hn (getD_keys_nodup _ _ hkeys)
  · simp only [Training.MyGetObservation, htraining]
    rw [buildObservation_replayFrame lib _ g huse hroster hn (getD_keys_nodup _ _ hkeys)]
    cases hloop : g.loopSumoTrajectory with
    | false => simp [hoff hloop, specEffectiveIndex]
    | true => simp [hon hloop, specEffectiveIndex]

/-- Witness for C4 amended: in `twoFrameState` (tick 0) both observations are the
feature vector of frame 0. -/
theorem observation_of_current_frame_witness :
    (Simple.MyGetObservation sampleLib twoFrameState).1.values
      = specFeatureVector (specSnapshot (twoFrameState.sumoTrajectory.getD
          (specEffectiveIndex .clamp twoFrameState.currentStep
            twoFrameState.sumoTrajectory.length) []) twoFrameState.nodeNum)
          twoFrameState.nodeNum
    ∧ (Training.MyGetObservation
        (Training.ApplySumoMobility sampleLib twoFrameState.currentStep twoFrameState)).values
      = specFeatureVector (specSnapshot (twoFrameState.sumoTrajectory.getD
          (specEffectiveIndex (if twoFrameState.loopSumoTrajectory then .loop else .clamp)
            twoFrameState.currentStep twoFrameState.sumoTrajectory.length) [])
          twoFrameState.nodeNum) twoFrameState.nodeNum :=
  observation_of_current_frame sampleLib twoFrameState rfl (by decide)
    (by decide) rfl (by decide) (by decide)

/-! ### The example trace -/

/-- The timestep record of the example trace is recognised as such. -/
theorem timestepLine_kind : (strFind timestepLine "<timestep".toList).isSome = true := by
  decide!

/-- The time attribute of the timestep record. -/
theorem timestepLine_time : ExtractAttribute timestepLine "time".toList = "0".toList := by
  decide!

/-- The first vehicle record is recognised as a vehicle record. -/
theorem vehicleLineA_kind :
    (strFind vehicleLineA "<timestep".toList).isSome = false
    ∧ (strFind vehicleLineA "<vehicle".toList).isSome = true := by
  decide!

/-- The attributes of the first vehicle record. -/
theorem vehicleLineA_attributes :
    ExtractAttribute vehicleLineA "id".toList = "A".toList
    ∧ ExtractAttribute vehicleLineA "x".toList = "1".toList
    ∧ ExtractAttribute vehicleLineA "y".toList = "2".toList
    ∧ ExtractAttribute vehicleLineA "speed".toList = "3".toList
    ∧ ExtractAttribute vehicleLineA "type".toList = [] := by
  decide!

/-- The second vehicle record is recognised as a vehicle record. -/
theorem vehicleLineB_kind :
    (strFind vehicleLineB "<timestep".toList).isSome = false
    ∧ (strFind vehicleLineB "<vehicle".toList).isSome = true := by
  decide!

/-- The attributes of the second vehicle record. -/
theorem vehicleLineB_attributes :
    ExtractAttribute vehicleLineB "id".toList = "B".toList
    ∧ ExtractAttribute vehicleLineB "x".toList = "5".toList
    ∧ ExtractAttribute vehicleLineB "y".toList = "6".toList
    ∧ ExtractAttribute vehicleLineB "speed".toList = []
    ∧ ExtractAttribute vehicleLineB "type".toList = [] := by
  decide!

/-- Time 0 is quantized to tick 0. -/
theorem roundHalfAway_zero : roundHalfAway 0 = 0 := by
  decide!

/-- Tick 0 fits `uint32_t`. -/
theorem toUInt32_zero : toUInt32 0 = some 0 := by
  decide!

/-- The loop body on the timestep record of the example trace. -/
theorem loadLine_timestepLine (lib : Lib) (t : ℚ) (g : Globals)
    (h0 : lib.stod "0".toList = some 0) :
    loadLine lib (t, g) timestepLine = .ok (0, g) := by
  simp only [loadLine, timestepLine_kind, timestepLine_time, if_true, h0]
  simp

/-- The loop body on the first vehicle record of the example trace. -/
theorem loadLine_vehicleLineA (lib : Lib) (g : Globals)
    (h1 : lib.stod "1".toList = some 1) (h2 : lib.stod "2".toList = some 2)
    (h3 : lib.stod "3".toList = some 3) (hd : g.envStepTime = 1)
    (ht : g.sumoTrajectory = []) (hr : g.sumoIdToNodeIndex = []) :
    loadLine lib (0, g) vehicleLineA
      = .ok (0, { g with sumoTrajectory := [[(0, stateA)]],
                         sumoIdToNodeIndex := [("A".toList, 0)] }) := by
  obtain ⟨hid, hx, hy, hs, hty⟩ := vehicleLineA_attributes
  simp only [loadLine, vehicleLineA_kind, hid, hx, hy, hs, hty, h1, h2, h3, hd, ht, hr]
  simp [storeVehicle, registerId, hd, ht, hr, roundHalfAway_zero, toUInt32_zero, resizeFrames,
    U32, mapFind, mapAssign, frameAssign, stateA]

/-- The loop body on the second vehicle record of the example trace. -/
theorem loadLine_vehicleLineB (lib : Lib) (g : Globals)
    (h5 : lib.stod "5".toList = some 5) (h6 : lib.stod "6".toList = some 6)
    (hd : g.envStepTime = 1)
    (ht : g.sumoTrajectory = [[(0, stateA)]])
    (hr : g.sumoIdToNodeIndex = [("A".toList, 0)]) :
    loadLine lib (0, g) vehicleLineB
      = .ok (0, { g with sumoTrajectory := [exampleFrame],
                         sumoIdToNodeIndex := [("A".toList, 0), ("B".toList, 1)] }) := by
  obtain ⟨hid, hx, hy, hs, hty⟩ := vehicleLineB_attributes
  simp only [loadLine, vehicleLineB_kind, hid, hx, hy, hs, hty, h5, h6, hd, ht, hr]
  simp [storeVehicle, registerId, hd, ht, hr, roundHalfAway_zero, toUInt32_zero, U32, mapFind,
    mapAssign, frameAssign, stateA, exampleFrame]

/-- C9: for every interpretation of `std::stod` that reads the numerals of the example
and every start state with a tick duration of 1, loading the example trace (timestep
at time 0; vehicle A at (1, 2) with speed 3; vehicle B at (5, 6) without speed)
succeeds, leaves the single frame `{0 -> (1, 2), speed 3; 1 -> (5, 6), speed 0}`, the
registry `A -> 0, B -> 1` and a vehicle count of 2; replaying tick 0 onto any roster of
two nodes (in either program) gives `activeCount = 2`, `meanSpeed = 3/2`, `meanX = 3`,
`meanY = 4`, which are the first four values of the observation. -/
theorem example_trace (lib : Lib) (g : Globals) (n1 n2 : Node)
    (h0 : lib.stod "0".toList = some 0) (h1 : lib.stod "1".toList = some 1)
    (h2 : lib.stod "2".toList = some 2) (h3 : lib.stod "3".toList = some 3)
    (h5 : lib.stod "5".toList = some 5) (h6 : lib.stod "6".toList = some 6)
    (hd : g.envStepTime = 1) :
    LoadSumoTrajectory lib (some exampleTrace) g = .ok (true, exampleLoaded g)
    ∧ (exampleLoaded g).sumoTrajectory
      = [[(0, { position := ⟨1, 2, 0⟩, speed := 3, vehicleType := "passenger".toList }),
          (1, { position := ⟨5, 6, 0⟩, speed := 0, vehicleType := "passenger".toList })]]
    ∧ globalStats (Training.ApplySumoMobility lib 0
        (withRoster (exampleLoaded g) [n1, n2])).vehicleMetrics = (2, 3 / 2, 3, 4)
    ∧ globalStats (Simple.ApplySumoMobility lib 0
        (withRoster (exampleLoaded g) [n1, n2])).vehicleMetrics = (2, 3 / 2, 3, 4)
    ∧ (Training.MyGetObservation (Training.ApplySumoMobility lib 0
        (withRoster (exampleLoaded g) [n1, n2]))).values
      = [2, 3 / 2, 3, 4, 1, 2, 3, 5, 6, 0]
    ∧ (Simple.MyGetObservation lib (withRoster (exampleLoaded g) [n1, n2])).1.values
      = [2, 3 / 2, 3, 4, 1, 2, 3, 5, 6, 0] := by
  have e1 := loadLine_timestepLine lib 0
    { g with sumoTrajectory := [], sumoIdToNodeIndex := [], sumoVehicleCount := 0 } h0
  have e2 := loadLine_vehicleLineA lib
    { g with sumoTrajectory := [], sumoIdToNodeIndex := [], sumoVehicleCount := 0 }
    h1 h2 h3 hd rfl rfl
  have e3 := loadLine_vehicleLineB lib
    { g with sumoTrajectory := [[(0, stateA)]], sumoIdToNodeIndex := [("A".toList, 0)],
             sumoVehicleCount := 0 } h5 h6 hd rfl rfl
  have hmetrics : (replayFrame lib exampleFrame
      (withRoster (exampleLoaded g) [n1, n2])).vehicleMetrics
      = [⟨⟨1, 2, 0⟩, 3, true⟩, ⟨⟨5, 6, 0⟩, 0, true⟩] := by
    simp [replayFrame, withRoster, exampleLoaded, exampleFrame, applyEntry, mapAssign,
      UpdateVehicleMetrics, InitializeVehicleMetrics, sumoMetrics, mapFind, List.range_succ]
  have hnum : (replayFrame lib exampleFrame
      (withRoster (exampleLoaded g) [n1, n2])).nodeNum = 2 := by
    simp [replayFrame, UpdateVehicleMetrics_nodeNum, withRoster]
  have happT : ∀ t, Training.ApplySumoMobility lib t (withRoster (exampleLoaded g) [n1, n2])
      = replayFrame lib exampleFrame (withRoster (exampleLoaded g) [n1, n2]) := by
    intro t
    simp [Training.ApplySumoMobility, Training.safeIndex, withRoster, exampleLoaded, U32,
      Nat.mod_one]
  have happS : ∀ t, Simple.ApplySumoMobility lib t (withRoster (exampleLoaded g) [n1, n2])
      = replayFrame lib exampleFrame (withRoster (exampleLoaded g) [n1, n2]) := by
    intro t
    simp [Simple.ApplySumoMobility, Simple.clampedStep, withRoster, exampleLoaded, U32]
  refine ⟨?_, ?_, ?_, ?_, ?_, ?_⟩
  · simp only [LoadSumoTrajectory, exampleTrace, loadLines, e1, e2, e3]
    simp [U32, hd, exampleLoaded]
  · simp [exampleLoaded, exampleFrame]
  · rw [happT 0, hmetrics]
    decide!
  · rw [happS 0, hmetrics]
    decide!
  · simp only [Training.MyGetObservation, buildObservation]
    rw [happT 0, hmetrics, hnum]
    decide!
  · have huse : (withRoster (exampleLoaded g) [n1, n2]).useSumoMobility = true := rfl
    simp only [Simple.MyGetObservation, huse, if_true, buildObservation]
    rw [happS _, hmetrics, hnum]
    decide!

/-- Witness for C9: with the sample library, a tick duration of 1 and a roster of two
constant-position nodes, the example trace loads and aggregates as stated. -/
theorem example_trace_witness :
    LoadSumoTrajectory sampleLib (some exampleTrace) unitTickState
      = .ok (true, exampleLoaded unitTickState)
    ∧ globalStats (Training.ApplySumoMobility sampleLib 0
        (withRoster (exampleLoaded unitTickState) [constantNode, constantNode])).vehicleMetrics
      = (2, 3 / 2, 3, 4) :=
  have h := example_trace sampleLib unitTickState constantNode constantNode
    (by decide!) (by decide!) (by decide!) (by decide!) (by decide!) (by decide!) (by decide!)
  ⟨h.1, h.2.2.1⟩

/-! ### The loop body of the loader -/

/-- What a successful `storeVehicle` did. -/
theorem storeVehicle_ok (g g1 : Globals) (t : ℚ) (s : List Char) (state : SumoVehicleState)
    (h : storeVehicle g t s state = .ok g1) :
    ∃ tick frame,
      toUInt32 (roundHalfAway (roundDouble
          (t / (if g.envStepTime ≤ 0 then roundDouble (1 / 10) else g.envStepTime))))
        = some tick
      ∧ (if g.sumoTrajectory.length ≤ tick then
            resizeFrames g.sumoTrajectory ((tick + 1) % U32)
          else g.sumoTrajectory)[tick]? = some frame
      ∧ g1 = { g with
          envStepTime := if g.envStepTime ≤ 0 then roundDouble (1 / 10) else g.envStepTime,
          sumoTrajectory :=
            (if g.sumoTrajectory.length ≤ tick then
                resizeFrames g.sumoTrajectory ((tick + 1) % U32)
              else g.sumoTrajectory).set tick
              (frameAssign frame (registerId g.sumoIdToNodeIndex s).1 state),
          sumoIdToNodeIndex := (registerId g.sumoIdToNodeIndex s).2 } := by
  unfold storeVehicle at h
  simp only at h
  split at h
  · exact absurd h (by simp)
  · rename_i tick htick
    split at h
    · exact absurd h (by simp)
    · rename_i frame hframe
      refine ⟨tick, frame, htick, hframe, ?_⟩
      simp only [Except.ok.injEq] at h
      exact h.symm

/-- What a successful iteration of the loop did: a line that is not an accepted
vehicle record leaves the global variables unchanged, an accepted one is stored. -/
theorem loadLine_ok (lib : Lib) (t t1 : ℚ) (g g1 : Globals) (line : List Char)
    (h : loadLine lib (t, g) line = .ok (t1, g1)) :
    (acceptedId line = none ∧ g1 = g)
    ∨ (∃ s state, acceptedId line = some s ∧ t1 = t ∧ storeVehicle g t s state = .ok g1) := by
  unfold loadLine at h
  simp only at h
  split at h
  · rename_i hts
    left
    refine ⟨by unfold acceptedId; rw [if_pos hts], ?_⟩
    split at h
    · split at h
      · exact absurd h (by simp)
      · simp only [Except.ok.injEq, Prod.mk.injEq] at h; exact h.2.symm
    · simp only [Except.ok.injEq, Prod.mk.injEq] at h; exact h.2.symm
  · rename_i hts
    split at h
    · rename_i hv
      split at h
      · rename_i hskip
        left
        simp only [Except.ok.injEq, Prod.mk.injEq] at h
        exact ⟨by unfold acceptedId; rw [if_neg hts, if_pos hv, if_pos hskip], h.2.symm⟩
      · rename_i hskip
        right
        split at h
        · exact absurd h (by simp)
        · split at h
          · exact absurd h (by simp)
          · split at h
            · exact absurd h (by simp)
            · split at h
              · exact absurd h (by simp)
              · rename_i g2 hstore
                simp only [Except.ok.injEq, Prod.mk.injEq] at h
                rw [← h.2]
                exact ⟨_, _, by unfold acceptedId; rw [if_neg hts, if_pos hv, if_neg hskip],
                  h.1.symm, hstore⟩
    · rename_i hv
      left
      simp only [Except.ok.injEq, Prod.mk.injEq] at h
      exact ⟨by unfold acceptedId; rw [if_neg hts, if_neg hv], h.2.symm⟩

/-- A successful run of the loop over `line :: rest` is a successful iteration
followed by a successful run over `rest`. -/
theorem loadLines_cons_ok (lib : Lib) (line : List Char) (rest : List (List Char))
    (st fin : ℚ × Globals) (h : loadLines lib (line :: rest) st = .ok fin) :
    ∃ st1, loadLine lib st line = .ok st1 ∧ loadLines lib rest st1 = .ok fin := by
  simp only [loadLines] at h
  split at h
  · exact absurd h (by simp)
  · rename_i st1 hst1
    exact ⟨st1, hst1, h⟩

/-- A successful run of the loop over `pre ++ post` is a successful run over `pre`
followed by a successful run over `post`. -/
theorem loadLines_append_ok (lib : Lib) (pre post : List (List Char))
    (st fin : ℚ × Globals) (h : loadLines lib (pre ++ post) st = .ok fin) :
    ∃ st1, loadLines lib pre st = .ok st1 ∧ loadLines lib post st1 = .ok fin := by
  induction pre generalizing st with
  | nil => exact ⟨st, rfl, h⟩
  | cons line rest ih =>
    obtain ⟨st1, h1, h2⟩ := loadLines_cons_ok lib line (rest ++ post) st fin h
    obtain ⟨st2, h3, h4⟩ := ih st1 h2
    refine ⟨st2, ?_, h4⟩
    simp only [loadLines, h1]
    exact h3

/-! ### The identifier registry -/

/-- A key is found in a map exactly when it is among its keys. -/
theorem mapFind_eq_none_iff {K V : Type} [DecidableEq K] (m : List (K × V)) (i : K) :
    mapFind m i = none ↔ i ∉ m.map Prod.fst := by
  induction m with
  | nil => simp [mapFind]
  | cons e rest ih =>
    obtain ⟨k1, v1⟩ := e
    by_cases hi : i = k1
    · simp [mapFind, hi]
    · simp [mapFind, hi, ih]

/-- Assigning a key that a map does not hold appends the entry. -/
theorem mapAssign_of_not_mem {K V : Type} [DecidableEq K] (m : List (K × V)) (k : K) (v : V)
    (h : k ∉ m.map Prod.fst) : mapAssign m k v = m ++ [(k, v)] := by
  induction m with
  | nil => rfl
  | cons e rest ih =>
    obtain ⟨k1, v1⟩ := e
    simp only [List.map_cons, List.mem_cons, not_or] at h
    simp [mapAssign, h.1, ih h.2]

/-- A known identifier keeps the registry as it is. -/
theorem registerId_of_mem (reg : List (List Char × Nat)) (s : List Char)
    (h : s ∈ reg.map Prod.fst) : (registerId reg s).2 = reg := by
  unfold registerId
  cases hfind : mapFind reg s with
  | none => exact absurd h ((mapFind_eq_none_iff reg s).mp hfind)
  | some n => rfl

/-- A new identifier is appended with the size of the registry, modulo `2 ^ 32`. -/
theorem registerId_of_not_mem (reg : List (List Char × Nat)) (s : List Char)
    (h : s ∉ reg.map Prod.fst) :
    registerId reg s = (reg.length % U32, reg ++ [(s, reg.length % U32)]) := by
  unfold registerId
  rw [(mapFind_eq_none_iff reg s).mpr h]
  simp only [mapAssign_of_not_mem reg s _ h]

/-- The index returned by the registry lookup is the one the registry holds
afterwards. -/
theorem registerId_index (reg : List (List Char × Nat)) (s : List Char) :
    mapFind (registerId reg s).2 s = some (registerId reg s).1 := by
  unfold registerId
  cases hfind : mapFind reg s with
  | none => simp [mapFind_mapAssign]
  | some n => simpa using hfind

/-- The registry lookup never changes the index of an identifier it already holds. -/
theorem registerId_stable (reg : List (List Char × Nat)) (s s0 : List Char) (k : Nat)
    (h : mapFind reg s = some k) : mapFind (registerId reg s0).2 s = some k := by
  unfold registerId
  cases hfind : mapFind reg s0 with
  | none =>
    have hne : s ≠ s0 := by
      intro heq
      rw [heq, hfind] at h
      exact absurd h (by simp)
    simp [mapFind_mapAssign, hne, h]
  | some n => simpa using h

/-- Keys of the registry after a run of lookups: the keys it had, followed by the new
identifiers in order of first appearance. -/
theorem registry_keys (ids : List (List Char)) (reg : List (List Char × Nat)) :
    (ids.foldl (fun r s => (registerId r s).2) reg).map Prod.fst
      = reg.map Prod.fst
        ++ (firstOccurrences ids).filter (fun s => decide (s ∉ reg.map Prod.fst)) := by
  induction ids generalizing reg with
  | nil => simp [firstOccurrences]
  | cons s rest ih =>
    rw [List.foldl_cons, ih]
    by_cases hmem : s ∈ reg.map Prod.fst
    · rw [registerId_of_mem reg s hmem]
      congr 1
      simp only [firstOccurrences, List.filter_cons, hmem, not_true_eq_false, decide_False,
        List.filter_filter]
      simp only [Bool.false_eq_true, if_false]
      apply List.filter_congr
      intro a _
      by_cases ha : a ∈ reg.map Prod.fst
      · simp [ha]
      · have : a ≠ s := fun h => ha (h ▸ hmem)
        simp [ha, this]
    · rw [registerId_of_not_mem reg s hmem]
      simp only [List.map_append, List.map_cons, List.map_nil, List.append_assoc,
        firstOccurrences, List.filter_cons, hmem, not_false_eq_true, decide_True, if_true,
        List.singleton_append, List.filter_filter]
      congr 2
      apply List.filter_congr
      intro a _
      by_cases ha : a ∈ reg.map Prod.fst
      · simp [ha]
      · by_cases has : a = s
        · simp [has]
        · simp [ha, has]

/-- Values of the registry after a run of lookups: when the registry was numbered
`0, 1, ...` modulo `2 ^ 32` in list order, it still is. -/
theorem registry_values (ids : List (List Char)) (reg : List (List Char × Nat))
    (h : reg.map Prod.snd = (List.range reg.length).map (fun k => k % U32)) :
    (ids.foldl (fun r s => (registerId r s).2) reg).map Prod.snd
      = (List.range (ids.foldl (fun r s => (registerId r s).2) reg).length).map
          (fun k => k % U32) := by
  induction ids generalizing reg with
  | nil => exact h
  | cons s rest ih =>
    rw [List.foldl_cons]
    apply ih
    by_cases hmem : s ∈ reg.map Prod.fst
    · rw [registerId_of_mem reg s hmem]
      exact h
    · rw [registerId_of_not_mem reg s hmem]
      simp [List.range_succ, h]

/-- The list of first occurrences has no duplicates. -/
theorem firstOccurrences_nodup (ids : List (List Char)) : (firstOccurrences ids).Nodup := by
  induction ids with
  | nil => simp [firstOccurrences]
  | cons s rest ih =>
    simp only [firstOccurrences, List.nodup_cons]
    constructor
    · simp [List.mem_filter]
    · exact ih.filter _

/-- The list of first occurrences has the same elements as the list. -/
theorem mem_firstOccurrences (ids : List (List Char)) (s : List Char) :
    s ∈ firstOccurrences ids ↔ s ∈ ids := by
  induction ids with
  | nil => simp [firstOccurrences]
  | cons s0 rest ih =>
    simp only [firstOccurrences, List.mem_cons, List.mem_filter, ih, decide_eq_true_eq]
    by_cases h : s = s0
    · simp [h]
    · simp [h]

/-- A list without duplicates is its own list of first occurrences. -/
theorem firstOccurrences_of_nodup (ids : List (List Char)) (h : ids.Nodup) :
    firstOccurrences ids = ids := by
  induction ids with
  | nil => rfl
  | cons s rest ih =>
    simp only [List.nodup_cons] at h
    simp only [firstOccurrences, ih h.2]
    congr 1
    apply List.filter_eq_self.mpr
    intro a ha
    have : a ≠ s := fun heq => h.1 (heq ▸ ha)
    simp [this]

/-- Lookup in a map with distinct keys, by position. -/
theorem mapFind_of_getElem {K V : Type} [DecidableEq K] (m : List (K × V))
    (hnodup : (m.map Prod.fst).Nodup) (k : Nat) (hk : k < m.length) :
    mapFind m (m[k]).1 = some (m[k]).2 := by
  induction m generalizing k with
  | nil => exact absurd hk (by simp)
  | cons e rest ih =>
    obtain ⟨k1, v1⟩ := e
    simp only [List.map_cons, List.nodup_cons] at hnodup
    cases k with
    | zero => simp [mapFind]
    | succ j =>
      have hj : j < rest.length := by simpa using hk
      have hne : (rest[j]).1 ≠ k1 := by
        intro heq
        apply hnodup.1
        rw [← heq]
        exact List.mem_map_of_mem Prod.fst (List.getElem_mem hj)
      simp only [List.getElem_cons_succ, mapFind, hne, if_false]
      exact ih hnodup.2 j hj

/-- An entry found in a map sits at some position of it. -/
theorem mapFind_some_getElem {K V : Type} [DecidableEq K] (m : List (K × V)) (i : K) (v : V)
    (h : mapFind m i = some v) : ∃ k, ∃ hk : k < m.length, m[k] = (i, v) := by
  induction m with
  | nil => exact absurd h (by simp [mapFind])
  | cons e rest ih =>
    obtain ⟨k1, v1⟩ := e
    by_cases hi : i = k1
    · subst hi
      simp only [mapFind, if_true, Option.some.injEq] at h
      exact ⟨0, by simp, by simp [h]⟩
    · simp only [mapFind, hi, if_false] at h
      obtain ⟨k, hk, hget⟩ := ih h
      exact ⟨k + 1, by simpa using hk, by simpa using hget⟩

/-! ### The loader: registry and frames along the loop -/

/-- The registry after a successful iteration of the loop. -/
theorem loadLine_registry (lib : Lib) (t t1 : ℚ) (g g1 : Globals) (line : List Char)
    (h : loadLine lib (t, g) line = .ok (t1, g1)) :
    g1.sumoIdToNodeIndex
      = match acceptedId line with
        | none => g.sumoIdToNodeIndex
        | some s => (registerId g.sumoIdToNodeIndex s).2 := by
  rcases loadLine_ok lib t t1 g g1 line h with ⟨hnone, hg⟩ | ⟨s, state, hsome, _, hstore⟩
  · rw [hnone, hg]
  · obtain ⟨tick, frame, _, _, hg⟩ := storeVehicle_ok g g1 t s state hstore
    rw [hsome, hg]

/-- The registry after a successful run of the loop: one registry lookup per accepted
vehicle record, in file order. -/
theorem loadLines_registry (lib : Lib) (lines : List (List Char)) (st fin : ℚ × Globals)
    (h : loadLines lib lines st = .ok fin) :
    fin.2.sumoIdToNodeIndex
      = (acceptedIds lines).foldl (fun r s => (registerId r s).2) st.2.sumoIdToNodeIndex := by
  induction lines generalizing st with
  | nil =>
    simp only [loadLines, Except.ok.injEq] at h
    rw [← h]
    rfl
  | cons line rest ih =>
    obtain ⟨st1, h1, h2⟩ := loadLines_cons_ok lib line rest st fin h
    rw [ih st1 h2]
    have hreg := loadLine_registry lib st.1 st1.1 st.2 st1.2 line h1
    rw [hreg]
    cases hacc : acceptedId line with
    | none => simp [acceptedIds, List.filterMap_cons, hacc]
    | some s => simp [acceptedIds, List.filterMap_cons, hacc]

/-- Lookup after an assignment in a frame. -/
theorem mapFind_frameAssign {V : Type} (m : List (Nat × V)) (k : Nat) (v : V) (j : Nat) :
    mapFind (frameAssign m k v) j = if j = k then some v else mapFind m j := by
  induction m with
  | nil => simp [frameAssign, mapFind]
  | cons e rest ih =>
    obtain ⟨k1, v1⟩ := e
    by_cases hlt : k < k1
    · by_cases hj : j = k
      · simp [frameAssign, hlt, mapFind, hj]
      · simp [frameAssign, hlt, mapFind, hj]
    · by_cases heq : k = k1
      · subst heq
        by_cases hj : j = k
        · simp [frameAssign, mapFind, hj]
        · simp [frameAssign, mapFind, hj]
      · by_cases hj : j = k
        · subst hj
          simp [frameAssign, hlt, heq, mapFind, ih]
        · by_cases hj1 : j = k1
          · subst hj1
            simp [frameAssign, hlt, heq, mapFind, hj]
          · simp [frameAssign, hlt, heq, mapFind, hj, hj1, ih]

/-- Length of a resized frame sequence. -/
theorem resizeFrames_length (t : List Frame) (n : Nat) : (resizeFrames t n).length = n := by
  simp only [resizeFrames, List.length_append, List.length_take, List.length_replicate]
  omega

/-- Growing the frame sequence keeps the frames it had. -/
theorem resizeFrames_getElem? (t : List Frame) (n i : Nat) (hn : t.length ≤ n)
    (hi : i < t.length) : (resizeFrames t n)[i]? = t[i]? := by
  simp only [resizeFrames, List.take_of_length_le hn]
  exact List.getElem?_append_left hi

/-- The frame sequence in which `storeVehicle` assigns: it has the frame of the tick,
it is shorter than `2 ^ 32` when the stored sequence is, and it keeps every frame the
stored sequence had. -/
theorem grown_trajectory (traj : List Frame) (tick : Nat) (frame : Frame)
    (h : (if traj.length ≤ tick then resizeFrames traj ((tick + 1) % U32) else traj)[tick]?
          = some frame) :
    (traj.length < U32 →
      (if traj.length ≤ tick then resizeFrames traj ((tick + 1) % U32) else traj).length < U32)
    ∧ traj.length
        ≤ (if traj.length ≤ tick then resizeFrames traj ((tick + 1) % U32) else traj).length
    ∧ (∀ (i : Nat) (f : Frame), traj[i]? = some f →
        (if traj.length ≤ tick then resizeFrames traj ((tick + 1) % U32) else traj)[i]?
          = some f) := by
  have hpos : 0 < U32 := by simp [U32]
  by_cases hle : traj.length ≤ tick
  · simp only [hle, if_true] at h ⊢
    have hlt : tick < (resizeFrames traj ((tick + 1) % U32)).length := by
      by_contra hcon
      rw [List.getElem?_eq_none (by omega)] at h
      exact absurd h (by simp)
    rw [resizeFrames_length] at hlt
    have hmodle : (tick + 1) % U32 ≤ tick + 1 := Nat.mod_le _ _
    refine ⟨fun _ => ?_, ?_, ?_⟩
    · rw [resizeFrames_length]; exact Nat.mod_lt _ hpos
    · rw [resizeFrames_length]; omega
    · intro i f hif
      have hi : i < traj.length := by
        by_contra hcon
        rw [List.getElem?_eq_none (by omega)] at hif
        exact absurd hif (by simp)
      rw [resizeFrames_getElem? traj _ i (by omega) hi]
      exact hif
  · simp only [hle, if_false]
    exact ⟨fun hl => hl, le_refl _, fun i f hif => hif⟩

/-- A successful `storeVehicle` keeps the frame sequence shorter than `2 ^ 32`, keeps
every entry of every frame (possibly with a new state), and stores the record in the
frame of its tick under the index returned by the registry lookup. -/
theorem storeVehicle_frames (g g1 : Globals) (t : ℚ) (s : List Char) (state : SumoVehicleState)
    (h : storeVehicle g t s state = .ok g1) :
    (g.sumoTrajectory.length < U32 → g1.sumoTrajectory.length < U32)
    ∧ (∀ (i : Nat) (f : Frame) (k : Nat), g.sumoTrajectory[i]? = some f →
        (mapFind f k).isSome = true →
        ∃ f1, g1.sumoTrajectory[i]? = some f1 ∧ (mapFind f1 k).isSome = true)
    ∧ (∃ tick f1,
        toUInt32 (roundHalfAway (roundDouble
            (t / (if g.envStepTime ≤ 0 then roundDouble (1 / 10) else g.envStepTime))))
          = some tick
        ∧ g1.sumoTrajectory[tick]? = some f1
        ∧ mapFind f1 (registerId g.sumoIdToNodeIndex s).1 = some state) := by
  obtain ⟨tick, frame, htick, hframe, hg⟩ := storeVehicle_ok g g1 t s state h
  obtain ⟨hlen, hgrow, hkeep⟩ := grown_trajectory g.sumoTrajectory tick frame hframe
  have htl : tick
      < (if g.sumoTrajectory.length ≤ tick then
          resizeFrames g.sumoTrajectory ((tick + 1) % U32) else g.sumoTrajectory).length := by
    by_contra hcon
    rw [List.getElem?_eq_none (by omega)] at hframe
    exact absurd hframe (by simp)
  rw [hg]
  refine ⟨?_, ?_, ?_⟩
  · intro hl
    simp only [List.length_set]
    exact hlen hl
  · intro i f k hif hk
    have hif1 := hkeep i f hif
    by_cases hi : i = tick
    · subst hi
      rw [hframe] at hif1
      simp only [Option.some.injEq] at hif1
      subst hif1
      refine ⟨frameAssign frame (registerId g.sumoIdToNodeIndex s).1 state, ?_, ?_⟩
      · simp only
        exact List.getElem?_set_self htl
      · rw [mapFind_frameAssign]
        split
        · rfl
        · exact hk
    · refine ⟨f, ?_, hk⟩
      simp only
      rw [List.getElem?_set_ne (fun heq => hi heq.symm)]
      exact hif1
  · refine ⟨tick, frameAssign frame (registerId g.sumoIdToNodeIndex s).1 state, htick, ?_, ?_⟩
    · simp only
      exact List.getElem?_set_self htl
    · rw [mapFind_frameAssign]
      simp

/-- Along a successful run of the loop the frame sequence stays shorter than `2 ^ 32`,
identifiers keep their index, and entries of frames stay. -/
theorem loadLines_invariants (lib : Lib) (lines : List (List Char)) (st fin : ℚ × Globals)
    (h : loadLines lib lines st = .ok fin) :
    (st.2.sumoTrajectory.length < U32 → fin.2.sumoTrajectory.length < U32)
    ∧ (∀ (s : List Char) (k : Nat), mapFind st.2.sumoIdToNodeIndex s = some k →
        mapFind fin.2.sumoIdToNodeIndex s = some k)
    ∧ (∀ (i : Nat) (f : Frame) (k : Nat), st.2.sumoTrajectory[i]? = some f →
        (mapFind f k).isSome = true →
        ∃ f1, fin.2.sumoTrajectory[i]? = some f1 ∧ (mapFind f1 k).isSome = true) := by
  induction lines generalizing st with
  | nil =>
    simp only [loadLines, Except.ok.injEq] at h
    subst h
    exact ⟨fun hl => hl, fun _ _ hs => hs, fun i f k hf hk => ⟨f, hf, hk⟩⟩
  | cons line rest ih =>
    obtain ⟨st1, h1, h2⟩ := loadLines_cons_ok lib line rest st fin h
    obtain ⟨ihlen, ihreg, ihframe⟩ := ih st1 h2
    have hstep : (st.2.sumoTrajectory.length < U32 → st1.2.sumoTrajectory.length < U32)
        ∧ (∀ (s : List Char) (k : Nat), mapFind st.2.sumoIdToNodeIndex s = some k →
            mapFind st1.2.sumoIdToNodeIndex s = some k)
        ∧ (∀ (i : Nat) (f : Frame) (k : Nat), st.2.sumoTrajectory[i]? = some f →
            (mapFind f k).isSome = true →
            ∃ f1, st1.2.sumoTrajectory[i]? = some f1 ∧ (mapFind f1 k).isSome = true) := by
      rcases loadLine_ok lib st.1 st1.1 st.2 st1.2 line h1 with
        ⟨_, hg⟩ | ⟨s0, state, _, _, hstore⟩
      · rw [hg]
        exact ⟨fun hl => hl, fun _ _ hs => hs, fun i f k hf hk => ⟨f, hf, hk⟩⟩
      · obtain ⟨hl, hf, _⟩ := storeVehicle_frames st.2 st1.2 st.1 s0 state hstore
        refine ⟨hl, ?_, hf⟩
        intro s k hs
        obtain ⟨tick, frame, _, _, hg⟩ := storeVehicle_ok st.2 st1.2 st.1 s0 state hstore
        rw [hg]
        exact registerId_stable _ s s0 k hs
    obtain ⟨hlen, hreg, hframe⟩ := hstep
    refine ⟨fun hl => ihlen (hlen hl), fun s k hs => ihreg s k (hreg s k hs), ?_⟩
    intro i f k hf hk
    obtain ⟨f1, hf1, hk1⟩ := hframe i f k hf hk
    exact ihframe i f1 k hf1 hk1

/-- What a successful `LoadSumoTrajectory` on a readable file did: the loop ran to the
end from the cleared state; the registry and the frames are those the loop left, and
the vehicle count is the size of the registry narrowed to `uint32_t`. -/
theorem LoadSumoTrajectory_ok (lib : Lib) (lines : List (List Char)) (g g1 : Globals) (b : Bool)
    (h : LoadSumoTrajectory lib (some lines) g = .ok (b, g1)) :
    ∃ t fin,
      loadLines lib lines
          (0, { g with sumoTrajectory := [], sumoIdToNodeIndex := [], sumoVehicleCount := 0 })
        = .ok (t, fin)
      ∧ g1.sumoIdToNodeIndex = fin.sumoIdToNodeIndex
      ∧ g1.sumoTrajectory = fin.sumoTrajectory
      ∧ g1.sumoVehicleCount = fin.sumoIdToNodeIndex.length % U32
      ∧ b = decide (0 < fin.sumoIdToNodeIndex.length % U32 ∧ fin.sumoTrajectory ≠ []) := by
  unfold LoadSumoTrajectory at h
  simp only at h
  split at h
  · exact absurd h (by simp)
  · rename_i t fin hrun
    refine ⟨t, fin, hrun, ?_⟩
    simp only [Except.ok.injEq, Prod.mk.injEq] at h
    obtain ⟨hb, hg⟩ := h
    subst hg
    by_cases hne : fin.sumoTrajectory = []
    · simp only [hne, ne_eq, not_true_eq_false, if_false, and_false, decide_False] at hb ⊢
      exact ⟨trivial, trivial, trivial, hb.symm⟩
    · simp only [hne, ne_eq, not_false_eq_true, if_true, and_true] at hb ⊢
      exact ⟨trivial, trivial, trivial, hb.symm⟩

/-- Every loaded trajectory has fewer than `2 ^ 32` frames. -/
theorem loaded_trajectory_length (lib : Lib) (lines : List (List Char)) (g g1 : Globals)
    (b : Bool) (h : LoadSumoTrajectory lib (some lines) g = .ok (b, g1)) :
    g1.sumoTrajectory.length < U32 := by
  obtain ⟨t, fin, hrun, _, htraj, _, _⟩ := LoadSumoTrajectory_ok lib lines g g1 b h
  rw [htraj]
  exact (loadLines_invariants lib lines _ _ hrun).1 (by simp [U32])

/-- The registry after a successful load: its keys are the accepted identifiers in
order of first appearance, its values are `0, 1, ...` modulo `2 ^ 32` in that order. -/
theorem loaded_registry (lib : Lib) (lines : List (List Char)) (g g1 : Globals) (b : Bool)
    (hload : LoadSumoTrajectory lib (some lines) g = .ok (b, g1)) :
    g1.sumoIdToNodeIndex.map Prod.fst = firstOccurrences (acceptedIds lines)
    ∧ g1.sumoIdToNodeIndex.map Prod.snd
        = (List.range g1.sumoIdToNodeIndex.length).map (fun k => k % U32) := by
  obtain ⟨t, fin, hrun, hreg, _, _, _⟩ := LoadSumoTrajectory_ok lib lines g g1 b hload
  have hfold := loadLines_registry lib lines _ _ hrun
  simp only at hfold
  constructor
  · rw [hreg, hfold, registry_keys]
    simp
  · have hv := registry_values (acceptedIds lines) [] (by simp)
    rw [← hfold, ← hreg] at hv
    exact hv

/-- C10, amended: after a successful load of a trace with at most `2 ^ 32` distinct
accepted identifiers, the registry lists the identifiers in order of first appearance
and numbers them `0, 1, ...`: the `k`-th distinct identifier has index `k`, the
identifiers found are exactly those of the accepted records, the indices are exactly
those below the registry size, and no two identifiers share an index. Every accepted
record is stored, in the frame of its tick, under the index that the registry holds
for its identifier at the end of the load, which is the index the lookup returned when
the record was read. -/
theorem registry_bijection (lib : Lib) (lines : List (List Char)) (g g1 : Globals) (b : Bool)
    (hload : LoadSumoTrajectory lib (some lines) g = .ok (b, g1))
    (hsize : (firstOccurrences (acceptedIds lines)).length ≤ U32) :
    g1.sumoIdToNodeIndex.map Prod.fst = firstOccurrences (acceptedIds lines)
    ∧ g1.sumoIdToNodeIndex.map Prod.snd = List.range g1.sumoIdToNodeIndex.length
    ∧ (∀ (k : Nat) (hk : k < (firstOccurrences (acceptedIds lines)).length),
        mapFind g1.sumoIdToNodeIndex ((firstOccurrences (acceptedIds lines))[k]) = some k)
    ∧ (∀ s : List Char, s ∈ acceptedIds lines ↔ ∃ k, mapFind g1.sumoIdToNodeIndex s = some k)
    ∧ (∀ (s : List Char) (k : Nat), mapFind g1.sumoIdToNodeIndex s = some k →
        k < g1.sumoIdToNodeIndex.length)
    ∧ (∀ k : Nat, k < g1.sumoIdToNodeIndex.length →
        ∃ s, mapFind g1.sumoIdToNodeIndex s = some k)
    ∧ (∀ (s1 s2 : List Char) (k : Nat), mapFind g1.sumoIdToNodeIndex s1 = some k →
        mapFind g1.sumoIdToNodeIndex s2 = some k → s1 = s2)
    ∧ (∀ (pre : List (List Char)) (line : List Char) (post : List (List Char))
        (s : List Char), lines = pre ++ line :: post → acceptedId line = some s →
        ∃ (t : ℚ) (gp : Globals) (tick : Nat) (frame : Frame) (k : Nat),
          loadLines lib pre
              (0, { g with sumoTrajectory := [], sumoIdToNodeIndex := [],
                           sumoVehicleCount := 0 }) = .ok (t, gp)
          ∧ toUInt32 (roundHalfAway (roundDouble
              (t / (if gp.envStepTime ≤ 0 then roundDouble (1 / 10) else gp.envStepTime))))
              = some tick
          ∧ (registerId gp.sumoIdToNodeIndex s).1 = k
          ∧ mapFind g1.sumoIdToNodeIndex s = some k
          ∧ g1.sumoTrajectory[tick]? = some frame
          ∧ (mapFind frame k).isSome = true) := by
  obtain ⟨t, fin, hrun, hreg, htraj, _, _⟩ := LoadSumoTrajectory_ok lib lines g g1 b hload
  obtain ⟨hkeys, hv⟩ := loaded_registry lib lines g g1 b hload
  have hlen : g1.sumoIdToNodeIndex.length = (firstOccurrences (acceptedIds lines)).length := by
    rw [← hkeys, List.length_map]
  have hvals : g1.sumoIdToNodeIndex.map Prod.snd = List.range g1.sumoIdToNodeIndex.length := by
    rw [hv]
    conv => rhs; rw [← List.map_id (List.range g1.sumoIdToNodeIndex.length)]
    apply List.map_congr_left
    intro k hk
    have : k < U32 := by
      have := List.mem_range.mp hk
      omega
    simp [Nat.mod_eq_of_lt this]
  have hnodup : (g1.sumoIdToNodeIndex.map Prod.fst).Nodup := by
    rw [hkeys]
    exact firstOccurrences_nodup _
  have hfst : ∀ (k : Nat) (hk : k < g1.sumoIdToNodeIndex.length)
      (hk1 : k < (firstOccurrences (acceptedIds lines)).length),
      (g1.sumoIdToNodeIndex[k]).1 = (firstOccurrences (acceptedIds lines))[k] := by
    intro k hk hk1
    have := List.getElem_map Prod.fst (l := g1.sumoIdToNodeIndex) (n := k)
      (h := by simpa using hk)
    rw [← this]
    simp only [hkeys]
  have hsnd : ∀ (k : Nat) (hk : k < g1.sumoIdToNodeIndex.length),
      (g1.sumoIdToNodeIndex[k]).2 = k := by
    intro k hk
    have := List.getElem_map Prod.snd (l := g1.sumoIdToNodeIndex) (n := k)
      (h := by simpa using hk)
    rw [← this]
    simp only [hvals, List.getElem_range]
  refine ⟨hkeys, hvals, ?_, ?_, ?_, ?_, ?_, ?_⟩
  · intro k hk
    have hk1 : k < g1.sumoIdToNodeIndex.length := by rw [hlen]; exact hk
    have := mapFind_of_getElem g1.sumoIdToNodeIndex hnodup k hk1
    rw [hfst k hk1 hk, hsnd k hk1] at this
    exact this
  · intro s
    rw [← mem_firstOccurrences, ← hkeys]
    constructor
    · intro hmem
      cases hfind : mapFind g1.sumoIdToNodeIndex s with
      | none => exact absurd hmem ((mapFind_eq_none_iff _ _).mp hfind)
      | some k => exact ⟨k, rfl⟩
    · rintro ⟨k, hk⟩
      by_contra hmem
      rw [(mapFind_eq_none_iff _ _).mpr hmem] at hk
      exact absurd hk (by simp)
  · intro s k hs
    obtain ⟨j, hj, hget⟩ := mapFind_some_getElem _ _ _ hs
    have := hsnd j hj
    rw [hget] at this
    simp only at this
    omega
  · intro k hk
    refine ⟨(g1.sumoIdToNodeIndex[k]).1, ?_⟩
    rw [mapFind_of_getElem g1.sumoIdToNodeIndex hnodup k hk, hsnd k hk]
  · intro s1 s2 k h1 h2
    obtain ⟨j1, hj1, hget1⟩ := mapFind_some_getElem _ _ _ h1
    obtain ⟨j2, hj2, hget2⟩ := mapFind_some_getElem _ _ _ h2
    have e1 := hsnd j1 hj1
    have e2 := hsnd j2 hj2
    rw [hget1] at e1
    rw [hget2] at e2
    simp only at e1 e2
    have hj : j1 = j2 := by omega
    subst hj
    rw [hget1] at hget2
    exact (Prod.mk.inj hget2).1
  · intro pre line post s hsplit hacc
    rw [hsplit] at hrun
    obtain ⟨stp, hpre, hrest⟩ := loadLines_append_ok lib pre (line :: post) _ _ hrun
    obtain ⟨st1, hline, hpost⟩ := loadLines_cons_ok lib line post stp _ hrest
    rcases loadLine_ok lib stp.1 st1.1 stp.2 st1.2 line hline with
      ⟨hnone, _⟩ | ⟨s0, state, hsome, _, hstore⟩
    · rw [hnone] at hacc
      exact absurd hacc (by simp)
    · rw [hsome] at hacc
      simp only [Option.some.injEq] at hacc
      subst hacc
      obtain ⟨_, _, tick, f1, htick, hf1, hfind1⟩ :=
        storeVehicle_frames stp.2 st1.2 stp.1 s0 state hstore
      obtain ⟨_, _, _, _, hg⟩ := storeVehicle_ok stp.2 st1.2 stp.1 s0 state hstore
      obtain ⟨_, hkeepReg, hkeepFrame⟩ := loadLines_invariants lib post st1 _ hpost
      have hidx : mapFind st1.2.sumoIdToNodeIndex s0
          = some (registerId stp.2.sumoIdToNodeIndex s0).1 := by
        rw [hg]
        exact registerId_index _ _
      obtain ⟨frame, hframe, hsome1⟩ := hkeepFrame tick f1 _ hf1 (by rw [hfind1]; rfl)
      refine ⟨stp.1, stp.2, tick, frame, _, hpre, htick, rfl, ?_, ?_, hsome1⟩
      · rw [hreg]
        exact hkeepReg _ _ hidx
      · rw [htraj]
        exact hframe

/-! ### Searching in strings -/

/-- A token that is a prefix of the string is found at position 0. -/
theorem strFind_of_isPrefixOf (s tok : List Char) (h : tok.isPrefixOf s = true) :
    strFind s tok = some 0 := by
  unfold strFind
  simp [h]

/-- A token that is not a prefix of the string is searched in its tail. -/
theorem strFind_cons_of_not_isPrefixOf (c : Char) (cs tok : List Char)
    (h : tok.isPrefixOf (c :: cs) = false) :
    strFind (c :: cs) tok = (strFind cs tok).map Nat.succ := by
  rw [strFind]
  simp [h]

/-- A token whose first character does not occur in the string is not found. -/
theorem strFind_of_head_not_mem (c0 : Char) (tl s : List Char) (h : c0 ∉ s) :
    strFind s (c0 :: tl) = none := by
  induction s with
  | nil => simp [strFind]
  | cons c cs ih =>
    simp only [List.mem_cons, not_or] at h
    have hne : (c0 == c) = false := by simpa using h.1
    rw [strFind_cons_of_not_isPrefixOf _ _ _ (by simp [List.isPrefixOf, hne]), ih h.2]
    rfl

/-- The search skips a stretch in which the first character of the token does not
occur. -/
theorem strFind_append_of_head_not_mem (c0 : Char) (tl skip rest : List Char)
    (h : c0 ∉ skip) :
    strFind (skip ++ rest) (c0 :: tl) = (strFind rest (c0 :: tl)).map (fun i => i + skip.length) := by
  induction skip with
  | nil => simp
  | cons c cs ih =>
    simp only [List.mem_cons, not_or] at h
    have hne : (c0 == c) = false := by simpa using h.1
    rw [List.cons_append,
      strFind_cons_of_not_isPrefixOf _ _ _ (by simp [List.isPrefixOf, hne]), ih h.2]
    cases strFind rest (c0 :: tl) with
    | none => rfl
    | some i => simp [Nat.succ_eq_add_one, Nat.add_assoc]

/-- The closing quote of a value without quotes is found right after the value. -/
theorem strFind_dq_after_value (value rest : List Char) (h : dq ∉ value) :
    strFind (value ++ dq :: rest) [dq] = some value.length := by
  rw [strFind_append_of_head_not_mem dq [] value _ h,
    strFind_of_isPrefixOf _ _ (by simp [List.isPrefixOf])]
  simp

/-- `ExtractAttribute` returns the value that follows the first occurrence of the
token, up to the next quote. -/
theorem ExtractAttribute_of_first (line key pre value post : List Char)
    (hline : line = pre ++ (key ++ ['=', dq]) ++ value ++ dq :: post)
    (hfirst : strFind line (key ++ ['=', dq]) = some pre.length)
    (hvalue : dq ∉ value) :
    ExtractAttribute line key = value := by
  unfold ExtractAttribute
  simp only [hfirst]
  have hdrop : line.drop (pre.length + (key ++ ['=', dq]).length) = value ++ dq :: post := by
    rw [hline, List.append_assoc, List.append_assoc, ← List.append_assoc pre]
    rw [show pre.length + (key ++ ['=', dq]).length = (pre ++ (key ++ ['=', dq])).length by simp]
    exact List.drop_left' rfl
  have hlen : ¬ line.length < pre.length + (key ++ ['=', dq]).length := by
    rw [hline]
    simp only [List.length_append]
    omega
  simp only [strFindFrom, hlen, if_false, hdrop, strFind_dq_after_value value post hvalue,
    Option.map_some', substr]
  simp

/-- `ExtractAttribute` returns the empty string when the token does not occur. -/
theorem ExtractAttribute_of_none (line key : List Char)
    (h : strFind line (key ++ ['=', dq]) = none) : ExtractAttribute line key = [] := by
  unfold ExtractAttribute
  simp only [h]



/-- Unfolding of the search on a non-empty string. -/
theorem strFind_cons (c : Char) (cs tok : List Char) :
    strFind (c :: cs) tok
      = if tok.isPrefixOf (c :: cs) = true then some 0 else (strFind cs tok).map Nat.succ := by
  rw [strFind]

/-! ### A trace with more than `2 ^ 32` identifiers -/

/-- A line `unaryLine n` is not taken as a timestep record. -/
theorem unaryLine_timestep (n : Nat) : strFind (unaryLine n) "<timestep".toList = none := by
  have hline : unaryLine n = '<' :: ("vehicle id=".toList ++ [dq] ++ unaryId n ++ [dq]
      ++ " x=".toList ++ [dq, '0', dq] ++ " y=".toList ++ [dq, '0', dq] ++ "/>".toList) := rfl
  have htok : "<timestep".toList = '<' :: "timestep".toList := rfl
  rw [hline, htok, strFind_cons_of_not_isPrefixOf _ _ _ (by simp [List.isPrefixOf]),
    strFind_of_head_not_mem]
  · rfl
  · simp [unaryId, dq]

/-- A line `unaryLine n` is a vehicle record. -/
theorem unaryLine_vehicle (n : Nat) : strFind (unaryLine n) "<vehicle".toList = some 0 := by
  apply strFind_of_isPrefixOf
  simp [unaryLine, List.isPrefixOf]

/-- The identifier read from `unaryLine n`. -/
theorem unaryLine_id (n : Nat) : ExtractAttribute (unaryLine n) "id".toList = unaryId n := by
  apply ExtractAttribute_of_first (unaryLine n) "id".toList "<vehicle ".toList (unaryId n)
    (" x=".toList ++ [dq, '0', dq] ++ " y=".toList ++ [dq, '0', dq] ++ "/>".toList)
  · simp [unaryLine]
  · simp [unaryLine, strFind_cons, List.isPrefixOf, dq]
  · simp [unaryId, dq]


/-- The `x` attribute read from `unaryLine n`. -/
theorem unaryLine_x (n : Nat) : ExtractAttribute (unaryLine n) "x".toList = "0".toList := by
  apply ExtractAttribute_of_first (unaryLine n) "x".toList
    ("<vehicle id=".toList ++ [dq] ++ unaryId n ++ [dq, ' ']) "0".toList
    (" y=".toList ++ [dq, '0', dq] ++ "/>".toList)
  · simp [unaryLine]
  · have hline : unaryLine n = ("<vehicle id=".toList ++ [dq] ++ unaryId n ++ [dq, ' '])
        ++ ('x' :: '=' :: dq :: ("0".toList ++ [dq] ++ " y=".toList ++ [dq, '0', dq]
          ++ "/>".toList)) := by simp [unaryLine]
    have htok : "x".toList ++ ['=', dq] = 'x' :: ['=', dq] := rfl
    rw [hline, htok, strFind_append_of_head_not_mem _ _ _ _ (by simp [unaryId, dq]),
      strFind_of_isPrefixOf _ _ (by simp [List.isPrefixOf])]
    simp
  · simp [dq]

/-- The `y` attribute read from `unaryLine n`. -/
theorem unaryLine_y (n : Nat) : ExtractAttribute (unaryLine n) "y".toList = "0".toList := by
  apply ExtractAttribute_of_first (unaryLine n) "y".toList
    ("<vehicle id=".toList ++ [dq] ++ unaryId n ++ [dq] ++ " x=".toList ++ [dq, '0', dq, ' '])
    "0".toList "/>".toList
  · simp [unaryLine]
  · have hline : unaryLine n = ("<vehicle id=".toList ++ [dq] ++ unaryId n ++ [dq]
          ++ " x=".toList ++ [dq, '0', dq, ' '])
        ++ ('y' :: '=' :: dq :: ("0".toList ++ [dq] ++ "/>".toList)) := by simp [unaryLine]
    have htok : "y".toList ++ ['=', dq] = 'y' :: ['=', dq] := rfl
    rw [hline, htok, strFind_append_of_head_not_mem _ _ _ _ (by simp [unaryId, dq]),
      strFind_of_isPrefixOf _ _ (by simp [List.isPrefixOf])]
    simp
  · simp [dq]

/-- A line `unaryLine n` has no `speed` and no `type` attribute. -/
theorem unaryLine_speed_type (n : Nat) :
    ExtractAttribute (unaryLine n) "speed".toList = []
    ∧ ExtractAttribute (unaryLine n) "type".toList = [] := by
  constructor
  · apply ExtractAttribute_of_none
    have htok : "speed".toList ++ ['=', dq] = 's' :: ("peed".toList ++ ['=', dq]) := rfl
    rw [htok]
    exact strFind_of_head_not_mem _ _ _ (by simp [unaryLine, unaryId, dq])
  · apply ExtractAttribute_of_none
    have htok : "type".toList ++ ['=', dq] = 't' :: ("ype".toList ++ ['=', dq]) := rfl
    rw [htok]
    exact strFind_of_head_not_mem _ _ _ (by simp [unaryLine, unaryId, dq])

/-- A line `unaryLine n` is an accepted vehicle record with identifier `unaryId n`. -/
theorem unaryLine_accepted (n : Nat) : acceptedId (unaryLine n) = some (unaryId n) := by
  unfold acceptedId
  rw [unaryLine_timestep, unaryLine_vehicle, unaryLine_id, unaryLine_x, unaryLine_y]
  simp [unaryId, List.replicate_succ]


/-- With a tick duration of 1 and the current time 0, `storeVehicle` succeeds, keeps the
tick duration and leaves a non-empty frame sequence. -/
theorem storeVehicle_tick_zero (g : Globals) (s : List Char) (state : SumoVehicleState)
    (hd : g.envStepTime = 1) :
    ∃ g1, storeVehicle g 0 s state = .ok g1 ∧ g1.envStepTime = 1 ∧ g1.sumoTrajectory ≠ [] := by
  unfold storeVehicle
  cases htraj : g.sumoTrajectory with
  | nil =>
    simp [hd, roundHalfAway_zero, toUInt32_zero, resizeFrames, U32]
  | cons f rest =>
    simp [hd, roundHalfAway_zero, toUInt32_zero]

/-- The loop body succeeds on `unaryLine n` at time 0 with a tick duration of 1. -/
theorem loadLine_unaryLine (g : Globals) (n : Nat) (hd : g.envStepTime = 1) :
    ∃ g1, loadLine sampleLib (0, g) (unaryLine n) = .ok (0, g1)
      ∧ g1.envStepTime = 1 ∧ g1.sumoTrajectory ≠ [] := by
  have h0 : sampleLib.stod "0".toList = some 0 := by decide!
  obtain ⟨g1, hstore, hd1, hne⟩ := storeVehicle_tick_zero g (unaryId n)
    { position := ⟨0, 0, 0⟩, speed := 0, vehicleType := "passenger".toList } hd
  refine ⟨g1, ?_, hd1, hne⟩
  have hid : unaryId n ≠ [] := by simp [unaryId, List.replicate_succ]
  have h0ne : "0".toList ≠ [] := by decide
  simp only [loadLine, unaryLine_timestep, unaryLine_vehicle, unaryLine_id, unaryLine_x,
    unaryLine_y, (unaryLine_speed_type n).1, (unaryLine_speed_type n).2, h0, hid, h0ne,
    or_self, Option.isSome_none, Option.isSome_some, Bool.false_eq_true, if_false, if_true,
    hstore]

/-- The loop succeeds on every list of lines `unaryLine n`. -/
theorem loadLines_unaryLines (l : List Nat) (g : Globals) (hd : g.envStepTime = 1) :
    ∃ fin, loadLines sampleLib (l.map unaryLine) (0, g) = .ok (0, fin)
      ∧ (g.sumoTrajectory ≠ [] ∨ l ≠ [] → fin.sumoTrajectory ≠ []) := by
  induction l generalizing g with
  | nil => exact ⟨g, rfl, fun h => h.elim id (fun h => absurd rfl h)⟩
  | cons n rest ih =>
    obtain ⟨g1, hline, hd1, hne⟩ := loadLine_unaryLine g n hd
    obtain ⟨fin, hrest, hfin⟩ := ih g1 hd1
    refine ⟨fin, ?_, fun _ => hfin (Or.inl hne)⟩
    simp only [List.map_cons, loadLines, hline]
    exact hrest


/-- Distinct numbers give distinct identifiers. -/
theorem unaryId_injective : Function.Injective unaryId := by
  intro a b h
  have := congrArg List.length h
  simpa [unaryId] using this

/-- The accepted identifiers of a list of lines `unaryLine n`. -/
theorem acceptedIds_unaryLines (l : List Nat) :
    acceptedIds (l.map unaryLine) = l.map unaryId := by
  induction l with
  | nil => rfl
  | cons n rest ih =>
    simp only [acceptedIds, List.map_cons, List.filterMap_cons, unaryLine_accepted] at ih ⊢
    rw [ih]

/-- Lookup by position in a map given by its list of distinct keys and its list of
values. -/
theorem mapFind_of_keys_values {K V : Type} [DecidableEq K] (m : List (K × V))
    (keys : List K) (vals : List V) (hkeys : m.map Prod.fst = keys)
    (hvals : m.map Prod.snd = vals) (hnodup : keys.Nodup) (k : Nat)
    (hk1 : k < keys.length) (hk2 : k < vals.length) :
    mapFind m keys[k] = some vals[k] := by
  have hk : k < m.length := by rw [← hkeys, List.length_map] at hk1; exact hk1
  have h := mapFind_of_getElem m (by rw [hkeys]; exact hnodup) k hk
  have e1 : (m[k]).1 = keys[k] := by
    have := List.getElem_map Prod.fst (l := m) (n := k) (h := by simpa using hk)
    rw [← this]
    simp only [hkeys]
  have e2 : (m[k]).2 = vals[k] := by
    have := List.getElem_map Prod.snd (l := m) (n := k) (h := by simpa using hk)
    rw [← this]
    simp only [hvals]
  rw [e1, e2] at h
  exact h

/-- When the loop runs to the end from the cleared state, `LoadSumoTrajectory` returns. -/
theorem LoadSumoTrajectory_of_loadLines (lib : Lib) (lines : List (List Char)) (g : Globals)
    (t : ℚ) (fin : Globals)
    (h : loadLines lib lines
          (0, { g with sumoTrajectory := [], sumoIdToNodeIndex := [], sumoVehicleCount := 0 })
        = .ok (t, fin)) :
    ∃ b g1, LoadSumoTrajectory lib (some lines) g = .ok (b, g1) := by
  unfold LoadSumoTrajectory
  simp only [h]
  exact ⟨_, _, rfl⟩

/-- C10, as stated, fails: loading `manyIdsTrace`, a trace of `2 ^ 32 + 1` accepted vehicle
records with pairwise distinct identifiers, succeeds, and the registry then maps both
the first identifier and the last one, which are different, to index 0: the index of
a new identifier is the size of the registry narrowed to `uint32_t`. -/
theorem registry_index_wraps :
    ∃ g1 : Globals,
      LoadSumoTrajectory sampleLib (some manyIdsTrace) unitTickState = .ok (true, g1)
      ∧ unaryId 0 ∈ acceptedIds manyIdsTrace
      ∧ unaryId U32 ∈ acceptedIds manyIdsTrace
      ∧ unaryId 0 ≠ unaryId U32
      ∧ mapFind g1.sumoIdToNodeIndex (unaryId 0) = some 0
      ∧ mapFind g1.sumoIdToNodeIndex (unaryId U32) = some 0 := by
  have hpos : 0 < U32 := by simp [U32]
  obtain ⟨fin, hrun, hne⟩ := loadLines_unaryLines (List.range (U32 + 1))
    { unitTickState with sumoTrajectory := [], sumoIdToNodeIndex := [], sumoVehicleCount := 0 }
    rfl
  obtain ⟨b, g1, hload⟩ := LoadSumoTrajectory_of_loadLines sampleLib manyIdsTrace
    unitTickState 0 fin hrun
  obtain ⟨hkeys, hvals⟩ := loaded_registry sampleLib manyIdsTrace unitTickState g1 b hload
  have hids : acceptedIds manyIdsTrace = (List.range (U32 + 1)).map unaryId :=
    acceptedIds_unaryLines _
  have hnodup : ((List.range (U32 + 1)).map unaryId).Nodup :=
    (List.nodup_range _).map unaryId_injective
  rw [hids, firstOccurrences_of_nodup _ hnodup] at hkeys
  have hlen : g1.sumoIdToNodeIndex.length = U32 + 1 := by
    have := congrArg List.length hkeys
    simpa using this
  rw [hlen] at hvals
  have hfind : ∀ k, k < U32 + 1 → mapFind g1.sumoIdToNodeIndex (unaryId k) = some (k % U32) := by
    intro k hk
    have h := mapFind_of_keys_values g1.sumoIdToNodeIndex _ _ hkeys hvals hnodup k
      (by simpa using hk) (by simpa using hk)
    simpa using h
  have hb : b = true := by
    obtain ⟨t, fin1, hrun1, hreg, htraj, _, hbdef⟩ :=
      LoadSumoTrajectory_ok sampleLib manyIdsTrace unitTickState g1 b hload
    unfold manyIdsTrace at hrun1
    rw [hrun] at hrun1
    simp only [Except.ok.injEq, Prod.mk.injEq] at hrun1
    rw [hbdef, ← hreg, hlen, ← hrun1.2]
    have h1 : (U32 + 1) % U32 = 1 := by simp [U32]
    have h2 : fin.sumoTrajectory ≠ [] := hne (Or.inr (by simp [List.range_succ]))
    simp [h1, h2]
  subst hb
  refine ⟨g1, hload, ?_, ?_, ?_, ?_, ?_⟩
  · rw [hids]; exact List.mem_map_of_mem _ (List.mem_range.mpr (by omega))
  · rw [hids]; exact List.mem_map_of_mem _ (List.mem_range.mpr (by omega))
  · intro h; have := unaryId_injective h; omega
  · have := hfind 0 (by omega); simpa using this
  · have := hfind U32 (by omega); simpa using this

/-- The example trace loads with the sample library. -/
theorem exampleTrace_loads :
    LoadSumoTrajectory sampleLib (some exampleTrace) unitTickState
      = .ok (true, exampleLoaded unitTickState) := by
  have e1 := loadLine_timestepLine sampleLib 0
    { unitTickState with sumoTrajectory := [], sumoIdToNodeIndex := [],
                         sumoVehicleCount := 0 } (by decide!)
  have e2 := loadLine_vehicleLineA sampleLib
    { unitTickState with sumoTrajectory := [], sumoIdToNodeIndex := [],
                         sumoVehicleCount := 0 }
    (by decide!) (by decide!) (by decide!) rfl rfl rfl
  have e3 := loadLine_vehicleLineB sampleLib
    { unitTickState with sumoTrajectory := [[(0, stateA)]],
                         sumoIdToNodeIndex := [("A".toList, 0)],
                         sumoVehicleCount := 0 } (by decide!) (by decide!) rfl rfl rfl
  simp only [LoadSumoTrajectory, exampleTrace, loadLines, e1, e2, e3]
  simp [U32, exampleLoaded, unitTickState]

/-- Witness for C10 amended: the example trace has two distinct identifiers; after the
load the registry lists them in order of first appearance and numbers them 0 and 1. -/
theorem registry_bijection_witness :
    (exampleLoaded unitTickState).sumoIdToNodeIndex.map Prod.fst
      = firstOccurrences (acceptedIds exampleTrace)
    ∧ (exampleLoaded unitTickState).sumoIdToNodeIndex.map Prod.snd
      = List.range (exampleLoaded unitTickState).sumoIdToNodeIndex.length :=
  have h := registry_bijection sampleLib exampleTrace unitTickState
    (exampleLoaded unitTickState) true exampleTrace_loads (by decide!)
  ⟨h.1, h.2.1⟩

/-! ### Frame conditions of the bridge operations and of the replay -/

/-- The training `MyExecuteActions` never writes the step budget. -/
theorem training_MyExecuteActions_maxSteps (g : Globals) :
    (Training.MyExecuteActions g).2.maxSteps = g.maxSteps := by
  unfold Training.MyExecuteActions
  split <;> rfl

/-- C22: in both programs every bridge operation other than `executeActions`
(observation space, action space, game-over, observation, reward, extra info) leaves
`currentStep` unchanged, in every state; so an operation that changes `currentStep` is
`executeActions`. -/
theorem bridge_ops_keep_tick (lib : Lib) (g : Globals) (op : BridgeOp) :
    (op ≠ .executeActions →
      (Simple.runOp lib op g).currentStep = g.currentStep
      ∧ (Training.runOp op g).currentStep = g.currentStep)
    ∧ ((Simple.runOp lib op g).currentStep ≠ g.currentStep → op = .executeActions)
    ∧ ((Training.runOp op g).currentStep ≠ g.currentStep → op = .executeActions)
    ∧ (Simple.MyGetObservation lib g).2.currentStep = g.currentStep := by
  have hkeep : op ≠ .executeActions →
      (Simple.runOp lib op g).currentStep = g.currentStep
      ∧ (Training.runOp op g).currentStep = g.currentStep := by
    intro hop
    constructor
    · rw [simple_runOp_currentStep]
      simp [hop]
    · cases op <;> simp_all [Training.runOp]
  refine ⟨hkeep, ?_, ?_, simple_MyGetObservation_currentStep lib g⟩
  · intro hne
    by_contra hop
    exact hne (hkeep hop).1
  · intro hne
    by_contra hop
    exact hne (hkeep hop).2

/-- The replay of a frame writes the roster, the snapshot and the metrics only. -/
theorem replayFrame_frame (lib : Lib) (frame : Frame) (g : Globals) :
    replayFrame lib frame g
      = { g with nodes := (replayFrame lib frame g).nodes,
                 currentSumoState := (replayFrame lib frame g).currentSumoState,
                 vehicleMetrics := (replayFrame lib frame g).vehicleMetrics } := by
  unfold replayFrame
  simp only
  rw [UpdateVehicleMetrics_frame]

/-- C23: for every tick and every state, `ApplySumoMobility` (of either program) changes
nothing but the roster, the snapshot and the per-actor metrics; in particular the
trajectory, the id registry, the vehicle count and `currentStep` are unchanged. -/
theorem ApplySumoMobility_frame (lib : Lib) (t : Nat) (g : Globals) :
    Training.ApplySumoMobility lib t g
      = { g with nodes := (Training.ApplySumoMobility lib t g).nodes,
                 currentSumoState := (Training.ApplySumoMobility lib t g).currentSumoState,
                 vehicleMetrics := (Training.ApplySumoMobility lib t g).vehicleMetrics }
    ∧ Simple.ApplySumoMobility lib t g
      = { g with nodes := (Simple.ApplySumoMobility lib t g).nodes,
                 currentSumoState := (Simple.ApplySumoMobility lib t g).currentSumoState,
                 vehicleMetrics := (Simple.ApplySumoMobility lib t g).vehicleMetrics }
    ∧ (Training.ApplySumoMobility lib t g).sumoTrajectory = g.sumoTrajectory
    ∧ (Training.ApplySumoMobility lib t g).sumoIdToNodeIndex = g.sumoIdToNodeIndex
    ∧ (Training.ApplySumoMobility lib t g).sumoVehicleCount = g.sumoVehicleCount
    ∧ (Training.ApplySumoMobility lib t g).currentStep = g.currentStep
    ∧ (Simple.ApplySumoMobility lib t g).sumoTrajectory = g.sumoTrajectory
    ∧ (Simple.ApplySumoMobility lib t g).sumoIdToNodeIndex = g.sumoIdToNodeIndex
    ∧ (Simple.ApplySumoMobility lib t g).sumoVehicleCount = g.sumoVehicleCount
    ∧ (Simple.ApplySumoMobility lib t g).currentStep = g.currentStep := by
  have hT : Training.ApplySumoMobility lib t g
      = { g with nodes := (Training.ApplySumoMobility lib t g).nodes,
                 currentSumoState := (Training.ApplySumoMobility lib t g).currentSumoState,
                 vehicleMetrics := (Training.ApplySumoMobility lib t g).vehicleMetrics } := by
    unfold Training.ApplySumoMobility
    split
    · rw [UpdateVehicleMetrics_frame]
    · rw [replayFrame_frame]
  have hS : Simple.ApplySumoMobility lib t g
      = { g with nodes := (Simple.ApplySumoMobility lib t g).nodes,
                 currentSumoState := (Simple.ApplySumoMobility lib t g).currentSumoState,
                 vehicleMetrics := (Simple.ApplySumoMobility lib t g).vehicleMetrics } := by
    unfold Simple.ApplySumoMobility
    split
    · rw [UpdateVehicleMetrics_frame]
    · rw [replayFrame_frame]
  refine ⟨hT, hS, ?_, ?_, ?_, ?_, ?_, ?_, ?_, ?_⟩
  · rw [hT]
  · rw [hT]
  · rw [hT]
  · rw [hT]
  · rw [hS]
  · rw [hS]
  · rw [hS]
  · rw [hS]

/-! ### The step budget of the training program -/

/-- The tick after `n` calls of the training `MyExecuteActions` from tick 0 under a
step budget. -/
theorem training_executeN_currentStep (g : Globals) (n : Nat)
    (hpos : 0 < g.maxSteps) (hfit : g.maxSteps < U32) (hstart : g.currentStep = 0) :
    (Training.executeN n g).currentStep = min n g.maxSteps
    ∧ (Training.executeN n g).maxSteps = g.maxSteps := by
  induction n with
  | zero => simp [Training.executeN, hstart]
  | succ k ih =>
    have hiter : Training.executeN (k + 1) g
        = (Training.MyExecuteActions (Training.executeN k g)).2 := by
      simp only [Training.executeN, Function.iterate_succ_apply']
    rw [hiter]
    refine ⟨?_, by rw [training_MyExecuteActions_maxSteps]; exact ih.2⟩
    unfold Training.MyExecuteActions
    by_cases hk : k < g.maxSteps
    · have hs : (Training.executeN k g).currentStep = k := by
        rw [ih.1]; exact Nat.min_eq_left (le_of_lt hk)
      have hcond : ¬ (0 < (Training.executeN k g).maxSteps
          ∧ (Training.executeN k g).maxSteps ≤ (Training.executeN k g).currentStep) := by
        rw [hs, ih.2]; omega
      rw [if_neg hcond]
      simp only [hs]
      rw [Nat.mod_eq_of_lt (by omega)]
      omega
    · have hs : (Training.executeN k g).currentStep = g.maxSteps := by
        rw [ih.1]; exact Nat.min_eq_right (by omega)
      have hcond : 0 < (Training.executeN k g).maxSteps
          ∧ (Training.executeN k g).maxSteps ≤ (Training.executeN k g).currentStep := by
        rw [hs, ih.2]; exact ⟨hpos, le_refl _⟩
      rw [if_pos hcond]
      simp only [hs]
      omega

/-- C25: in the training program with a step budget `maxSteps > 0` (a `uint32_t`),
starting from tick 0, after any `n` calls of `executeActions` the tick is
`min n maxSteps`; the next call succeeds exactly when `n < maxSteps`, so exactly the
first `maxSteps` calls succeed and every later call fails. -/
theorem training_step_budget (g : Globals) (n : Nat)
    (hpos : 0 < g.maxSteps) (hfit : g.maxSteps < U32) (hstart : g.currentStep = 0) :
    (Training.executeN n g).currentStep = min n g.maxSteps
    ∧ (Training.executeN n g).currentStep ≤ g.maxSteps
    ∧ ((Training.MyExecuteActions (Training.executeN n g)).1 = true ↔ n < g.maxSteps) := by
  obtain ⟨hstep, hmax⟩ := training_executeN_currentStep g n hpos hfit hstart
  refine ⟨hstep, by rw [hstep]; exact Nat.min_le_right _ _, ?_⟩
  unfold Training.MyExecuteActions
  by_cases hn : n < g.maxSteps
  · have hs : (Training.executeN n g).currentStep = n := by
      rw [hstep]; exact Nat.min_eq_left (le_of_lt hn)
    have hcond : ¬ (0 < (Training.executeN n g).maxSteps
        ∧ (Training.executeN n g).maxSteps ≤ (Training.executeN n g).currentStep) := by
      rw [hs, hmax]; omega
    rw [if_neg hcond]
    simp [hn]
  · have hs : (Training.executeN n g).currentStep = g.maxSteps := by
      rw [hstep]; exact Nat.min_eq_right (by omega)
    have hcond : 0 < (Training.executeN n g).maxSteps
        ∧ (Training.executeN n g).maxSteps ≤ (Training.executeN n g).currentStep := by
      rw [hs, hmax]; exact ⟨hpos, le_refl _⟩
    rw [if_pos hcond]
    simp [hn]

/-- Witness for C25: with a budget of 3, five calls from tick 0 leave the tick at 3 and
the sixth call fails. -/
theorem training_step_budget_witness :
    (Training.executeN 5 budgetThreeState).currentStep = min 5 budgetThreeState.maxSteps
    ∧ (Training.executeN 5 budgetThreeState).currentStep ≤ budgetThreeState.maxSteps
    ∧ ((Training.MyExecuteActions (Training.executeN 5 budgetThreeState)).1 = true
        ↔ 5 < budgetThreeState.maxSteps) :=
  training_step_budget budgetThreeState 5 (by decide) (by decide) rfl

/-! ### The frame lookup is in bounds -/

/-- C27: for every non-empty trajectory and every tick, the frame index computed by
`ApplySumoMobility` is below the frame count, in the simple program and in the training
program under either policy; and when the frame count fits 32 bits (as for every
loaded trajectory), for every tick below the frame count the index is the tick itself
in both programs, whether looping is on or off. -/
theorem frame_index_in_bounds (g : Globals) (t : Nat) (hne : g.sumoTrajectory ≠ []) :
    Simple.clampedStep g t < g.sumoTrajectory.length
    ∧ Training.safeIndex g t < g.sumoTrajectory.length
    ∧ (g.sumoTrajectory.length < U32 → t < g.sumoTrajectory.length →
        Simple.clampedStep g t = t ∧ Training.safeIndex g t = t) := by
  have hpos : 0 < g.sumoTrajectory.length := List.length_pos.mpr hne
  have hU : 0 < U32 := by simp [U32]
  refine ⟨?_, ?_, ?_⟩
  · have h1 : (g.sumoTrajectory.length - 1) % U32 ≤ g.sumoTrajectory.length - 1 :=
      Nat.mod_le _ _
    have h2 := Nat.min_le_right t ((g.sumoTrajectory.length - 1) % U32)
    simp only [Simple.clampedStep]
    omega
  · have hle : g.sumoTrajectory.length % U32 ≤ g.sumoTrajectory.length := Nat.mod_le _ _
    simp only [Training.safeIndex]
    by_cases hes : 0 < g.sumoTrajectory.length % U32
    · have hwrap : (g.sumoTrajectory.length % U32 + U32 - 1) % U32
          = g.sumoTrajectory.length % U32 - 1 := by
        have hlt := Nat.mod_lt g.sumoTrajectory.length hU
        have : g.sumoTrajectory.length % U32 + U32 - 1
            = (g.sumoTrajectory.length % U32 - 1) + U32 := by omega
        rw [this, Nat.add_mod_right, Nat.mod_eq_of_lt (by omega)]
      split
      · have := Nat.mod_lt t hes
        omega
      · rw [hwrap]
        have := Nat.min_le_right t (g.sumoTrajectory.length % U32 - 1)
        omega
    · have hzero : g.sumoTrajectory.length % U32 = 0 := by omega
      have hge : U32 ≤ g.sumoTrajectory.length := by
        by_contra hcon
        rw [Nat.mod_eq_of_lt (by omega)] at hzero
        omega
      simp only [hzero, lt_irrefl, and_false, if_false, Nat.zero_add]
      have := Nat.min_le_right t ((U32 - 1) % U32)
      have := Nat.mod_le (U32 - 1) U32
      omega
  · intro hlen ht
    have hmod : g.sumoTrajectory.length % U32 = g.sumoTrajectory.length :=
      Nat.mod_eq_of_lt hlen
    have hpred : (g.sumoTrajectory.length - 1) % U32 = g.sumoTrajectory.length - 1 :=
      Nat.mod_eq_of_lt (by omega)
    have hwrap : (g.sumoTrajectory.length + U32 - 1) % U32 = g.sumoTrajectory.length - 1 := by
      have : g.sumoTrajectory.length + U32 - 1 = (g.sumoTrajectory.length - 1) + U32 := by
        omega
      rw [this, Nat.add_mod_right, hpred]
    constructor
    · simp only [Simple.clampedStep, hpred]
      omega
    · simp only [Training.safeIndex, hmod, hwrap]
      split
      · exact Nat.mod_eq_of_lt ht
      · omega

/-- Witness for C27: with three frames, the index of tick 7 is below 3, and the index of
tick 1 is 1 in both programs. -/
theorem frame_index_in_bounds_witness :
    Simple.clampedStep threeFrameState 7 < threeFrameState.sumoTrajectory.length
    ∧ Training.safeIndex threeFrameState 7 < threeFrameState.sumoTrajectory.length
    ∧ Simple.clampedStep threeFrameState 1 = 1 ∧ Training.safeIndex threeFrameState 1 = 1 :=
  have h7 := frame_index_in_bounds threeFrameState 7 (by decide)
  have h1 := frame_index_in_bounds threeFrameState 1 (by decide)
  ⟨h7.1, h7.2.1, h1.2.2 (by decide) (by decide)⟩

/-! ### Replay: roster mismatch, fresh snapshot, active count -/

/-- Entries beyond the roster do not take part in the replay loop. -/
theorem foldl_applyEntry_filter (frame : Frame)
    (acc : List Node × List (Nat × SumoVehicleState)) :
    frame.foldl applyEntry acc
      = (frame.filter (fun e => decide (e.1 < acc.1.length))).foldl applyEntry acc := by
  induction frame generalizing acc with
  | nil => rfl
  | cons e rest ih =>
    by_cases hlt : e.1 < acc.1.length
    · have hstep : (applyEntry acc e).1.length = acc.1.length := applyEntry_nodes_length acc e
      simp only [List.filter_cons, hlt, decide_True, if_true, List.foldl_cons]
      rw [ih (applyEntry acc e), hstep]
    · have hskip : applyEntry acc e = acc := by
        unfold applyEntry
        rw [if_pos (by omega)]
      simp only [List.filter_cons, hlt, decide_False, List.foldl_cons, hskip]
      exact ih acc

/-- The snapshot left by the replay loop on a frame with distinct keys, none of which
is in the snapshot yet: the entries within the roster are appended in frame order. -/
theorem foldl_applyEntry_snapshot (frame : Frame) (hkeys : (frame.map Prod.fst).Nodup)
    (acc : List Node × List (Nat × SumoVehicleState))
    (hfresh : ∀ e ∈ frame, e.1 ∉ acc.2.map Prod.fst) :
    (frame.foldl applyEntry acc).2
      = acc.2 ++ frame.filter (fun e => decide (e.1 < acc.1.length)) := by
  induction frame generalizing acc with
  | nil => simp
  | cons e rest ih =>
    simp only [List.map_cons, List.nodup_cons] at hkeys
    have hstep : (applyEntry acc e).1.length = acc.1.length := applyEntry_nodes_length acc e
    by_cases hlt : e.1 < acc.1.length
    · have hnew : (applyEntry acc e).2 = acc.2 ++ [e] := by
        unfold applyEntry
        rw [if_neg (by omega)]
        simp only
        exact mapAssign_of_not_mem acc.2 e.1 e.2 (hfresh e (List.mem_cons_self e rest))
      rw [List.foldl_cons, ih hkeys.2 (applyEntry acc e)]
      · rw [hnew, hstep]
        simp [List.filter_cons, hlt]
      · intro e1 he1
        rw [hnew]
        simp only [List.map_append, List.map_cons, List.map_nil, List.mem_append,
          List.mem_singleton, not_or]
        refine ⟨hfresh e1 (List.mem_cons_of_mem e he1), ?_⟩
        intro heq
        exact hkeys.1 (heq ▸ List.mem_map_of_mem Prod.fst he1)
    · have hskip : applyEntry acc e = acc := by
        unfold applyEntry
        rw [if_pos (by omega)]
      rw [List.foldl_cons, hskip, ih hkeys.2 acc
        (fun e1 he1 => hfresh e1 (List.mem_cons_of_mem e he1))]
      simp [List.filter_cons, hlt]

/-- `UpdateVehicleMetrics` keeps the snapshot and the roster. -/
theorem UpdateVehicleMetrics_snapshot (lib : Lib) (g : Globals) :
    (UpdateVehicleMetrics lib g).currentSumoState = g.currentSumoState
    ∧ (UpdateVehicleMetrics lib g).nodes = g.nodes := by
  constructor <;> rw [UpdateVehicleMetrics_frame]

/-- The snapshot after the replay of a frame is what the replay loop left, starting
from the empty snapshot. -/
theorem replayFrame_snapshot (lib : Lib) (frame : Frame) (g : Globals) :
    (replayFrame lib frame g).currentSumoState = (frame.foldl applyEntry (g.nodes, [])).2 := by
  unfold replayFrame
  simp only
  rw [(UpdateVehicleMetrics_snapshot lib _).1]

/-- C13: for every frame and every roster, replaying the frame leaves the same state
(roster, snapshot, per-actor metrics and everything else) as replaying the frame with
every entry of actor index at or beyond the roster size removed; no entry of the
snapshot has such an index; the replay is a total function. For instance an entry for
actor 50 is dropped against a roster of 10, the entry for actor 3 is kept. -/
theorem replay_drops_out_of_roster (lib : Lib) (frame : Frame) (g : Globals) :
    replayFrame lib frame g
      = replayFrame lib (frame.filter (fun e => decide (e.1 < g.nodes.length))) g
    ∧ (∀ i : Nat, g.nodes.length ≤ i →
        mapFind (replayFrame lib frame g).currentSumoState i = none)
    ∧ (∀ (i : Nat), i < g.nodes.length → (frame.map Prod.fst).Nodup →
        mapFind (replayFrame lib frame g).currentSumoState i = mapFind frame i)
    ∧ (replayFrame lib mismatchFrame tenNodeState).currentSumoState = [(3, stateA)] := by
  have hfold := foldl_applyEntry_filter frame (g.nodes, [])
  have hsome : ∀ (fr : Frame) (acc : List Node × List (Nat × SumoVehicleState)) (i : Nat),
      acc.1.length ≤ i → mapFind acc.2 i = none →
      mapFind (fr.foldl applyEntry acc).2 i = none := by
    intro fr
    induction fr with
    | nil => intro acc i _ h; exact h
    | cons e rest ih =>
      intro acc i hi hnone
      rw [List.foldl_cons]
      apply ih
      · rw [applyEntry_nodes_length]; exact hi
      · unfold applyEntry
        split
        · exact hnone
        · rename_i hlt
          simp only
          rw [mapFind_mapAssign, if_neg (by omega)]
          exact hnone
  refine ⟨?_, ?_, ?_, ?_⟩
  · unfold replayFrame
    simp only at hfold ⊢
    rw [← hfold]
  · intro i hi
    rw [replayFrame_snapshot]
    exact hsome frame (g.nodes, []) i hi rfl
  · intro i hi hkeys
    rw [replayFrame_snapshot, mapFind_foldl_applyEntry frame hkeys]
    simp only [hi, if_true]
    cases mapFind frame i <;> simp [mapFind]
  · rw [replayFrame_snapshot]
    decide!

/-- The number of roster indices found in a map with distinct keys, all within the
roster, is the number of its entries. -/
theorem length_filterMap_mapFind {V : Type} (m : List (Nat × V)) (n : Nat)
    (hnodup : (m.map Prod.fst).Nodup) (hlt : ∀ e ∈ m, e.1 < n) :
    ((List.range n).filterMap (mapFind m)).length = m.length := by
  rw [List.length_filterMap_eq_countP, List.countP_eq_length_filter]
  have hperm : List.Perm ((List.range n).filter (fun a => (mapFind m a).isSome))
      (m.map Prod.fst) := by
    rw [List.perm_ext_iff_of_nodup ((List.nodup_range n).filter _) hnodup]
    intro a
    simp only [List.mem_filter, List.mem_range]
    constructor
    · rintro ⟨_, hfound⟩
      by_contra hmem
      rw [(mapFind_eq_none_iff m a).mpr hmem] at hfound
      exact absurd hfound (by simp)
    · intro hmem
      obtain ⟨e, he, hea⟩ := List.mem_map.mp hmem
      refine ⟨hea ▸ hlt e he, ?_⟩
      cases hfind : mapFind m a with
      | none => exact absurd hmem ((mapFind_eq_none_iff m a).mp hfind)
      | some v => rfl
  rw [hperm.length_eq, List.length_map]

/-- The metrics stored by the replay of a frame in trace mode. -/
theorem replayFrame_metrics (lib : Lib) (frame : Frame) (g : Globals)
    (huse : g.useSumoMobility = true) :
    (replayFrame lib frame g).vehicleMetrics
      = (List.range g.nodes.length).map
          (sumoMetrics (frame.foldl applyEntry (g.nodes, [])).2) := by
  have h := UpdateVehicleMetrics_sumo lib
    { g with nodes := (frame.foldl applyEntry (g.nodes, [])).1,
             currentSumoState := (frame.foldl applyEntry (g.nodes, [])).2 } huse
  simp only [foldl_applyEntry_nodes_length] at h
  exact h

/-- The snapshot after the replay of a frame with distinct keys: the entries of the
frame within the roster, in frame order. -/
theorem replayFrame_snapshot_eq (lib : Lib) (frame : Frame) (g : Globals)
    (hkeys : (frame.map Prod.fst).Nodup) :
    (replayFrame lib frame g).currentSumoState
      = frame.filter (fun e => decide (e.1 < g.nodes.length)) := by
  rw [replayFrame_snapshot, foldl_applyEntry_snapshot frame hkeys (g.nodes, [])]
  · simp
  · intro e _
    simp

/-- C14: in trace mode of the simple program (trajectory loaded, distinct keys within
each frame), for every tick and every previous snapshot, `ApplySumoMobility` gives the
same state whatever the previous snapshot was; the new snapshot holds exactly the
entries of the resolved frame with index below the roster size; an actor within the
roster that is absent from the resolved frame gets the inactive metrics (position
(0, 0, 0), speed 0), and an actor present gets the position and speed of its entry. -/
theorem simple_snapshot_is_fresh (lib : Lib) (g : Globals) (t : Nat)
    (prev : List (Nat × SumoVehicleState))
    (huse : g.useSumoMobility = true) (hne : g.sumoTrajectory ≠ [])
    (hkeys : ∀ f ∈ g.sumoTrajectory, (f.map Prod.fst).Nodup) :
    Simple.ApplySumoMobility lib t { g with currentSumoState := prev }
      = Simple.ApplySumoMobility lib t g
    ∧ (Simple.ApplySumoMobility lib t g).currentSumoState
      = (g.sumoTrajectory.getD (Simple.clampedStep g t) []).filter
          (fun e => decide (e.1 < g.nodes.length))
    ∧ (∀ i : Nat, i < g.nodes.length →
        mapFind (g.sumoTrajectory.getD (Simple.clampedStep g t) []) i = none →
        (Simple.ApplySumoMobility lib t g).vehicleMetrics[i]?
          = some { position := ⟨0, 0, 0⟩, speed := 0, active := false })
    ∧ (∀ (i : Nat) (s : SumoVehicleState), i < g.nodes.length →
        mapFind (g.sumoTrajectory.getD (Simple.clampedStep g t) []) i = some s →
        (Simple.ApplySumoMobility lib t g).vehicleMetrics[i]?
          = some { position := s.position, speed := s.speed, active := true }) := by
  have hfk := getD_keys_nodup g.sumoTrajectory (Simple.clampedStep g t) hkeys
  have happ : Simple.ApplySumoMobility lib t g
      = replayFrame lib (g.sumoTrajectory.getD (Simple.clampedStep g t) []) g := by
    simp [Simple.ApplySumoMobility, huse, hne]
  have hmet : ∀ i : Nat, i < g.nodes.length →
      (Simple.ApplySumoMobility lib t g).vehicleMetrics[i]?
        = some (sumoMetrics (g.sumoTrajectory.getD (Simple.clampedStep g t) []) i) := by
    intro i hi
    rw [happ, replayFrame_metrics lib _ g huse, List.getElem?_map, List.getElem?_range hi]
    simp only [Option.map_some', sumoMetrics]
    rw [mapFind_foldl_applyEntry _ hfk]
    simp only [hi, if_true]
    cases mapFind (g.sumoTrajectory.getD (Simple.clampedStep g t) []) i <;> simp [mapFind]
  refine ⟨?_, ?_, ?_, ?_⟩
  · have hprev : Simple.ApplySumoMobility lib t { g with currentSumoState := prev }
        = replayFrame lib (g.sumoTrajectory.getD (Simple.clampedStep g t) [])
            { g with currentSumoState := prev } := by
      simp [Simple.ApplySumoMobility, Simple.clampedStep, huse, hne]
    rw [hprev, happ]
    rfl
  · rw [happ, replayFrame_snapshot_eq lib _ g hfk]
  · intro i hi hnone
    rw [hmet i hi]
    simp only [sumoMetrics, hnone]
  · intro i s hi hsome
    rw [hmet i hi]
    simp only [sumoMetrics, hsome]

/-- Witness for C14: in `staleSnapshotState` the stale snapshot holds actor 0, the frame
of tick 1 is empty; after the replay of tick 1 the snapshot is empty and actor 0 is
inactive at the origin. -/
theorem simple_snapshot_is_fresh_witness :
    (Simple.ApplySumoMobility sampleLib 1 twoFrameState).currentSumoState
      = (twoFrameState.sumoTrajectory.getD (Simple.clampedStep twoFrameState 1) []).filter
          (fun e => decide (e.1 < twoFrameState.nodes.length))
    ∧ Simple.ApplySumoMobility sampleLib 1 staleSnapshotState
      = Simple.ApplySumoMobility sampleLib 1 twoFrameState
    ∧ (Simple.ApplySumoMobility sampleLib 1 twoFrameState).vehicleMetrics[0]?
      = some { position := ⟨0, 0, 0⟩, speed := 0, active := false } :=
  have h := simple_snapshot_is_fresh sampleLib twoFrameState 1 [(0, stateA)] rfl
    (by decide) (by decide)
  ⟨h.2.1, h.1, h.2.2.1 0 (by decide) (by decide)⟩

/-- The loop of `MyGetReward`: it counts the active actors modulo `2 ^ 32`. -/
theorem foldl_countActive (ms : List VehicleMetrics) (c : Nat) (hc : c < U32) :
    ms.foldl (fun n m => if m.active then (n + 1) % U32 else n) c
      = (c + (ms.filter (fun m => m.active)).length) % U32 := by
  induction ms generalizing c with
  | nil => simp [Nat.mod_eq_of_lt hc]
  | cons m rest ih =>
    have hpos : 0 < U32 := by simp [U32]
    by_cases hact : m.active = true
    · simp only [List.foldl_cons, hact, if_true, List.filter_cons, List.length_cons]
      rw [ih _ (Nat.mod_lt _ hpos), Nat.mod_add_mod]
      congr 1
      omega
    · simp only [List.foldl_cons, hact, List.filter_cons]
      simp only [Bool.false_eq_true, if_false]
      exact ih c hc

/-! ### The active count after a replay -/

/-- In trace mode of the training program, after `ApplySumoMobility` on any tick the
count `activeNodes` of `MyGetObservation` is the number of entries of the resolved frame
whose actor index is below the roster size; it is at most the roster size; the first
value of the observation is this count narrowed to a float; the count of `MyGetReward`
is the same number, and the reward is the float nearest to the double product of the
count and 0.1. -/
theorem active_count_after_replay (lib : Lib) (g : Globals) (t : Nat)
    (huse : g.useSumoMobility = true) (hne : g.sumoTrajectory ≠ [])
    (hkeys : ∀ f ∈ g.sumoTrajectory, (f.map Prod.fst).Nodup)
    (hroster : g.nodes.length < U32) :
    (globalStats (Training.ApplySumoMobility lib t g).vehicleMetrics).1
      = ((g.sumoTrajectory.getD (Training.safeIndex g t) []).filter
          (fun e => decide (e.1 < g.nodes.length))).length
    ∧ (globalStats (Training.ApplySumoMobility lib t g).vehicleMetrics).1 ≤ g.nodes.length
    ∧ (Training.MyGetObservation (Training.ApplySumoMobility lib t g)).values.head?
      = some (roundFloat
          ((globalStats (Training.ApplySumoMobility lib t g).vehicleMetrics).1 : ℚ))
    ∧ countActive (Training.ApplySumoMobility lib t g).vehicleMetrics
      = (globalStats (Training.ApplySumoMobility lib t g).vehicleMetrics).1
    ∧ Training.MyGetReward (Training.ApplySumoMobility lib t g)
      = roundFloat (roundDouble
          (((globalStats (Training.ApplySumoMobility lib t g).vehicleMetrics).1 : ℚ)
            * roundDouble (1 / 10))) := by
  have hpos : 0 < U32 := by simp [U32]
  have hfk := getD_keys_nodup g.sumoTrajectory (Training.safeIndex g t) hkeys
  have happ : Training.ApplySumoMobility lib t g
      = replayFrame lib (g.sumoTrajectory.getD (Training.safeIndex g t) []) g := by
    simp [Training.ApplySumoMobility, huse, hne]
  have hsnap := foldl_applyEntry_snapshot _ hfk (g.nodes, []) (by intro e _; simp)
  simp only [List.nil_append] at hsnap
  have hmet := replayFrame_metrics lib (g.sumoTrajectory.getD (Training.safeIndex g t) []) g
    huse
  rw [hsnap] at hmet
  have hsnodup : (((g.sumoTrajectory.getD (Training.safeIndex g t) []).filter
      (fun e => decide (e.1 < g.nodes.length))).map Prod.fst).Nodup :=
    hfk.sublist ((List.filter_sublist _).map Prod.fst)
  have hcount := length_filterMap_mapFind
    ((g.sumoTrajectory.getD (Training.safeIndex g t) []).filter
      (fun e => decide (e.1 < g.nodes.length))) g.nodes.length hsnodup
    (by intro e he; simpa using (List.mem_filter.mp he).2)
  have hle : ((g.sumoTrajectory.getD (Training.safeIndex g t) []).filter
      (fun e => decide (e.1 < g.nodes.length))).length ≤ g.nodes.length := by
    rw [← hcount]
    have := List.length_filterMap_le (mapFind ((g.sumoTrajectory.getD
      (Training.safeIndex g t) []).filter (fun e => decide (e.1 < g.nodes.length))))
      (List.range g.nodes.length)
    simpa using this
  have hactive : ((Training.ApplySumoMobility lib t g).vehicleMetrics.filter
      (fun m => m.active)).length
      = ((g.sumoTrajectory.getD (Training.safeIndex g t) []).filter
          (fun e => decide (e.1 < g.nodes.length))).length := by
    rw [happ, hmet, filter_active_sumoMetrics, List.length_map, hcount]
  have hstats : (globalStats (Training.ApplySumoMobility lib t g).vehicleMetrics).1
      = ((g.sumoTrajectory.getD (Training.safeIndex g t) []).filter
          (fun e => decide (e.1 < g.nodes.length))).length := by
    simp only [globalStats, foldl_accumulate _ _ _ _ _ hpos, Nat.zero_add, hactive]
    exact Nat.mod_eq_of_lt (by omega)
  have hreward : countActive (Training.ApplySumoMobility lib t g).vehicleMetrics
      = (globalStats (Training.ApplySumoMobility lib t g).vehicleMetrics).1 := by
    rw [hstats]
    simp only [countActive, foldl_countActive _ _ hpos, Nat.zero_add, hactive]
    exact Nat.mod_eq_of_lt (by omega)
  refine ⟨hstats, by rw [hstats]; exact hle, ?_, hreward, ?_⟩
  · simp [Training.MyGetObservation, buildObservation]
  · simp only [Training.MyGetReward, hreward]

/-- The frame of `fullRosterState n` has `n` entries, all below the roster size `n`; after
its replay the count of the active actors is `n` and the first value of the observation
is `n` narrowed to a float. -/
theorem fullRoster_first_value (n : Nat) (hn : n < U32) :
    (((fullRosterState n).sumoTrajectory.getD
        (Training.safeIndex (fullRosterState n) 0) []).filter
      (fun e => decide (e.1 < (fullRosterState n).nodes.length))).length = n
    ∧ (globalStats (Training.ApplySumoMobility sampleLib 0
        (fullRosterState n)).vehicleMetrics).1 = n
    ∧ (Training.MyGetObservation (Training.ApplySumoMobility sampleLib 0
        (fullRosterState n))).values.head? = some (roundFloat (n : ℚ)) := by
  have hnodes : (fullRosterState n).nodes.length = n := by
    simp [fullRosterState, withRoster]
  have htraj : (fullRosterState n).sumoTrajectory
      = [(List.range n).map (fun i => (i, originState))] := rfl
  have hidx : Training.safeIndex (fullRosterState n) 0 = 0 := by
    simp [Training.safeIndex, htraj, fullRosterState, withRoster, Globals.initial]
  have hlen : (((fullRosterState n).sumoTrajectory.getD
        (Training.safeIndex (fullRosterState n) 0) []).filter
      (fun e => decide (e.1 < (fullRosterState n).nodes.length))).length = n := by
    rw [hidx, htraj, hnodes]
    have hall : ((List.range n).map (fun i => (i, originState))).filter
        (fun e => decide (e.1 < n)) = (List.range n).map (fun i => (i, originState)) := by
      apply List.filter_eq_self.mpr
      intro e he
      obtain ⟨i, hi, rfl⟩ := List.mem_map.mp he
      simpa using List.mem_range.mp hi
    simp only [List.getD_cons_zero]
    rw [hall, List.length_map, List.length_range]
  have hcore := active_count_after_replay sampleLib (fullRosterState n) 0 rfl
    (by rw [htraj]; exact List.cons_ne_nil _ _)
    (by
      intro f hf
      rw [htraj, List.mem_singleton] at hf
      subst hf
      rw [List.map_map]
      have : (Prod.fst ∘ fun i => (i, originState)) = (id : Nat → Nat) := rfl
      rw [this, List.map_id]
      exact List.nodup_range n)
    (by rw [hnodes]; exact hn)
  refine ⟨hlen, ?_, ?_⟩
  · rw [hcore.1, hlen]
  · rw [hcore.2.2.1, hcore.1, hlen]

/-- C28, as stated, fails: with a roster of 16777217 actors (`2 ^ 24 + 1`) and a frame
that has an entry for each of them, the resolved frame has 16777217 entries below the
roster size and the count of the active actors is 16777217, yet the first value of the
observation is 16777216: the count is narrowed to a float. -/
theorem first_value_narrows_count :
    (((fullRosterState 16777217).sumoTrajectory.getD
        (Training.safeIndex (fullRosterState 16777217) 0) []).filter
      (fun e => decide (e.1 < (fullRosterState 16777217).nodes.length))).length = 16777217
    ∧ (globalStats (Training.ApplySumoMobility sampleLib 0
        (fullRosterState 16777217)).vehicleMetrics).1 = 16777217
    ∧ (Training.MyGetObservation (Training.ApplySumoMobility sampleLib 0
        (fullRosterState 16777217))).values.head? = some 16777216 := by
  obtain ⟨h1, h2, h3⟩ := fullRoster_first_value 16777217 (by decide)
  have hfloat : roundFloat ((16777217 : Nat) : ℚ) = 16777216 := by decide!
  refine ⟨h1, h2, ?_⟩
  rw [h3, hfloat]

/-- C28, amended: in trace mode of the training program (trajectory loaded, distinct
keys within each frame, roster size a `uint32_t`), after `ApplySumoMobility` on any tick
the active count of the observation is the number of entries of the resolved frame
whose actor index is below the roster size; it is at most the roster size; the first
value of the observation is this count narrowed to a float, which is the count itself
when the count is at most `2 ^ 24`; and the active count used by the reward is the same
number, the reward being the float nearest to the double product of the count and
0.1. -/
theorem training_active_count (lib : Lib) (g : Globals) (t : Nat)
    (huse : g.useSumoMobility = true) (hne : g.sumoTrajectory ≠ [])
    (hkeys : ∀ f ∈ g.sumoTrajectory, (f.map Prod.fst).Nodup)
    (hroster : g.nodes.length < U32) :
    (globalStats (Training.ApplySumoMobility lib t g).vehicleMetrics).1
      = ((g.sumoTrajectory.getD (Training.safeIndex g t) []).filter
          (fun e => decide (e.1 < g.nodes.length))).length
    ∧ (globalStats (Training.ApplySumoMobility lib t g).vehicleMetrics).1 ≤ g.nodes.length
    ∧ (Training.MyGetObservation (Training.ApplySumoMobility lib t g)).values.head?
      = some (roundFloat
          ((globalStats (Training.ApplySumoMobility lib t g).vehicleMetrics).1 : ℚ))
    ∧ ((globalStats (Training.ApplySumoMobility lib t g).vehicleMetrics).1 ≤ 2 ^ 24 →
        (Training.MyGetObservation (Training.ApplySumoMobility lib t g)).values.head?
          = some ((globalStats (Training.ApplySumoMobility lib t g).vehicleMetrics).1 : ℚ))
    ∧ countActive (Training.ApplySumoMobility lib t g).vehicleMetrics
      = (globalStats (Training.ApplySumoMobility lib t g).vehicleMetrics).1
    ∧ Training.MyGetReward (Training.ApplySumoMobility lib t g)
      = roundFloat (roundDouble
          (((globalStats (Training.ApplySumoMobility lib t g).vehicleMetrics).1 : ℚ)
            * roundDouble (1 / 10))) := by
  obtain ⟨h1, h2, h3, h4, h5⟩ := active_count_after_replay lib g t huse hne hkeys hroster
  refine ⟨h1, h2, h3, ?_, h4, h5⟩
  intro hsmall
  rw [h3, roundFloat_natCast _ hsmall]

/-- Witness for C28: in `tenNodeState` the frame has entries for actors 3 and 50; against
the roster of ten the active count is the number of entries below 10, which is 1, and
the first value of the observation is 1. -/
theorem training_active_count_witness :
    (globalStats (Training.ApplySumoMobility sampleLib 0 tenNodeState).vehicleMetrics).1
      = ((tenNodeState.sumoTrajectory.getD (Training.safeIndex tenNodeState 0) []).filter
          (fun e => decide (e.1 < tenNodeState.nodes.length))).length
    ∧ ((tenNodeState.sumoTrajectory.getD (Training.safeIndex tenNodeState 0) []).filter
          (fun e => decide (e.1 < tenNodeState.nodes.length))).length = 1
    ∧ (Training.MyGetObservation (Training.ApplySumoMobility sampleLib 0
        tenNodeState)).values.head? = some 1 :=
  have h := training_active_count sampleLib tenNodeState 0 rfl (by decide) (by decide)
    (by decide)
  ⟨h.1, by decide, by decide!⟩

/-! ### The values of the observation -/

/-- A token `k ++ [=, dq]` is a prefix of `u ++ = :: w` with `=` occurring neither in `k` nor in `u`
exactly when `k` is `u` and a quote follows the `=`. -/
theorem token_isPrefixOf_iff (k u w : List Char) (hk : '=' ∉ k) (hu : '=' ∉ u) :
    (k ++ ['=', dq]).isPrefixOf (u ++ '=' :: w) = true ↔ k = u ∧ [dq].isPrefixOf w = true := by
  induction k generalizing u with
  | nil =>
    cases u with
    | nil => simp [List.isPrefixOf]
    | cons c u1 =>
      simp only [List.mem_cons, not_or] at hu
      have hne : ('=' == c) = false := by simpa using hu.1
      simp [List.isPrefixOf, hne]
  | cons a k1 ih =>
    simp only [List.mem_cons, not_or] at hk
    cases u with
    | nil =>
      have hne : (a == '=') = false := by simpa using fun h => hk.1 h.symm
      simp [List.isPrefixOf, hne]
    | cons c u1 =>
      simp only [List.mem_cons, not_or] at hu
      show ((a == c) && (k1 ++ ['=', dq]).isPrefixOf (u1 ++ '=' :: w)) = true ↔ _
      simp only [Bool.and_eq_true, beq_iff_eq, List.cons.injEq]
      rw [ih u1 hk.2 hu.2]
      tauto

/-- A token that contains `=` is not found in a string without `=`. -/
theorem strFind_token_none (k s : List Char) (hs : '=' ∉ s) :
    strFind s (k ++ ['=', dq]) = none := by
  induction s with
  | nil =>
    rw [strFind]
    cases k <;> simp [List.isPrefixOf]
  | cons c cs ih =>
    simp only [List.mem_cons, not_or] at hs
    have hnot : (k ++ ['=', dq]).isPrefixOf (c :: cs) = false := by
      by_contra hcon
      have hpre : (k ++ ['=', dq]).isPrefixOf (c :: cs) = true := by simpa using hcon
      have hsub := List.isPrefixOf_iff_prefix.mp hpre
      have hmem : '=' ∈ c :: cs := hsub.subset (by simp)
      simp only [List.mem_cons] at hmem
      rcases hmem with h | h
      · exact hs.1 h
      · exact hs.2 h
    rw [strFind_cons_of_not_isPrefixOf _ _ _ hnot, ih hs.2]
    rfl

/-- The search for a token `k ++ [=, dq]` (with `k` non-empty and without `=`) in `u ++ = :: w`, where
`u` has no `=`: the token is found at the end of `u` when `k` is a suffix of `u` and a
quote follows the `=`, and otherwise the search continues after the `=`. -/
theorem strFind_token_skip (k u w : List Char) (hk : '=' ∉ k) (hkne : k ≠ [])
    (hu : '=' ∉ u) :
    strFind (u ++ '=' :: w) (k ++ ['=', dq])
      = if k <:+ u ∧ [dq].isPrefixOf w = true then some (u.length - k.length)
        else (strFind w (k ++ ['=', dq])).map (fun i => i + (u.length + 1)) := by
  induction u with
  | nil =>
    have hnot : (k ++ ['=', dq]).isPrefixOf ([] ++ '=' :: w) = false := by
      by_contra hcon
      have hpre : (k ++ ['=', dq]).isPrefixOf ([] ++ '=' :: w) = true := by simpa using hcon
      exact hkne ((token_isPrefixOf_iff k [] w hk hu).mp hpre).1
    have hsuf : ¬ (k <:+ ([] : List Char)) := by
      intro h
      exact hkne (List.suffix_nil.mp h)
    simp only [List.nil_append] at hnot ⊢
    rw [strFind_cons_of_not_isPrefixOf _ _ _ hnot]
    simp only [hsuf, false_and, if_false, List.length_nil, Nat.zero_add]
  | cons c u1 ih =>
    simp only [List.mem_cons, not_or] at hu
    by_cases hhere : k = c :: u1 ∧ [dq].isPrefixOf w = true
    · have hpre := (token_isPrefixOf_iff k (c :: u1) w hk
        (by simp only [List.mem_cons, not_or]; exact hu)).mpr hhere
      rw [strFind_of_isPrefixOf _ _ hpre]
      have hsuf : k <:+ c :: u1 := by rw [hhere.1]
      simp [hsuf, hhere.2, hhere.1]
    · have hnot : (k ++ ['=', dq]).isPrefixOf (c :: u1 ++ '=' :: w) = false := by
        by_contra hcon
        have hpre : (k ++ ['=', dq]).isPrefixOf (c :: u1 ++ '=' :: w) = true := by
          simpa using hcon
        exact hhere ((token_isPrefixOf_iff k (c :: u1) w hk
          (by simp only [List.mem_cons, not_or]; exact hu)).mp hpre)
      rw [List.cons_append] at hnot ⊢
      rw [strFind_cons_of_not_isPrefixOf _ _ _ hnot, ih hu.2]
      by_cases hdq : [dq].isPrefixOf w = true
      · have hkne1 : k ≠ c :: u1 := fun h => hhere ⟨h, hdq⟩
        by_cases hsuf : k <:+ u1
        · have hsuf1 : k <:+ c :: u1 := List.suffix_cons_iff.mpr (Or.inr hsuf)
          have hlen := hsuf.length_le
          simp only [hsuf, hsuf1, hdq, and_self, if_true, Option.map_some', List.length_cons]
          congr 1
          omega
        · have hsuf1 : ¬ (k <:+ c :: u1) := by
            intro h
            rcases List.suffix_cons_iff.mp h with h1 | h1
            · exact hkne1 h1
            · exact hsuf h1
          rw [if_neg (fun h => hsuf h.1), if_neg (fun h => hsuf1 h.1)]
          cases strFind w (k ++ ['=', dq]) with
          | none => rfl
          | some i => rfl
      · rw [if_neg (fun h => hdq h.2), if_neg (fun h => hdq h.2)]
        cases strFind w (k ++ ['=', dq]) with
        | none => rfl
        | some i => rfl

/-! ### `ExtractAttribute` on well-formed vehicle records -/

/-- `ExtractAttribute` does not depend on a stretch before the first occurrence of the
token. -/
theorem ExtractAttribute_shift (x w k : List Char)
    (h : strFind (x ++ w) (k ++ ['=', dq])
          = (strFind w (k ++ ['=', dq])).map (fun i => i + x.length)) :
    ExtractAttribute (x ++ w) k = ExtractAttribute w k := by
  unfold ExtractAttribute
  simp only [h]
  cases hfind : strFind w (k ++ ['=', dq]) with
  | none => rfl
  | some p =>
    have hdrop : (x ++ w).drop (p + x.length + (k ++ ['=', dq]).length)
        = w.drop (p + (k ++ ['=', dq]).length) := by
      rw [show p + x.length + (k ++ ['=', dq]).length
            = x.length + (p + (k ++ ['=', dq]).length) by omega]
      exact List.drop_append _
    have hlen : ((x ++ w).length < p + x.length + (k ++ ['=', dq]).length)
        ↔ (w.length < p + (k ++ ['=', dq]).length) := by
      simp only [List.length_append]
      omega
    simp only [Option.map_some', strFindFrom, hdrop]
    by_cases hshort : w.length < p + (k ++ ['=', dq]).length
    · rw [if_pos (hlen.mpr hshort), if_pos hshort]
    · rw [if_neg (fun hc => hshort (hlen.mp hc)), if_neg hshort]
      cases strFind (w.drop (p + (k ++ ['=', dq]).length)) [dq] with
      | none => rfl
      | some e =>
        simp only [Option.map_some', substr, hdrop, Nat.add_sub_cancel]

/-- A name without blank is a suffix of `u0 ++ ' ' :: key` exactly when it is a suffix of
`key`. -/
theorem suffix_after_blank (k u0 key : List Char) (hk : ' ' ∉ k) :
    k <:+ u0 ++ ' ' :: key ↔ k <:+ key := by
  constructor
  · intro h
    by_cases hlen : k.length ≤ key.length
    · exact List.suffix_of_suffix_length_le h
        ((List.suffix_cons ' ' key).trans (List.suffix_append u0 _)) hlen
    · have hsub : ' ' :: key <:+ k :=
        List.suffix_of_suffix_length_le (List.suffix_append _ _) h
          (by simp only [List.length_cons]; omega)
      exact absurd (hsub.subset (List.mem_cons_self _ _)) hk
  · intro h
    exact (h.trans (List.suffix_cons ' ' key)).trans (List.suffix_append u0 _)

/-- `ExtractAttribute` on the text of well-formed attributes, after any stretch without
equals sign: the value of the first attribute whose name ends with the key. -/
theorem ExtractAttribute_attributesText (k : List Char) (hk : PlainKey k)
    (attrs : List (List Char × List Char)) (hwf : WellFormedAttrs attrs)
    (u0 : List Char) (hu0 : '=' ∉ u0) :
    ExtractAttribute (u0 ++ attributesText attrs) k = valueOfFirstEndingWith k attrs := by
  obtain ⟨hkne, hkeq, hkblank⟩ := hk
  induction attrs generalizing u0 with
  | nil =>
    apply ExtractAttribute_of_none
    apply strFind_token_none
    simp only [attributesText, List.mem_append, not_or]
    exact ⟨hu0, by decide⟩
  | cons a rest ih =>
    have hwa := hwf a (List.mem_cons_self a rest)
    have hwrest : WellFormedAttrs rest := fun b hb => hwf b (List.mem_cons_of_mem a hb)
    have hu : '=' ∉ u0 ++ ' ' :: a.1 := by
      simp only [List.mem_append, List.mem_cons, not_or]
      exact ⟨hu0, by decide, hwa.1⟩
    have hshape : u0 ++ attributesText (a :: rest)
        = (u0 ++ ' ' :: a.1) ++ '=' :: (dq :: (a.2 ++ dq :: attributesText rest)) := by
      simp [attributesText]
    have hfind := strFind_token_skip k (u0 ++ ' ' :: a.1)
      (dq :: (a.2 ++ dq :: attributesText rest)) hkeq hkne hu
    have hdq : [dq].isPrefixOf (dq :: (a.2 ++ dq :: attributesText rest)) = true := by
      simp [List.isPrefixOf]
    by_cases hsuf : k <:+ a.1
    · have hsufu : k <:+ u0 ++ ' ' :: a.1 := (suffix_after_blank k u0 a.1 hkblank).mpr hsuf
      rw [if_pos ⟨hsufu, hdq⟩] at hfind
      have hsplit := List.suffix_iff_eq_append.mp hsufu
      have hvalue : valueOfFirstEndingWith k (a :: rest) = a.2 := by
        simp [valueOfFirstEndingWith, List.find?_cons, hsuf]
      rw [hvalue]
      apply ExtractAttribute_of_first (u0 ++ attributesText (a :: rest)) k
        ((u0 ++ ' ' :: a.1).take ((u0 ++ ' ' :: a.1).length - k.length)) a.2
        (attributesText rest)
      · rw [hshape]
        conv => lhs; rw [← hsplit]
        simp
      · rw [hshape, hfind, List.length_take]
        congr 1
        omega
      · exact hwa.2.2.2.1
    · have hsufu : ¬ (k <:+ u0 ++ ' ' :: a.1) :=
        fun h => hsuf ((suffix_after_blank k u0 a.1 hkblank).mp h)
      rw [if_neg (fun h => hsufu h.1)] at hfind
      have hvalue : valueOfFirstEndingWith k (a :: rest) = valueOfFirstEndingWith k rest := by
        simp [valueOfFirstEndingWith, List.find?_cons, hsuf]
      rw [hvalue]
      have hshape2 : u0 ++ attributesText (a :: rest)
          = (u0 ++ ' ' :: a.1 ++ ['=']) ++ (dq :: (a.2 ++ dq :: attributesText rest)) := by
        simp [attributesText]
      rw [hshape2, ExtractAttribute_shift]
      · have hw : dq :: (a.2 ++ dq :: attributesText rest)
            = (dq :: a.2 ++ [dq]) ++ attributesText rest := by simp
        rw [hw]
        apply ih hwrest
        simp only [List.cons_append, List.mem_cons, List.mem_append, List.mem_singleton,
          not_or]
        exact ⟨by decide, hwa.2.2.1, by decide⟩
      · rw [← hshape2, hshape, hfind]
        simp only [List.length_append, List.length_cons, List.length_nil]

/-- The opening angle bracket does not occur in the text of well-formed attributes. -/
theorem lt_not_mem_attributesText (attrs : List (List Char × List Char))
    (hwf : WellFormedAttrs attrs) : '<' ∉ attributesText attrs := by
  induction attrs with
  | nil => decide
  | cons a rest ih =>
    have hwa := hwf a (List.mem_cons_self a rest)
    have hrest := ih (fun b hb => hwf b (List.mem_cons_of_mem a hb))
    have hdq : ¬ '<' = dq := by decide
    simp [attributesText, hwa.2.1, hwa.2.2.2.2, hrest, hdq]

/-- A well-formed vehicle record is not taken as a timestep record, and is taken as a
vehicle record. -/
theorem vehicleRecord_kind (attrs : List (List Char × List Char))
    (hwf : WellFormedAttrs attrs) :
    (strFind (vehicleRecord attrs) "<timestep".toList).isSome = false
    ∧ (strFind (vehicleRecord attrs) "<vehicle".toList).isSome = true := by
  constructor
  · have hshape : vehicleRecord attrs = '<' :: ("vehicle".toList ++ attributesText attrs) := rfl
    have hnot : '<' ∉ "vehicle".toList ++ attributesText attrs := by
      simp only [List.mem_append, not_or]
      exact ⟨by decide, lt_not_mem_attributesText attrs hwf⟩
    rw [hshape, strFind_cons_of_not_isPrefixOf _ _ _ (by simp [List.isPrefixOf]),
      show "<timestep".toList = '<' :: "timestep".toList from rfl,
      strFind_of_head_not_mem _ _ _ hnot]
    rfl
  · rw [strFind_of_isPrefixOf _ _ (by simp [vehicleRecord, List.isPrefixOf])]
    rfl

/-- `ExtractAttribute` on a well-formed vehicle record. -/
theorem ExtractAttribute_record (k : List Char) (hk : PlainKey k)
    (attrs : List (List Char × List Char)) (hwf : WellFormedAttrs attrs) :
    ExtractAttribute (vehicleRecord attrs) k = valueOfFirstEndingWith k attrs :=
  ExtractAttribute_attributesText k hk attrs hwf "<vehicle".toList (by decide)

/-- The first attribute whose name ends with `k` is the attribute named `k`, when the
names are distinct and no other name ends with `k`. -/
theorem valueOfFirstEndingWith_exact (k v : List Char) (attrs : List (List Char × List Char))
    (honly : ∀ a ∈ attrs, k <:+ a.1 → a.1 = k) (hmem : (k, v) ∈ attrs)
    (hnodup : (attrs.map Prod.fst).Nodup) : valueOfFirstEndingWith k attrs = v := by
  unfold valueOfFirstEndingWith
  cases hfind : attrs.find? (fun a => decide (k <:+ a.1)) with
  | none =>
    have h := List.find?_eq_none.mp hfind (k, v) hmem
    simp at h
  | some a =>
    have hp := List.find?_some hfind
    have ha := List.mem_of_find?_eq_some hfind
    have hname : a.1 = k := honly a ha (by simpa using hp)
    have heq : a = (k, v) := List.inj_on_of_nodup_map hnodup ha hmem hname
    rw [heq]

/-- No attribute name ends with `k`: the value is empty. -/
theorem valueOfFirstEndingWith_none (k : List Char) (attrs : List (List Char × List Char))
    (hnone : ∀ a ∈ attrs, ¬ k <:+ a.1) : valueOfFirstEndingWith k attrs = [] := by
  unfold valueOfFirstEndingWith
  have hfind : attrs.find? (fun a => decide (k <:+ a.1)) = none := by
    rw [List.find?_eq_none]
    intro a ha
    simpa using hnone a ha
  rw [hfind]

/-- C12, `ExtractAttribute` on the failing input: the record `<vehicle id=A max=1 y=2/>`
(values quoted) is made of well-formed pairs with distinct names, none of which is `x`,
and `ExtractAttribute` returns `1` for the key `x`, not the empty string: the token
searched for, `x` followed by the equals sign and a quote, occurs inside the attribute
`max`. -/
theorem ExtractAttribute_matches_name_ending :
    WellFormedAttrs maxAttrs
    ∧ (maxAttrs.map Prod.fst).Nodup
    ∧ (∀ a ∈ maxAttrs, a.1 ≠ "x".toList)
    ∧ maxRecord = vehicleRecord maxAttrs
    ∧ ExtractAttribute maxRecord "x".toList = "1".toList := by
  refine ⟨?_, ?_, ?_, rfl, ?_⟩
  · unfold WellFormedAttrs
    decide
  · decide
  · decide
  · decide!

/-- What `ExtractAttribute` returns: on a vehicle record made of well-formed pairs (no
equals sign or opening angle bracket in a name or a value, no quote in a value), in any
order and with any other attributes present, `ExtractAttribute` with a plain key `k` (not empty,
no equals sign, no blank) returns the value of the first attribute whose name ENDS
with `k`, and the empty string when no name ends with `k`. Hence, when the names are
distinct and no other name ends with `k`, it returns the value of the attribute named
exactly `k`; and when no name ends with `k` it returns the empty string. The keys
`id`, `x`, `y`, `speed` and `type` are plain. -/
theorem ExtractAttribute_wellFormed (k : List Char) (attrs : List (List Char × List Char))
    (hk : PlainKey k) (hwf : WellFormedAttrs attrs) :
    ExtractAttribute (vehicleRecord attrs) k = valueOfFirstEndingWith k attrs
    ∧ ((∀ a ∈ attrs, k <:+ a.1 → a.1 = k) → (attrs.map Prod.fst).Nodup →
        ∀ v, (k, v) ∈ attrs → ExtractAttribute (vehicleRecord attrs) k = v)
    ∧ ((∀ a ∈ attrs, ¬ k <:+ a.1) → ExtractAttribute (vehicleRecord attrs) k = [])
    ∧ PlainKey "id".toList ∧ PlainKey "x".toList ∧ PlainKey "y".toList
    ∧ PlainKey "speed".toList ∧ PlainKey "type".toList := by
  have hmain := ExtractAttribute_record k hk attrs hwf
  refine ⟨hmain, ?_, ?_, ?_, ?_, ?_, ?_, ?_⟩
  · intro honly hnodup v hmem
    rw [hmain]
    exact valueOfFirstEndingWith_exact k v attrs honly hmem hnodup
  · intro hnone
    rw [hmain]
    exact valueOfFirstEndingWith_none k attrs hnone
  all_goals exact ⟨by decide, by decide, by decide⟩

/-- An extraction: in the record with the attributes `y`, `lane`, `x`, `id` (in this
order) the key `x` yields the value of the attribute `x`. -/
theorem ExtractAttribute_wellFormed_witness :
    PlainKey "x".toList ∧ WellFormedAttrs sampleAttrs
    ∧ ExtractAttribute (vehicleRecord sampleAttrs) "x".toList = "1".toList :=
  have hk : PlainKey "x".toList := ⟨by decide, by decide, by decide⟩
  have hwf : WellFormedAttrs sampleAttrs := by
    unfold WellFormedAttrs
    decide
  ⟨hk, hwf, (ExtractAttribute_wellFormed "x".toList sampleAttrs hk hwf).2.1
    (by decide) (by decide) "1".toList (by decide)⟩

/-! ### Records that the loader skips -/

/-- The loop body leaves the state unchanged on a line that is not taken as a timestep
record and for which `ExtractAttribute` is empty for `id`, `x` or `y`. -/
theorem loadLine_skips (lib : Lib) (st : ℚ × Globals) (line : List Char)
    (hts : (strFind line "<timestep".toList).isSome = false)
    (hmiss : ExtractAttribute line "id".toList = [] ∨ ExtractAttribute line "x".toList = []
      ∨ ExtractAttribute line "y".toList = []) :
    loadLine lib st line = .ok st := by
  unfold loadLine
  rw [if_neg (by rw [hts]; exact Bool.false_ne_true)]
  by_cases hv : (strFind line "<vehicle".toList).isSome = true
  · rw [if_pos hv]
    simp only [if_pos hmiss]
  · rw [if_neg hv]

/-- A line on which the loop body is the identity can be removed from the file. -/
theorem loadLines_remove (lib : Lib) (line : List Char)
    (hskip : ∀ st, loadLine lib st line = .ok st) (pre post : List (List Char))
    (st : ℚ × Globals) :
    loadLines lib (pre ++ line :: post) st = loadLines lib (pre ++ post) st := by
  induction pre generalizing st with
  | nil => simp only [List.nil_append, loadLines, hskip]
  | cons l rest ih =>
    simp only [List.cons_append, loadLines]
    cases loadLine lib st l with
    | error e => rfl
    | ok st1 => exact ih st1

/-- C11, the loader on the failing input: the record `<vehicle id=A max=1 y=2/>` (values
quoted) has no attribute named `x`, and the loader does not skip it: the trace made of
this line alone loads with success, with vehicle A at (1, 2) in frame 0 and a vehicle
count of 1, where the trace with the line removed, the empty trace, gives failure and no
frame. -/
theorem record_without_x_is_stored :
    (∀ a ∈ maxAttrs, a.1 ≠ "x".toList)
    ∧ maxRecord = vehicleRecord maxAttrs
    ∧ LoadSumoTrajectory sampleLib (some [maxRecord]) unitTickState
      = .ok (true, { unitTickState with
          sumoTrajectory := [[(0, { position := ⟨1, 2, 0⟩, speed := 0,
                                    vehicleType := "passenger".toList })]],
          sumoIdToNodeIndex := [("A".toList, 0)],
          sumoVehicleCount := 1 })
    ∧ LoadSumoTrajectory sampleLib (some []) unitTickState = .ok (false, unitTickState) := by
  have hkind : (strFind maxRecord "<timestep".toList).isSome = false
      ∧ (strFind maxRecord "<vehicle".toList).isSome = true := by decide!
  have hattr : ExtractAttribute maxRecord "id".toList = "A".toList
      ∧ ExtractAttribute maxRecord "x".toList = "1".toList
      ∧ ExtractAttribute maxRecord "y".toList = "2".toList
      ∧ ExtractAttribute maxRecord "speed".toList = []
      ∧ ExtractAttribute maxRecord "type".toList = [] := by decide!
  have h1 : sampleLib.stod "1".toList = some 1 := by decide!
  have h2 : sampleLib.stod "2".toList = some 2 := by decide!
  obtain ⟨hid, hx, hy, hs, hty⟩ := hattr
  have hline : loadLine sampleLib (0, unitTickState) maxRecord
      = .ok (0, { unitTickState with
          sumoTrajectory := [[(0, { position := ⟨1, 2, 0⟩, speed := 0,
                                    vehicleType := "passenger".toList })]],
          sumoIdToNodeIndex := [("A".toList, 0)] }) := by
    simp only [loadLine, hkind, hid, hx, hy, hs, hty, h1, h2]
    simp [storeVehicle, registerId, unitTickState, Globals.initial, roundHalfAway_zero,
      toUInt32_zero, resizeFrames, U32, mapFind, mapAssign, frameAssign]
  have hstart : ({ unitTickState with sumoTrajectory := [], sumoIdToNodeIndex := [],
                                       sumoVehicleCount := 0 } : Globals)
      = unitTickState := rfl
  refine ⟨by decide, rfl, ?_, ?_⟩
  · simp only [LoadSumoTrajectory, loadLines, hstart, hline]
    simp [U32, unitTickState, Globals.initial]
  · simp only [LoadSumoTrajectory, loadLines, hstart]
    simp [U32, unitTickState, Globals.initial]

/-- Records that the loader does skip: a vehicle record made of well-formed pairs in
which no attribute name ends with `id`, or none ends with `x`, or none ends with `y`, or
in which the first attribute whose name ends so has an empty value, is skipped: the
loop body returns without error and leaves the current time and every global variable
unchanged, and loading a trace that holds this line gives the same result (the same error, or the
same returned flag, trajectory, registry, vehicle count and maximum time) as loading
the trace with the line removed. -/
theorem skipped_record_is_removable (lib : Lib) (g : Globals)
    (pre post : List (List Char)) (attrs : List (List Char × List Char))
    (hwf : WellFormedAttrs attrs)
    (hmiss : valueOfFirstEndingWith "id".toList attrs = []
      ∨ valueOfFirstEndingWith "x".toList attrs = []
      ∨ valueOfFirstEndingWith "y".toList attrs = []) :
    (∀ st, loadLine lib st (vehicleRecord attrs) = .ok st)
    ∧ LoadSumoTrajectory lib (some (pre ++ vehicleRecord attrs :: post)) g
      = LoadSumoTrajectory lib (some (pre ++ post)) g := by
  have hid := ExtractAttribute_record "id".toList ⟨by decide, by decide, by decide⟩ attrs hwf
  have hx := ExtractAttribute_record "x".toList ⟨by decide, by decide, by decide⟩ attrs hwf
  have hy := ExtractAttribute_record "y".toList ⟨by decide, by decide, by decide⟩ attrs hwf
  have hskip : ∀ st, loadLine lib st (vehicleRecord attrs) = .ok st := by
    intro st
    apply loadLine_skips lib st _ (vehicleRecord_kind attrs hwf).1
    rw [hid, hx, hy]
    exact hmiss
  refine ⟨hskip, ?_⟩
  simp only [LoadSumoTrajectory]
  rw [loadLines_remove lib _ hskip]

/-- A skipped record: the record with the attributes `id` and `y` only, between the
timestep record and the first vehicle record of the example trace. -/
theorem skipped_record_is_removable_witness :
    WellFormedAttrs noXAttrs
    ∧ valueOfFirstEndingWith "x".toList noXAttrs = []
    ∧ LoadSumoTrajectory sampleLib
        (some ([timestepLine] ++ vehicleRecord noXAttrs :: [vehicleLineA])) unitTickState
      = LoadSumoTrajectory sampleLib (some ([timestepLine] ++ [vehicleLineA])) unitTickState :=
  have hwf : WellFormedAttrs noXAttrs := by
    unfold WellFormedAttrs
    decide
  ⟨hwf, by decide, (skipped_record_is_removable sampleLib unitTickState [timestepLine]
    [vehicleLineA] noXAttrs hwf (Or.inr (Or.inl (by decide)))).2⟩

/-! ### The step scheduler -/

/-- A bridge operation of the training program never writes the step budget. -/
theorem training_runOp_maxSteps (op : BridgeOp) (g : Globals) :
    (Training.runOp op g).maxSteps = g.maxSteps := by
  cases op <;> simp [Training.runOp, training_MyExecuteActions_maxSteps]

/-- A sequence of bridge operations of the training program never writes the step
budget. -/
theorem training_runOps_maxSteps (ops : List BridgeOp) (g : Globals) :
    (ops.foldl (fun s op => Training.runOp op s) g).maxSteps = g.maxSteps := by
  induction ops generalizing g with
  | nil => rfl
  | cons op rest ih => rw [List.foldl_cons, ih, training_runOp_maxSteps]

/-- The training `ApplySumoMobility` never writes the step budget. -/
theorem training_ApplySumoMobility_maxSteps (lib : Lib) (t : Nat) (g : Globals) :
    (Training.ApplySumoMobility lib t g).maxSteps = g.maxSteps := by
  unfold Training.ApplySumoMobility
  split
  · rw [UpdateVehicleMetrics_frame]
  · rw [replayFrame_frame]

/-- C21, counterexample: in the training program, in a state where only the
simulation-time limit has been reached (no step budget, limit 120 s, clock 120 s), one
firing of the scheduler ends with `gameOver` true and the next firing scheduled; in the
simple program at tick 1000 one firing ends with `gameOver` true and the next firing
scheduled. -/
theorem scheduler_rearms_when_gameOver :
    (Training.ScheduleNextStateRead sampleLib stepOps timeLimitState).1 = true
    ∧ Training.MyGetGameOver
        (Training.ScheduleNextStateRead sampleLib stepOps timeLimitState).2 = true
    ∧ (Simple.ScheduleNextStateRead sampleLib stepOps terminalState).1 = true
    ∧ Simple.MyGetGameOver
        (Simple.ScheduleNextStateRead sampleLib stepOps terminalState).2 = true := by
  decide!

/-- C21, amended: after one firing of the step scheduler of the training program
(refresh, notification with whatever callbacks the bridge runs) the next firing is
scheduled if and only if the step budget is not exhausted at that point (`maxSteps` is
0 or the tick is below it); the step budget itself is never written. So when
`gameOver` is false the next firing is scheduled, and when none is scheduled
`gameOver` is true; the simulation-time limit plays no part. In the simple program the
next firing is scheduled on every firing. -/
theorem scheduler_rearm_condition (lib : Lib) (ops : List BridgeOp) (g : Globals) :
    ((Training.ScheduleNextStateRead lib ops g).1 = true
      ↔ ¬ (0 < g.maxSteps
            ∧ g.maxSteps ≤ (Training.ScheduleNextStateRead lib ops g).2.currentStep))
    ∧ (Training.ScheduleNextStateRead lib ops g).2.maxSteps = g.maxSteps
    ∧ (Training.MyGetGameOver (Training.ScheduleNextStateRead lib ops g).2 = false
        → (Training.ScheduleNextStateRead lib ops g).1 = true)
    ∧ ((Training.ScheduleNextStateRead lib ops g).1 = false
        → Training.MyGetGameOver (Training.ScheduleNextStateRead lib ops g).2 = true)
    ∧ (Simple.ScheduleNextStateRead lib ops g).1 = true := by
  have hm : (ops.foldl (fun s op => Training.runOp op s)
      (if g.useSumoMobility then Training.ApplySumoMobility lib g.currentStep g
       else UpdateVehicleMetrics lib g)).maxSteps = g.maxSteps := by
    rw [training_runOps_maxSteps]
    split
    · exact training_ApplySumoMobility_maxSteps lib _ g
    · rw [UpdateVehicleMetrics_frame]
  have hshape : Training.ScheduleNextStateRead lib ops g
      = (if 0 < (ops.foldl (fun s op => Training.runOp op s)
            (if g.useSumoMobility then Training.ApplySumoMobility lib g.currentStep g
             else UpdateVehicleMetrics lib g)).maxSteps
          ∧ (ops.foldl (fun s op => Training.runOp op s)
            (if g.useSumoMobility then Training.ApplySumoMobility lib g.currentStep g
             else UpdateVehicleMetrics lib g)).maxSteps
            ≤ (ops.foldl (fun s op => Training.runOp op s)
            (if g.useSumoMobility then Training.ApplySumoMobility lib g.currentStep g
             else UpdateVehicleMetrics lib g)).currentStep
         then (false, ops.foldl (fun s op => Training.runOp op s)
            (if g.useSumoMobility then Training.ApplySumoMobility lib g.currentStep g
             else UpdateVehicleMetrics lib g))
         else (true, ops.foldl (fun s op => Training.runOp op s)
            (if g.useSumoMobility then Training.ApplySumoMobility lib g.currentStep g
             else UpdateVehicleMetrics lib g))) := rfl
  rw [hshape]
  generalize ops.foldl (fun s op => Training.runOp op s)
      (if g.useSumoMobility then Training.ApplySumoMobility lib g.currentStep g
       else UpdateVehicleMetrics lib g) = g2 at hm
  refine ⟨?_, ?_, ?_, ?_, rfl⟩
  · by_cases hc : 0 < g2.maxSteps ∧ g2.maxSteps ≤ g2.currentStep
    · rw [if_pos hc, ← hm]
      simp [hc]
    · rw [if_neg hc, ← hm]
      simp [hc]
  · split <;> exact hm
  · by_cases hc : 0 < g2.maxSteps ∧ g2.maxSteps ≤ g2.currentStep
    · rw [if_pos hc]
      simp [Training.MyGetGameOver, hc]
    · rw [if_neg hc]
      simp
  · by_cases hc : 0 < g2.maxSteps ∧ g2.maxSteps ≤ g2.currentStep
    · rw [if_pos hc]
      simp [Training.MyGetGameOver, hc]
    · rw [if_neg hc]
      simp

/-! ### Startup of the training program -/

/-- What a successful iteration of the loop did, with the state that was stored and
the time in force afterwards. -/
theorem loadLine_ok_record (lib : Lib) (t t1 : ℚ) (g g1 : Globals) (line : List Char)
    (h : loadLine lib (t, g) line = .ok (t1, g1)) :
    (acceptedId line = none ∧ g1 = g ∧ t1 = timeAfter lib t line)
    ∨ (∃ s, acceptedId line = some s ∧ t1 = t
        ∧ storeVehicle g t s (recordState lib line) = .ok g1) := by
  unfold loadLine at h
  simp only at h
  split at h
  · rename_i hts
    left
    refine ⟨by unfold acceptedId; rw [if_pos hts], ?_⟩
    unfold timeAfter
    rw [if_pos hts]
    split at h
    · rename_i hne
      rw [if_pos hne]
      split at h
      · exact absurd h (by simp)
      · rename_i tv htv
        simp only [Except.ok.injEq, Prod.mk.injEq] at h
        rw [htv]
        exact ⟨h.2.symm, h.1.symm⟩
    · rename_i hne
      rw [if_neg hne]
      simp only [Except.ok.injEq, Prod.mk.injEq] at h
      exact ⟨h.2.symm, h.1.symm⟩
  · rename_i hts
    have htime : timeAfter lib t line = t := by
      unfold timeAfter
      rw [if_neg hts]
    split at h
    · rename_i hv
      split at h
      · rename_i hskip
        left
        simp only [Except.ok.injEq, Prod.mk.injEq] at h
        exact ⟨by unfold acceptedId; rw [if_neg hts, if_pos hv, if_pos hskip], h.2.symm,
          by rw [htime]; exact h.1.symm⟩
      · rename_i hskip
        right
        split at h
        · exact absurd h (by simp)
        · rename_i x hx
          split at h
          · exact absurd h (by simp)
          · rename_i y hy
            split at h
            · exact absurd h (by simp)
            · rename_i speed hspeed
              split at h
              · exact absurd h (by simp)
              · rename_i g2 hstore
                simp only [Except.ok.injEq, Prod.mk.injEq] at h
                rw [← h.2]
                refine ⟨_, by unfold acceptedId; rw [if_neg hts, if_pos hv, if_neg hskip],
                  h.1.symm, ?_⟩
                have hstate : recordState lib line
                    = { position := ⟨x, y, 0⟩, speed := speed,
                        vehicleType := if ExtractAttribute line "type".toList = []
                          then "passenger".toList else ExtractAttribute line "type".toList } := by
                  unfold recordState
                  rw [hx, hy]
                  by_cases hs : ExtractAttribute line "speed".toList = []
                  · rw [if_pos hs] at hspeed ⊢
                    simp only [Option.some.injEq] at hspeed
                    rw [← hspeed]
                    rfl
                  · rw [if_neg hs] at hspeed ⊢
                    rw [hspeed]
                    rfl
                rw [hstate]
                exact hstore
    · rename_i hv
      left
      simp only [Except.ok.injEq, Prod.mk.injEq] at h
      exact ⟨by unfold acceptedId; rw [if_neg hts, if_neg hv], h.2.symm,
        by rw [htime]; exact h.1.symm⟩

/-- A successful run of the loop is the run of the stores of the accepted records. -/
theorem loadLines_records (lib : Lib) (lines : List (List Char)) (st fin : ℚ × Globals)
    (h : loadLines lib lines st = .ok fin) :
    storeAll st.2 (records lib st.1 lines) = .ok fin.2 := by
  induction lines generalizing st with
  | nil =>
    simp only [loadLines, Except.ok.injEq] at h
    rw [← h]
    rfl
  | cons line rest ih =>
    obtain ⟨st1, h1, h2⟩ := loadLines_cons_ok lib line rest st fin h
    have hrest := ih st1 h2
    rcases loadLine_ok_record lib st.1 st1.1 st.2 st1.2 line h1 with
      ⟨hnone, hg, ht⟩ | ⟨s, hsome, ht, hstore⟩
    · simp only [records, hnone]
      rw [← hg, ← ht]
      exact hrest
    · simp only [records, hsome, storeAll, hstore]
      rw [← ht]
      exact hrest

/-- The identifiers of the accepted records. -/
theorem records_ids (lib : Lib) (lines : List (List Char)) (t : ℚ) :
    (records lib t lines).map (fun r => r.id) = acceptedIds lines := by
  induction lines generalizing t with
  | nil => rfl
  | cons line rest ih =>
    cases hacc : acceptedId line with
    | none =>
      simp only [records, hacc, acceptedIds, List.filterMap_cons]
      exact ih _
    | some s =>
      simp only [records, hacc, acceptedIds, List.filterMap_cons, List.map_cons]
      rw [ih t]
      rfl

/-- The conversion to `uint32_t` succeeds exactly on the values in range, and then
gives the value. -/
theorem toUInt32_eq_some (v : Int) (n : Nat) (h : toUInt32 v = some n) :
    n = v.toNat ∧ 0 ≤ v ∧ n < U32 := by
  unfold toUInt32 at h
  split at h
  · rename_i hr
    simp only [Option.some.injEq] at h
    refine ⟨h.symm, hr.1, ?_⟩
    rw [← h]
    have := hr.2
    omega
  · exact absurd h (by simp)

/-- A successful `storeVehicle`, on a frame sequence shorter than `2 ^ 32`: the tick is
`round (time / tickDuration)`, it is below `2 ^ 32 - 1`, the tick duration is stored,
and the entry is placed in the frame of the tick under the index of the identifier. -/
theorem storeVehicle_place (g g1 : Globals) (t : ℚ) (s : List Char) (state : SumoVehicleState)
    (h : storeVehicle g t s state = .ok g1) (hlen : g.sumoTrajectory.length < U32) :
    toUInt32 (roundHalfAway (roundDouble (t / tickDuration g))) = some (specTick (tickDuration g) t)
    ∧ 0 ≤ roundHalfAway (roundDouble (t / tickDuration g))
    ∧ specTick (tickDuration g) t + 1 < U32
    ∧ g1 = { g with
        envStepTime := tickDuration g,
        sumoTrajectory := placeEntry g.sumoTrajectory (specTick (tickDuration g) t)
          (registerId g.sumoIdToNodeIndex s).1 state,
        sumoIdToNodeIndex := (registerId g.sumoIdToNodeIndex s).2 } := by
  obtain ⟨tick, frame, htick, hframe, hg⟩ := storeVehicle_ok g g1 t s state h
  have hd : (if g.envStepTime ≤ 0 then roundDouble (1 / 10) else g.envStepTime)
      = tickDuration g := rfl
  rw [hd] at htick hg
  obtain ⟨htk, hnonneg, hlt⟩ := toUInt32_eq_some _ _ htick
  have hspec : specTick (tickDuration g) t = tick := by
    unfold specTick
    exact htk.symm
  rw [hspec]
  by_cases hle : g.sumoTrajectory.length ≤ tick
  · rw [if_pos hle] at hframe hg
    have hsucc : tick + 1 < U32 := by
      by_contra hcon
      have heq : tick + 1 = U32 := by omega
      rw [heq, Nat.mod_self] at hframe
      rw [List.getElem?_eq_none (by rw [resizeFrames_length]; omega)] at hframe
      exact absurd hframe (by simp)
    rw [Nat.mod_eq_of_lt hsucc] at hframe hg
    have hres : resizeFrames g.sumoTrajectory (tick + 1)
        = g.sumoTrajectory ++ List.replicate (tick + 1 - g.sumoTrajectory.length) [] := by
      unfold resizeFrames
      rw [List.take_of_length_le (by omega)]
    rw [hres] at hframe hg
    have hfr : frame = [] := by
      rw [List.getElem?_append_right hle] at hframe
      rw [List.getElem?_replicate] at hframe
      split at hframe
      · simp only [Option.some.injEq] at hframe
        exact hframe.symm
      · exact absurd hframe (by simp)
    have hgetD : g.sumoTrajectory.getD tick [] = [] := by
      rw [List.getD_eq_default]
      exact hle
    refine ⟨htick, hnonneg, hsucc, ?_⟩
    rw [hg, hfr]
    unfold placeEntry
    rw [hgetD]
  · rw [if_neg hle] at hframe hg
    have hgetD : g.sumoTrajectory.getD tick [] = frame := by
      rw [List.getD_eq_getElem?_getD, hframe]
      rfl
    have hzero : tick + 1 - g.sumoTrajectory.length = 0 := by omega
    refine ⟨htick, hnonneg, by omega, ?_⟩
    rw [hg]
    unfold placeEntry
    rw [hgetD, hzero]
    simp

/-! ### The frame sequence along the stores -/

/-- The tick duration that the loader uses is positive. -/
theorem tickDuration_pos (g : Globals) : 0 < tickDuration g := by
  unfold tickDuration
  split
  · exact roundDouble_tenth_pos
  · rename_i h
    exact lt_of_not_le h

/-- Length of the frame sequence after an entry was placed. -/
theorem placeEntry_length (traj : List Frame) (tick k : Nat) (state : SumoVehicleState) :
    (placeEntry traj tick k state).length = max traj.length (tick + 1) := by
  unfold placeEntry
  simp only [List.length_set, List.length_append, List.length_replicate]
  omega

/-- The frames after an entry was placed: the frame of the tick got the entry, every
other frame is as before. -/
theorem placeEntry_getD (traj : List Frame) (tick k : Nat) (state : SumoVehicleState)
    (i : Nat) :
    (placeEntry traj tick k state).getD i []
      = if i = tick then frameAssign (traj.getD tick []) k state else traj.getD i [] := by
  unfold placeEntry
  by_cases hi : i = tick
  · subst hi
    rw [if_pos rfl, List.getD_eq_getElem?_getD, List.getElem?_set_self]
    · rfl
    · simp only [List.length_append, List.length_replicate]
      omega
  · rw [if_neg hi, List.getD_eq_getElem?_getD, List.getElem?_set_ne (Ne.symm hi),
      List.getD_eq_getElem?_getD]
    by_cases hlt : i < traj.length
    · rw [List.getElem?_append_left hlt]
    · rw [List.getElem?_append_right (by omega), List.getElem?_replicate,
        List.getElem?_eq_none (by omega)]
      split <;> rfl

/-- A successful run of the stores, on a frame sequence shorter than `2 ^ 32`: frames
and registry are those of the run of `specStore` with the tick duration of the start,
every tick is `round (time / tickDuration)` with a rounded value that is not negative
and below `2 ^ 32 - 1`, and the frame sequence stays shorter than `2 ^ 32`. -/
theorem storeAll_eq (recs : List Record) (g g1 : Globals)
    (h : storeAll g recs = .ok g1) (hlen : g.sumoTrajectory.length < U32) :
    (g1.sumoTrajectory, g1.sumoIdToNodeIndex)
      = recs.foldl (specStore (tickDuration g)) (g.sumoTrajectory, g.sumoIdToNodeIndex)
    ∧ (∀ r ∈ recs, 0 ≤ roundHalfAway (roundDouble (r.time / tickDuration g))
        ∧ specTick (tickDuration g) r.time + 1 < U32)
    ∧ g1.envStepTime = (if recs = [] then g.envStepTime else tickDuration g)
    ∧ tickDuration g1 = tickDuration g
    ∧ g1.sumoTrajectory.length < U32 := by
  induction recs generalizing g with
  | nil =>
    simp only [storeAll, Except.ok.injEq] at h
    subst h
    exact ⟨rfl, fun r hr => absurd hr (List.not_mem_nil r), rfl, rfl, hlen⟩
  | cons r rest ih =>
    simp only [storeAll] at h
    split at h
    · exact absurd h (by simp)
    · rename_i g2 hstore
      obtain ⟨_, hnonneg, hrange, hg2⟩ := storeVehicle_place g g2 r.time r.id r.state hstore hlen
      have hd2 : tickDuration g2 = tickDuration g := by
        have hpos := tickDuration_pos g
        have henv : g2.envStepTime = tickDuration g := by rw [hg2]
        unfold tickDuration at hpos ⊢
        rw [henv]
        unfold tickDuration
        rw [if_neg (not_le.mpr hpos)]
      have hlen2 : g2.sumoTrajectory.length < U32 := by
        rw [hg2]
        simp only [placeEntry_length]
        omega
      obtain ⟨hfold, hticks, henv, hd, hl⟩ := ih g2 h hlen2
      rw [hd2] at hfold hticks henv hd
      refine ⟨?_, ?_, ?_, hd, hl⟩
      · rw [hfold, List.foldl_cons]
        congr 1
        rw [hg2]
        rfl
      · intro r1 hr1
        rcases List.mem_cons.mp hr1 with heq | hmem
        · rw [heq]
          exact ⟨hnonneg, hrange⟩
        · exact hticks r1 hmem
      · rw [henv, if_neg (List.cons_ne_nil r rest)]
        split
        · rw [hg2]
        · rfl

/-- The registry along the stores: an index once given is kept. -/
theorem foldl_specStore_stable (d : ℚ) (recs : List Record)
    (acc : List Frame × List (List Char × Nat)) (s : List Char) (k : Nat)
    (h : mapFind acc.2 s = some k) : mapFind (recs.foldl (specStore d) acc).2 s = some k := by
  induction recs generalizing acc with
  | nil => exact h
  | cons r rest ih =>
    rw [List.foldl_cons]
    apply ih
    exact registerId_stable acc.2 s r.id k h

/-- The registry along the stores: the identifier of every stored record has an
index. -/
theorem foldl_specStore_registered (d : ℚ) (recs : List Record)
    (acc : List Frame × List (List Char × Nat)) (r : Record) (hr : r ∈ recs) :
    ∃ k, mapFind (recs.foldl (specStore d) acc).2 r.id = some k := by
  induction recs generalizing acc with
  | nil => exact absurd hr (List.not_mem_nil r)
  | cons r0 rest ih =>
    rw [List.foldl_cons]
    rcases List.mem_cons.mp hr with heq | hmem
    · refine ⟨(registerId acc.2 r0.id).1, ?_⟩
      apply foldl_specStore_stable
      rw [heq]
      exact registerId_index acc.2 r0.id
    · exact ih _ hmem

/-- The registry along the stores is the registry along the lookups of the
identifiers. -/
theorem foldl_specStore_registry (d : ℚ) (recs : List Record)
    (acc : List Frame × List (List Char × Nat)) :
    (recs.foldl (specStore d) acc).2
      = (recs.map (fun r => r.id)).foldl (fun reg s => (registerId reg s).2) acc.2 := by
  induction recs generalizing acc with
  | nil => rfl
  | cons r rest ih =>
    rw [List.foldl_cons, ih]
    rfl

/-- The length of the frame sequence along the stores: it never shrinks, it is above
every tick, and it is the length at the start or one more than some tick. -/
theorem foldl_specStore_length (d : ℚ) (recs : List Record)
    (acc : List Frame × List (List Char × Nat)) :
    acc.1.length ≤ (recs.foldl (specStore d) acc).1.length
    ∧ (∀ r ∈ recs, specTick d r.time < (recs.foldl (specStore d) acc).1.length)
    ∧ ((recs.foldl (specStore d) acc).1.length = acc.1.length
        ∨ ∃ r ∈ recs, specTick d r.time + 1 = (recs.foldl (specStore d) acc).1.length) := by
  induction recs generalizing acc with
  | nil =>
    exact ⟨le_refl _, fun r hr => absurd hr (List.not_mem_nil r), Or.inl rfl⟩
  | cons r rest ih =>
    rw [List.foldl_cons]
    obtain ⟨hle, hall, hor⟩ := ih (specStore d acc r)
    have hstep : (specStore d acc r).1.length = max acc.1.length (specTick d r.time + 1) := by
      simp only [specStore, placeEntry_length]
    refine ⟨by omega, ?_, ?_⟩
    · intro r1 hr1
      rcases List.mem_cons.mp hr1 with heq | hmem
      · rw [heq]
        omega
      · exact hall r1 hmem
    · rcases hor with heq | ⟨r1, hr1, htick⟩
      · by_cases hgrow : acc.1.length ≤ specTick d r.time
        · right
          exact ⟨r, List.mem_cons_self r rest, by omega⟩
        · left
          omega
      · right
        exact ⟨r1, List.mem_cons_of_mem r hr1, htick⟩

/-- Lookup in the frames after the stores: the entry of index `k` in the frame of tick
`i` holds the state of the last record stored at tick `i` whose identifier has index
`k`, and what the frame held at the start when there is no such record. -/
theorem foldl_specStore_lookup (d : ℚ) (recs : List Record)
    (acc : List Frame × List (List Char × Nat)) (i k : Nat) :
    mapFind ((recs.foldl (specStore d) acc).1.getD i []) k
      = match (recs.filter (fun r => decide (specTick d r.time = i
            ∧ mapFind (recs.foldl (specStore d) acc).2 r.id = some k))).getLast? with
        | some r => some r.state
        | none => mapFind (acc.1.getD i []) k := by
  induction recs using List.reverseRecOn with
  | nil => rfl
  | append_singleton init r ih =>
    have hfold : (init ++ [r]).foldl (specStore d) acc
        = specStore d (init.foldl (specStore d) acc) r := by
      rw [List.foldl_append]
      rfl
    rw [hfold]
    have hidx : mapFind (specStore d (init.foldl (specStore d) acc) r).2 r.id
        = some (registerId (init.foldl (specStore d) acc).2 r.id).1 :=
      registerId_index _ _
    have hinit : init.filter (fun r1 => decide (specTick d r1.time = i
          ∧ mapFind (specStore d (init.foldl (specStore d) acc) r).2 r1.id = some k))
        = init.filter (fun r1 => decide (specTick d r1.time = i
          ∧ mapFind (init.foldl (specStore d) acc).2 r1.id = some k)) := by
      apply List.filter_congr
      intro r1 hr1
      obtain ⟨k1, hk1⟩ := foldl_specStore_registered d init acc r1 hr1
      have hk2 : mapFind (specStore d (init.foldl (specStore d) acc) r).2 r1.id = some k1 :=
        registerId_stable _ _ _ _ hk1
      rw [hk1, hk2]
    rw [List.filter_append, hinit]
    have hget : (specStore d (init.foldl (specStore d) acc) r).1.getD i []
        = if i = specTick d r.time then
            frameAssign ((init.foldl (specStore d) acc).1.getD (specTick d r.time) [])
              (registerId (init.foldl (specStore d) acc).2 r.id).1 r.state
          else (init.foldl (specStore d) acc).1.getD i [] := placeEntry_getD _ _ _ _ _
    rw [hget]
    by_cases hp : specTick d r.time = i ∧ (registerId (init.foldl (specStore d) acc).2 r.id).1 = k
    · have hlast : [r].filter (fun r1 => decide (specTick d r1.time = i
            ∧ mapFind (specStore d (init.foldl (specStore d) acc) r).2 r1.id = some k))
          = [r] := by
        simp [hidx, hp.1, hp.2]
      rw [hlast, List.getLast?_append, if_pos hp.1.symm, mapFind_frameAssign,
        if_pos hp.2.symm]
      rfl
    · have hlast : [r].filter (fun r1 => decide (specTick d r1.time = i
            ∧ mapFind (specStore d (init.foldl (specStore d) acc) r).2 r1.id = some k))
          = [] := by
        simp only [List.filter_cons, List.filter_nil, hidx, Option.some.injEq]
        rw [decide_eq_false hp]
        rfl
      rw [hlast, List.append_nil, ← ih]
      by_cases hi : i = specTick d r.time
      · have hk : ¬ k = (registerId (init.foldl (specStore d) acc).2 r.id).1 :=
          fun hk => hp ⟨hi.symm, hk.symm⟩
        rw [if_pos hi, mapFind_frameAssign, if_neg hk, hi]
      · rw [if_neg hi]

/-! ### The keys of a frame -/

/-- The keys of a frame after an assignment: the assigned key and the keys before. -/
theorem mem_keys_frameAssign {V : Type} (m : List (Nat × V)) (k : Nat) (v : V) (j : Nat) :
    j ∈ (frameAssign m k v).map Prod.fst ↔ j = k ∨ j ∈ m.map Prod.fst := by
  have h := mapFind_frameAssign m k v j
  have h1 := mapFind_eq_none_iff (frameAssign m k v) j
  have h2 := mapFind_eq_none_iff m j
  by_cases hj : j = k
  · rw [if_pos hj] at h
    constructor
    · intro _
      exact Or.inl hj
    · intro _
      by_contra hcon
      rw [h1.mpr hcon] at h
      exact absurd h (by simp)
  · rw [if_neg hj] at h
    constructor
    · intro hmem
      right
      by_contra hcon
      rw [h2.mpr hcon] at h
      exact (h1.mp h) hmem
    · rintro (heq | hmem)
      · exact absurd heq hj
      · by_contra hcon
        rw [h1.mpr hcon] at h
        exact (h2.mp h.symm) hmem

/-- An assignment keeps the keys of a frame in strictly increasing order. -/
theorem frameAssign_sorted {V : Type} (m : List (Nat × V)) (k : Nat) (v : V)
    (h : (m.map Prod.fst).Pairwise (fun a b => a < b)) :
    ((frameAssign m k v).map Prod.fst).Pairwise (fun a b => a < b) := by
  induction m with
  | nil => simp [frameAssign]
  | cons e rest ih =>
    obtain ⟨k1, v1⟩ := e
    simp only [List.map_cons, List.pairwise_cons] at h
    obtain ⟨hhead, htail⟩ := h
    unfold frameAssign
    by_cases hlt : k < k1
    · rw [if_pos hlt]
      simp only [List.map_cons, List.pairwise_cons, List.mem_cons]
      refine ⟨?_, hhead, htail⟩
      rintro a (ha | ha)
      · rw [ha]
        exact hlt
      · exact lt_trans hlt (hhead a ha)
    · rw [if_neg hlt]
      by_cases heq : k = k1
      · rw [if_pos heq]
        simp only [List.map_cons, List.pairwise_cons]
        rw [heq]
        exact ⟨hhead, htail⟩
      · rw [if_neg heq]
        simp only [List.map_cons, List.pairwise_cons]
        refine ⟨?_, ih htail⟩
        intro a ha
        rcases (mem_keys_frameAssign rest k v a).mp ha with hak | hmem
        · rw [hak]
          omega
        · exact hhead a hmem

/-- The stores keep the keys of every frame in strictly increasing order. -/
theorem foldl_specStore_sorted (d : ℚ) (recs : List Record)
    (acc : List Frame × List (List Char × Nat))
    (h : ∀ f ∈ acc.1, (f.map Prod.fst).Pairwise (fun a b => a < b)) :
    ∀ f ∈ (recs.foldl (specStore d) acc).1, (f.map Prod.fst).Pairwise (fun a b => a < b) := by
  induction recs generalizing acc with
  | nil => exact h
  | cons r rest ih =>
    rw [List.foldl_cons]
    apply ih
    intro f hf
    simp only [specStore, placeEntry] at hf
    rcases List.mem_or_eq_of_mem_set hf with hmem | heq
    · rcases List.mem_append.mp hmem with hold | hnew
      · exact h f hold
      · rw [(List.mem_replicate.mp hnew).2]
        exact List.Pairwise.nil
    · rw [heq]
      apply frameAssign_sorted
      by_cases hlt : specTick d r.time < acc.1.length
      · rw [List.getD_eq_getElem _ _ hlt]
        exact h _ (List.getElem_mem hlt)
      · rw [List.getD_eq_default _ _ (by omega)]
        exact List.Pairwise.nil

/-- Keys in strictly increasing order are distinct. -/
theorem nodup_of_sorted_keys (f : Frame) (h : (f.map Prod.fst).Pairwise (fun a b => a < b)) :
    (f.map Prod.fst).Nodup :=
  h.imp (fun hab => Nat.ne_of_lt hab)

/-- A frame with distinct keys holds exactly one entry for a key it has. -/
theorem filter_key_of_mapFind (f : Frame) (k : Nat) (s : SumoVehicleState)
    (hnodup : (f.map Prod.fst).Nodup) (h : mapFind f k = some s) :
    f.filter (fun e => decide (e.1 = k)) = [(k, s)] := by
  induction f with
  | nil => exact absurd h (by simp [mapFind])
  | cons e rest ih =>
    obtain ⟨k1, v1⟩ := e
    simp only [List.map_cons, List.nodup_cons] at hnodup
    by_cases hk : k = k1
    · subst hk
      simp only [mapFind, if_true, Option.some.injEq] at h
      subst h
      simp only [List.filter_cons, decide_True, if_true, List.cons.injEq, true_and]
      apply List.filter_eq_nil_iff.mpr
      intro a ha
      have : a.1 ≠ k := fun heq => hnodup.1 (heq ▸ List.mem_map_of_mem Prod.fst ha)
      simp [this]
    · simp only [mapFind, hk, if_false] at h
      have hne : ¬ k1 = k := fun heq => hk heq.symm
      simp only [List.filter_cons, hne, decide_False, Bool.false_eq_true, if_false]
      exact ih hnodup.2 h

/-! ### The loaded trajectory in terms of the accepted records -/

/-- What a load that returns has left: frames and registry are those of the stores of
the accepted records, from the empty frame sequence and the empty registry; every tick
is `round (time / tickDuration)`, not negative and below `2 ^ 32 - 1`; the tick
duration in force is stored when a record was accepted; the vehicle count is the size
of the registry modulo `2 ^ 32`; the maximum time is set when there is a frame; the
flag says that the vehicle count is positive and that there is a frame. -/
theorem load_summary (lib : Lib) (lines : List (List Char)) (g g1 : Globals) (b : Bool)
    (h : LoadSumoTrajectory lib (some lines) g = .ok (b, g1)) :
    (g1.sumoTrajectory, g1.sumoIdToNodeIndex)
      = (records lib 0 lines).foldl (specStore (tickDuration g)) ([], [])
    ∧ (∀ r ∈ records lib 0 lines, 0 ≤ roundHalfAway (roundDouble (r.time / tickDuration g))
        ∧ specTick (tickDuration g) r.time + 1 < U32)
    ∧ g1.envStepTime = (if records lib 0 lines = [] then g.envStepTime else tickDuration g)
    ∧ g1.sumoVehicleCount = g1.sumoIdToNodeIndex.length % U32
    ∧ (g1.sumoTrajectory ≠ [] →
        g1.sumoMaxTime
          = roundDouble (g1.envStepTime * ((g1.sumoTrajectory.length - 1 : Nat) : ℚ)))
    ∧ b = decide (0 < g1.sumoIdToNodeIndex.length % U32 ∧ g1.sumoTrajectory ≠ []) := by
  unfold LoadSumoTrajectory at h
  simp only at h
  split at h
  · exact absurd h (by simp)
  · rename_i t fin hrun
    have hrecs := loadLines_records lib lines _ _ hrun
    obtain ⟨hfold, hticks, henv, _, _⟩ := storeAll_eq (records lib 0 lines) _ fin hrecs
      (by simp [U32])
    have hd : tickDuration { g with sumoTrajectory := [], sumoIdToNodeIndex := [],
                                    sumoVehicleCount := 0 } = tickDuration g := rfl
    rw [hd] at hfold hticks henv
    simp only [Except.ok.injEq, Prod.mk.injEq] at h
    obtain ⟨hb, hg⟩ := h
    subst hg
    by_cases hne : fin.sumoTrajectory = []
    · simp only [hne, ne_eq, not_true_eq_false, if_false, and_false, decide_False] at hb ⊢
      refine ⟨?_, hticks, henv, trivial, ?_, hb.symm⟩
      · rw [← hfold, hne]
      · intro hcon
        exact hcon.elim
    · simp only [hne, ne_eq, not_false_eq_true, if_true, and_true] at hb ⊢
      exact ⟨hfold, hticks, henv, trivial, fun _ => trivial, hb.symm⟩

/-! ### Frame count, gaps and maximum time after a load -/

/-- Rounding a rational that is not negative gives an integer that is not negative. -/
theorem roundHalfAway_nonneg (q : ℚ) (h : 0 ≤ q) : 0 ≤ roundHalfAway q := by
  unfold roundHalfAway
  rw [if_pos h]
  apply Rat.le_floor.mpr
  have : (0 : ℚ) ≤ q + 1 / 2 := by linarith
  simpa using this

/-- The store returns when the rounded tick is not negative and below `2 ^ 32 - 1`. -/
theorem storeVehicle_total (g : Globals) (t : ℚ) (s : List Char) (state : SumoVehicleState)
    (hnonneg : 0 ≤ roundHalfAway (roundDouble (t / tickDuration g)))
    (hrange : specTick (tickDuration g) t + 1 < U32) :
    ∃ g1, storeVehicle g t s state = .ok g1 := by
  have htick : toUInt32 (roundHalfAway (roundDouble (t / tickDuration g)))
      = some (specTick (tickDuration g) t) := by
    unfold toUInt32
    rw [if_pos]
    · rfl
    · refine ⟨hnonneg, ?_⟩
      have := Int.toNat_of_nonneg hnonneg
      unfold specTick at hrange
      omega
  have hd : (if g.envStepTime ≤ 0 then roundDouble (1 / 10) else g.envStepTime)
      = tickDuration g := rfl
  unfold storeVehicle
  simp only [hd, htick]
  cases hfr : (if g.sumoTrajectory.length ≤ specTick (tickDuration g) t then
      resizeFrames g.sumoTrajectory ((specTick (tickDuration g) t + 1) % U32)
    else g.sumoTrajectory)[specTick (tickDuration g) t]? with
  | none =>
    exfalso
    rw [List.getElem?_eq_none_iff] at hfr
    split at hfr
    · rw [resizeFrames_length, Nat.mod_eq_of_lt hrange] at hfr
      omega
    · omega
  | some frame => exact ⟨_, rfl⟩

/-- After the stores, the frame of the tick of every stored record holds an entry under
the index of its identifier: the state of the last record stored at that tick whose
identifier has that index. -/
theorem foldl_specStore_stored (d : ℚ) (recs : List Record)
    (acc : List Frame × List (List Char × Nat)) (r : Record) (hr : r ∈ recs) :
    ∃ k r1, mapFind (recs.foldl (specStore d) acc).2 r.id = some k
      ∧ r1 ∈ recs ∧ specTick d r1.time = specTick d r.time
      ∧ mapFind (recs.foldl (specStore d) acc).2 r1.id = some k
      ∧ mapFind ((recs.foldl (specStore d) acc).1.getD (specTick d r.time) []) k
          = some r1.state := by
  obtain ⟨k, hk⟩ := foldl_specStore_registered d recs acc r hr
  have hlook := foldl_specStore_lookup d recs acc (specTick d r.time) k
  have hmem : r ∈ recs.filter (fun r1 => decide (specTick d r1.time = specTick d r.time
      ∧ mapFind (recs.foldl (specStore d) acc).2 r1.id = some k)) := by
    rw [List.mem_filter]
    exact ⟨hr, by simp [hk]⟩
  cases hlast : (recs.filter (fun r1 => decide (specTick d r1.time = specTick d r.time
      ∧ mapFind (recs.foldl (specStore d) acc).2 r1.id = some k))).getLast? with
  | none =>
    rw [List.getLast?_eq_none_iff.mp hlast] at hmem
    exact absurd hmem (List.not_mem_nil r)
  | some r1 =>
    rw [hlast] at hlook
    have hr1 := List.mem_of_getLast?_eq_some hlast
    rw [List.mem_filter] at hr1
    have hp := of_decide_eq_true hr1.2
    exact ⟨k, r1, hk, hr1.1, hp.1, hp.2, hlook⟩

/-- C20, amended: the tick duration `d` in force is the configured one when it is positive
and the double nearest to 0.1 when it is zero or negative. The tick of a time `t` is
`round q`, rounding half away from zero, where `q` is the quotient of `t` by `d` taken
in double arithmetic (the exact quotient rounded to the nearest double). For a time
`t >= 0` with a tick below `2 ^ 32 - 1` the store of a vehicle record returns and leaves
the record's state in the frame whose index is the tick, under the index of its
identifier. After every load that returns, each accepted vehicle record, scoped to the
time `t`, has a tick that is not negative, and the frame of this index exists and holds
an entry under the index that the registry gives the record's identifier. -/
theorem record_stored_at_rounded_tick (lib : Lib) (lines : List (List Char))
    (g : Globals) :
    tickDuration g = (if 0 < g.envStepTime then g.envStepTime else roundDouble (1 / 10))
    ∧ (∀ (t : ℚ) (s : List Char) (state : SumoVehicleState), 0 ≤ t →
        specTick (tickDuration g) t + 1 < U32 → g.sumoTrajectory.length < U32 →
        ∃ g1 frame, storeVehicle g t s state = .ok g1
          ∧ roundHalfAway (roundDouble (t / tickDuration g))
              = ((specTick (tickDuration g) t : Nat) : Int)
          ∧ g1.sumoTrajectory[specTick (tickDuration g) t]? = some frame
          ∧ mapFind frame (registerId g.sumoIdToNodeIndex s).1 = some state)
    ∧ (∀ (b : Bool) (g1 : Globals), LoadSumoTrajectory lib (some lines) g = .ok (b, g1) →
        ∀ r ∈ records lib 0 lines,
          roundHalfAway (roundDouble (r.time / tickDuration g))
            = ((specTick (tickDuration g) r.time : Nat) : Int)
          ∧ ∃ frame k, g1.sumoTrajectory[specTick (tickDuration g) r.time]? = some frame
              ∧ mapFind g1.sumoIdToNodeIndex r.id = some k
              ∧ (mapFind frame k).isSome = true) := by
  refine ⟨?_, ?_, ?_⟩
  · unfold tickDuration
    by_cases h : g.envStepTime ≤ 0
    · rw [if_pos h, if_neg (not_lt.mpr h)]
    · rw [if_neg h, if_pos (lt_of_not_le h)]
  · intro t s state ht hrange hlen
    have hnonneg : 0 ≤ roundHalfAway (roundDouble (t / tickDuration g)) :=
      roundHalfAway_nonneg _
        (roundDouble_nonneg _ (div_nonneg ht (le_of_lt (tickDuration_pos g))))
    obtain ⟨g1, hstore⟩ := storeVehicle_total g t s state hnonneg hrange
    obtain ⟨_, _, _, hg1⟩ := storeVehicle_place g g1 t s state hstore hlen
    refine ⟨g1, frameAssign (g.sumoTrajectory.getD (specTick (tickDuration g) t) [])
      (registerId g.sumoIdToNodeIndex s).1 state, hstore, ?_, ?_, ?_⟩
    · unfold specTick
      rw [Int.toNat_of_nonneg hnonneg]
    · rw [hg1]
      simp only [placeEntry]
      rw [List.getElem?_set_self]
      simp only [List.length_append, List.length_replicate]
      omega
    · rw [mapFind_frameAssign, if_pos rfl]
  · intro b g1 hload r hr
    obtain ⟨hfold, hticks, _, _, _, _⟩ := load_summary lib lines g g1 b hload
    have htraj : g1.sumoTrajectory
        = ((records lib 0 lines).foldl (specStore (tickDuration g)) ([], [])).1 := by
      rw [← hfold]
    have hreg : g1.sumoIdToNodeIndex
        = ((records lib 0 lines).foldl (specStore (tickDuration g)) ([], [])).2 := by
      rw [← hfold]
    obtain ⟨_, hall, _⟩ := foldl_specStore_length (tickDuration g) (records lib 0 lines) ([], [])
    obtain ⟨k, r1, hk, _, _, _, hfind⟩ :=
      foldl_specStore_stored (tickDuration g) (records lib 0 lines) ([], []) r hr
    rw [← htraj] at hall hfind
    rw [← hreg] at hk
    refine ⟨?_, g1.sumoTrajectory.getD (specTick (tickDuration g) r.time) [], k, ?_, hk, ?_⟩
    · unfold specTick
      rw [Int.toNat_of_nonneg (hticks r hr).1]
    · rw [List.getElem?_eq_getElem (hall r hr), List.getD_eq_getElem _ [] (hall r hr)]
    · rw [hfind]
      rfl

/-! ### Traces on which the loader returns -/

/-- The loop body returns on a line whose numeric attributes are accepted by
`std::stod`, when the store of the record returns. -/
theorem loadLine_total (lib : Lib) (t : ℚ) (g : Globals) (line : List Char)
    (hp : lineParses lib line = true)
    (hstore : ∀ s, acceptedId line = some s →
      ∃ g1, storeVehicle g t s (recordState lib line) = .ok g1) :
    ∃ st1, loadLine lib (t, g) line = .ok st1 := by
  unfold lineParses at hp
  unfold loadLine
  simp only
  by_cases hts : (strFind line "<timestep".toList).isSome = true
  · rw [if_pos hts] at hp ⊢
    by_cases hne : ExtractAttribute line "time".toList ≠ []
    · rw [if_pos hne]
      cases hst : lib.stod (ExtractAttribute line "time".toList) with
      | none =>
        rw [hst, decide_eq_false hne] at hp
        exact absurd hp (by decide)
      | some t1 => exact ⟨_, rfl⟩
    · rw [if_neg hne]
      exact ⟨_, rfl⟩
  · rw [if_neg hts] at hp ⊢
    by_cases hv : (strFind line "<vehicle".toList).isSome = true
    · rw [if_pos hv]
      by_cases hskip : ExtractAttribute line "id".toList = []
          ∨ ExtractAttribute line "x".toList = [] ∨ ExtractAttribute line "y".toList = []
      · rw [if_pos hskip]
        exact ⟨_, rfl⟩
      · rw [if_neg hskip]
        have hacc : acceptedId line = some (ExtractAttribute line "id".toList) := by
          unfold acceptedId
          rw [if_neg hts, if_pos hv, if_neg hskip]
        rw [hacc] at hp
        simp only [Option.isSome_some, if_true, Bool.and_eq_true, Bool.or_eq_true,
          decide_eq_true_eq] at hp
        obtain ⟨⟨hx, hy⟩, hs⟩ := hp
        obtain ⟨x, hx1⟩ := Option.isSome_iff_exists.mp hx
        obtain ⟨y, hy1⟩ := Option.isSome_iff_exists.mp hy
        obtain ⟨g1, hg1⟩ := hstore _ hacc
        have hspeed : ∃ speed, (if ExtractAttribute line "speed".toList = [] then some 0
            else lib.stod (ExtractAttribute line "speed".toList)) = some speed
            ∧ recordState lib line
              = { position := ⟨x, y, 0⟩, speed := speed,
                  vehicleType := if ExtractAttribute line "type".toList = []
                    then "passenger".toList else ExtractAttribute line "type".toList } := by
          by_cases hse : ExtractAttribute line "speed".toList = []
          · refine ⟨0, by rw [if_pos hse], ?_⟩
            unfold recordState
            rw [hx1, hy1, if_pos hse]
            rfl
          · rcases hs with hs | hs
            · exact absurd hs hse
            · obtain ⟨sp, hsp⟩ := Option.isSome_iff_exists.mp hs
              refine ⟨sp, by rw [if_neg hse, hsp], ?_⟩
              unfold recordState
              rw [hx1, hy1, if_neg hse, hsp]
              rfl
        obtain ⟨speed, hsp, hstate⟩ := hspeed
        rw [hstate] at hg1
        simp only [hx1, hy1, hsp, hg1]
        exact ⟨_, rfl⟩
    · rw [if_neg hv]
      exact ⟨_, rfl⟩

/-- The loop returns on a trace whose numeric attributes are accepted by `std::stod`
and whose accepted records have a rounded tick that is not negative and below
`2 ^ 32 - 1`. -/
theorem loadLines_total (lib : Lib) (lines : List (List Char)) (t : ℚ) (g : Globals)
    (hlen : g.sumoTrajectory.length < U32)
    (hp : ∀ line ∈ lines, lineParses lib line = true)
    (hticks : ∀ r ∈ records lib t lines,
      0 ≤ roundHalfAway (roundDouble (r.time / tickDuration g))
      ∧ specTick (tickDuration g) r.time + 1 < U32) :
    ∃ fin, loadLines lib lines (t, g) = .ok fin := by
  induction lines generalizing t g with
  | nil => exact ⟨_, rfl⟩
  | cons line rest ih =>
    have hstore : ∀ s, acceptedId line = some s →
        ∃ g1, storeVehicle g t s (recordState lib line) = .ok g1 := by
      intro s hs
      have hmem : (⟨t, s, recordState lib line⟩ : Record) ∈ records lib t (line :: rest) := by
        simp only [records, hs]
        exact List.mem_cons_self _ _
      obtain ⟨h1, h2⟩ := hticks _ hmem
      exact storeVehicle_total g t s _ h1 h2
    obtain ⟨st1, hline⟩ := loadLine_total lib t g line (hp line (List.mem_cons_self _ _)) hstore
    have hprest : ∀ l ∈ rest, lineParses lib l = true :=
      fun l hl => hp l (List.mem_cons_of_mem _ hl)
    simp only [loadLines, hline]
    obtain ⟨t1, g1⟩ := st1
    rcases loadLine_ok_record lib t t1 g g1 line hline with
      ⟨hnone, hg, ht⟩ | ⟨s, hsome, ht, hst⟩
    · rw [hg, ht]
      apply ih _ g hlen hprest
      intro r hr
      apply hticks
      simp only [records, hnone]
      exact hr
    · have hall : storeAll g [⟨t, s, recordState lib line⟩] = .ok g1 := by
        simp only [storeAll, hst]
      obtain ⟨_, _, _, hd1, hlen1⟩ := storeAll_eq _ g g1 hall hlen
      rw [ht]
      apply ih t g1 hlen1 hprest
      intro r hr
      rw [hd1]
      apply hticks
      simp only [records, hsome]
      exact List.mem_cons_of_mem _ hr

/-- C17, counterexample: the readable trace made of the single vehicle record
`<vehicle id=A x=abc y=2/>` (values quoted) has an accepted record (non-empty `id`,
`x` and `y`), and the load does not return success: `std::stod` throws on `abc`, and
the loader does not return at all. -/
theorem load_throws_on_bad_number :
    acceptedId badNumberLine = some "A".toList
    ∧ acceptedIds [badNumberLine] ≠ []
    ∧ LoadSumoTrajectory sampleLib (some [badNumberLine]) unitTickState
      = .error .stodThrows := by
  have hkind : (strFind badNumberLine "<timestep".toList).isSome = false
      ∧ (strFind badNumberLine "<vehicle".toList).isSome = true := by decide!
  have hattr : ExtractAttribute badNumberLine "id".toList = "A".toList
      ∧ ExtractAttribute badNumberLine "x".toList = "abc".toList
      ∧ ExtractAttribute badNumberLine "y".toList = "2".toList := by decide!
  have hx : sampleLib.stod "abc".toList = none := by decide!
  have hacc : acceptedId badNumberLine = some "A".toList := by decide!
  obtain ⟨hid, hxs, hy⟩ := hattr
  refine ⟨hacc, ?_, ?_⟩
  · simp only [acceptedIds, List.filterMap_cons, hacc]
    exact List.cons_ne_nil _ _
  · have hline : ∀ st, loadLine sampleLib st badNumberLine = .error .stodThrows := by
      intro st
      simp only [loadLine, hkind, hid, hxs, hy, hx]
      simp
    simp only [LoadSumoTrajectory, loadLines, hline]

/-- C17, amended: on a readable trace whose numeric attributes are accepted by
`std::stod` and whose accepted records have a rounded tick that is not negative and
below `2 ^ 32 - 1`, the loader returns. Whenever it returns, it returns success if and
only if the number of distinct identifiers of accepted vehicle records is not a
multiple of `2 ^ 32`; so with fewer than `2 ^ 32` distinct identifiers it returns
success if and only if at least one vehicle record was accepted, and a trace without
accepted vehicle record gives failure. On success the trajectory has a frame that is
not empty. -/
theorem load_success_iff (lib : Lib) (lines : List (List Char)) (g : Globals) :
    ((∀ line ∈ lines, lineParses lib line = true) →
      (∀ r ∈ records lib 0 lines, 0 ≤ roundHalfAway (roundDouble (r.time / tickDuration g))
        ∧ specTick (tickDuration g) r.time + 1 < U32) →
      ∃ b g1, LoadSumoTrajectory lib (some lines) g = .ok (b, g1))
    ∧ (∀ (b : Bool) (g1 : Globals), LoadSumoTrajectory lib (some lines) g = .ok (b, g1) →
        (b = true ↔ 0 < (firstOccurrences (acceptedIds lines)).length % U32)
        ∧ ((firstOccurrences (acceptedIds lines)).length < U32 →
            (b = true ↔ acceptedIds lines ≠ []))
        ∧ (acceptedIds lines = [] → b = false)
        ∧ (b = true → ∃ (i : Nat) (frame : Frame),
            g1.sumoTrajectory[i]? = some frame ∧ frame ≠ [])) := by
  constructor
  · intro hp hticks
    obtain ⟨fin, hfin⟩ := loadLines_total lib lines 0
      { g with sumoTrajectory := [], sumoIdToNodeIndex := [], sumoVehicleCount := 0 }
      (by simp [U32]) hp hticks
    exact LoadSumoTrajectory_of_loadLines lib lines g fin.1 fin.2 hfin
  · intro b g1 hload
    obtain ⟨hfold, _, _, _, _, hb⟩ := load_summary lib lines g g1 b hload
    obtain ⟨hkeys, _⟩ := loaded_registry lib lines g g1 b hload
    have hlen : g1.sumoIdToNodeIndex.length = (firstOccurrences (acceptedIds lines)).length := by
      rw [← hkeys, List.length_map]
    have htraj : g1.sumoTrajectory
        = ((records lib 0 lines).foldl (specStore (tickDuration g)) ([], [])).1 := by
      rw [← hfold]
    obtain ⟨_, hall, _⟩ := foldl_specStore_length (tickDuration g) (records lib 0 lines) ([], [])
    rw [← htraj] at hall
    have hids := records_ids lib lines 0
    have hnonempty : acceptedIds lines ≠ [] → g1.sumoTrajectory ≠ [] := by
      intro hne
      cases hrecs : records lib 0 lines with
      | nil =>
        rw [hrecs] at hids
        exact absurd hids.symm hne
      | cons r rest =>
        have hr : r ∈ records lib 0 lines := by rw [hrecs]; exact List.mem_cons_self _ _
        have := hall r hr
        intro hnil
        rw [hnil] at this
        simp at this
    have hidsne : 0 < (firstOccurrences (acceptedIds lines)).length → acceptedIds lines ≠ [] := by
      intro hpos hnil
      rw [hnil] at hpos
      simp [firstOccurrences] at hpos
    have hiff : b = true ↔ 0 < (firstOccurrences (acceptedIds lines)).length % U32 := by
      rw [hb, hlen, decide_eq_true_iff]
      constructor
      · exact fun h => h.1
      · intro h
        refine ⟨h, hnonempty (hidsne ?_)⟩
        by_contra hzero
        have : (firstOccurrences (acceptedIds lines)).length = 0 := by omega
        rw [this] at h
        simp at h
    refine ⟨hiff, ?_, ?_, ?_⟩
    · intro hsmall
      rw [hiff, Nat.mod_eq_of_lt hsmall]
      constructor
      · exact hidsne
      · intro hne
        cases hids1 : acceptedIds lines with
        | nil => exact absurd hids1 hne
        | cons s rest => simp [firstOccurrences]
    · intro hnil
      cases b with
      | false => rfl
      | true =>
        have := hiff.mp rfl
        rw [hnil] at this
        simp [firstOccurrences] at this
    · intro hbt
      have hpos := hiff.mp hbt
      have hne : acceptedIds lines ≠ [] := hidsne (by
        by_contra hzero
        have : (firstOccurrences (acceptedIds lines)).length = 0 := by omega
        rw [this] at hpos
        simp at hpos)
      cases hrecs : records lib 0 lines with
      | nil =>
        rw [hrecs] at hids
        exact absurd hids.symm hne
      | cons r rest =>
        have hr : r ∈ records lib 0 lines := by rw [hrecs]; exact List.mem_cons_self _ _
        obtain ⟨k, r1, _, _, _, _, hfind⟩ :=
          foldl_specStore_stored (tickDuration g) (records lib 0 lines) ([], []) r hr
        rw [← htraj] at hfind
        refine ⟨specTick (tickDuration g) r.time,
          g1.sumoTrajectory.getD (specTick (tickDuration g) r.time) [], ?_, ?_⟩
        · rw [List.getElem?_eq_getElem (hall r hr), List.getD_eq_getElem _ [] (hall r hr)]
        · intro hnil
          rw [hnil] at hfind
          simp [mapFind] at hfind

/-- Witness for C17: the example trace satisfies the conditions under which the loader
returns, and it returns. -/
theorem load_success_iff_witness :
    (∀ line ∈ exampleTrace, lineParses sampleLib line = true)
    ∧ ∃ b g1, LoadSumoTrajectory sampleLib (some exampleTrace) unitTickState = .ok (b, g1) :=
  have hp : ∀ line ∈ exampleTrace, lineParses sampleLib line = true := by decide!
  have hticks : ∀ r ∈ records sampleLib 0 exampleTrace,
      0 ≤ roundHalfAway (roundDouble (r.time / tickDuration unitTickState))
      ∧ specTick (tickDuration unitTickState) r.time + 1 < U32 := by decide!
  ⟨hp, (load_success_iff sampleLib exampleTrace unitTickState).1 hp hticks⟩

/-! ### Indices of a registry with at most `2 ^ 32` identifiers -/

/-- A value found in a map is one of its values. -/
theorem mapFind_mem_values {K V : Type} [DecidableEq K] (m : List (K × V)) (s : K) (k : V)
    (h : mapFind m s = some k) : k ∈ m.map Prod.snd := by
  obtain ⟨j, hj, hget⟩ := mapFind_some_getElem m s k h
  have hmem : m[j] ∈ m := List.getElem_mem hj
  rw [hget] at hmem
  exact List.mem_map.mpr ⟨(s, k), hmem, rfl⟩

/-- In a map with distinct values, two keys with the same value are equal. -/
theorem mapFind_injective_of_values_nodup {K V : Type} [DecidableEq K] (m : List (K × V))
    (hnodup : (m.map Prod.snd).Nodup) (s1 s2 : K) (k : V)
    (h1 : mapFind m s1 = some k) (h2 : mapFind m s2 = some k) : s1 = s2 := by
  induction m with
  | nil => exact absurd h1 (by simp [mapFind])
  | cons e rest ih =>
    obtain ⟨k0, v0⟩ := e
    simp only [List.map_cons, List.nodup_cons] at hnodup
    by_cases e1 : s1 = k0
    · by_cases e2 : s2 = k0
      · rw [e1, e2]
      · simp only [mapFind, e1, if_true, Option.some.injEq] at h1
        simp only [mapFind, e2, if_false] at h2
        have := mapFind_mem_values rest s2 k h2
        rw [← h1] at this
        exact absurd this hnodup.1
    · by_cases e2 : s2 = k0
      · simp only [mapFind, e2, if_true, Option.some.injEq] at h2
        simp only [mapFind, e1, if_false] at h1
        have := mapFind_mem_values rest s1 k h1
        rw [← h2] at this
        exact absurd this hnodup.1
      · simp only [mapFind, e1, if_false] at h1
        simp only [mapFind, e2, if_false] at h2
        exact ih hnodup.2 h1 h2

/-- The values of the registry after a load with at most `2 ^ 32` distinct accepted
identifiers are `0, 1, ...` below the registry size. -/
theorem loaded_registry_values (lib : Lib) (lines : List (List Char)) (g g1 : Globals)
    (b : Bool) (hload : LoadSumoTrajectory lib (some lines) g = .ok (b, g1))
    (hsize : (firstOccurrences (acceptedIds lines)).length ≤ U32) :
    g1.sumoIdToNodeIndex.map Prod.snd = List.range g1.sumoIdToNodeIndex.length := by
  obtain ⟨hkeys, hv⟩ := loaded_registry lib lines g g1 b hload
  have hlen : g1.sumoIdToNodeIndex.length = (firstOccurrences (acceptedIds lines)).length := by
    rw [← hkeys, List.length_map]
  rw [hv]
  conv => rhs; rw [← List.map_id (List.range g1.sumoIdToNodeIndex.length)]
  apply List.map_congr_left
  intro k hk
  have : k < U32 := by
    have := List.mem_range.mp hk
    omega
  simp [Nat.mod_eq_of_lt this]

/-- Frames and registry of a load that returns, each on its own. -/
theorem load_frames_registry (lib : Lib) (lines : List (List Char)) (g g1 : Globals) (b : Bool)
    (hload : LoadSumoTrajectory lib (some lines) g = .ok (b, g1)) :
    g1.sumoTrajectory
        = ((records lib 0 lines).foldl (specStore (tickDuration g)) ([], [])).1
    ∧ g1.sumoIdToNodeIndex
        = ((records lib 0 lines).foldl (specStore (tickDuration g)) ([], [])).2 := by
  obtain ⟨hfold, _⟩ := load_summary lib lines g g1 b hload
  constructor <;> rw [← hfold]

/-- The keys of every frame of a loaded trajectory are in strictly increasing order. -/
theorem loaded_frames_sorted (lib : Lib) (lines : List (List Char)) (g g1 : Globals) (b : Bool)
    (hload : LoadSumoTrajectory lib (some lines) g = .ok (b, g1)) :
    ∀ f ∈ g1.sumoTrajectory, (f.map Prod.fst).Pairwise (fun a b => a < b) := by
  rw [(load_frames_registry lib lines g g1 b hload).1]
  apply foldl_specStore_sorted
  intro f hf
  exact absurd hf (List.not_mem_nil f)

/-! ### Last write wins -/

/-- C19, amended: after every load that returns, of a trace with at most `2 ^ 32`
distinct accepted identifiers, for every accepted vehicle record after which no
accepted record with the same identifier and the same tick follows in the file (the
last one of the records that carry this identifier and quantize to this tick, the tick
being the one the loader computes), the frame of its tick holds exactly one entry for
the actor index of its identifier, and the state of this entry (position, speed, type)
is that of this record. In every loaded frame the keys are distinct. -/
theorem last_record_wins (lib : Lib) (lines : List (List Char)) (g g1 : Globals) (b : Bool)
    (hload : LoadSumoTrajectory lib (some lines) g = .ok (b, g1))
    (hsize : (firstOccurrences (acceptedIds lines)).length ≤ U32) :
    (∀ f ∈ g1.sumoTrajectory, (f.map Prod.fst).Nodup)
    ∧ (∀ (pre post : List Record) (r : Record), records lib 0 lines = pre ++ r :: post →
        (∀ r1 ∈ post, r1.id = r.id →
          specTick (tickDuration g) r1.time ≠ specTick (tickDuration g) r.time) →
        ∃ (k : Nat) (frame : Frame), mapFind g1.sumoIdToNodeIndex r.id = some k
          ∧ g1.sumoTrajectory[specTick (tickDuration g) r.time]? = some frame
          ∧ frame.filter (fun e => decide (e.1 = k)) = [(k, r.state)]) := by
  have hsorted := loaded_frames_sorted lib lines g g1 b hload
  have hnodup : ∀ f ∈ g1.sumoTrajectory, (f.map Prod.fst).Nodup :=
    fun f hf => nodup_of_sorted_keys f (hsorted f hf)
  refine ⟨hnodup, ?_⟩
  intro pre post r hsplit hlast
  obtain ⟨htraj, hreg⟩ := load_frames_registry lib lines g g1 b hload
  have hvals := loaded_registry_values lib lines g g1 b hload hsize
  have hvnodup : (g1.sumoIdToNodeIndex.map Prod.snd).Nodup := by
    rw [hvals]
    exact List.nodup_range _
  have hr : r ∈ records lib 0 lines := by
    rw [hsplit]
    exact List.mem_append_right _ (List.mem_cons_self _ _)
  obtain ⟨k, hk⟩ := foldl_specStore_registered (tickDuration g) (records lib 0 lines)
    ([], []) r hr
  obtain ⟨_, hall, _⟩ := foldl_specStore_length (tickDuration g) (records lib 0 lines) ([], [])
  have hlook := foldl_specStore_lookup (tickDuration g) (records lib 0 lines) ([], [])
    (specTick (tickDuration g) r.time) k
  rw [← hreg] at hk hlook
  rw [← htraj] at hall hlook
  have hfilter : (records lib 0 lines).filter (fun r1 => decide
        (specTick (tickDuration g) r1.time = specTick (tickDuration g) r.time
          ∧ mapFind g1.sumoIdToNodeIndex r1.id = some k))
      = pre.filter (fun r1 => decide
        (specTick (tickDuration g) r1.time = specTick (tickDuration g) r.time
          ∧ mapFind g1.sumoIdToNodeIndex r1.id = some k)) ++ [r] := by
    rw [hsplit, List.filter_append, List.filter_cons]
    have hp : decide (specTick (tickDuration g) r.time = specTick (tickDuration g) r.time
        ∧ mapFind g1.sumoIdToNodeIndex r.id = some k) = true := by
      simp [hk]
    rw [if_pos hp]
    congr 2
    apply List.filter_eq_nil_iff.mpr
    intro r1 hr1
    have hne : ¬ (specTick (tickDuration g) r1.time = specTick (tickDuration g) r.time
        ∧ mapFind g1.sumoIdToNodeIndex r1.id = some k) := by
      rintro ⟨htick, hidx⟩
      have hid := mapFind_injective_of_values_nodup g1.sumoIdToNodeIndex hvnodup
        r1.id r.id k hidx hk
      exact hlast r1 hr1 hid htick
    simp [hne]
  rw [hfilter, List.getLast?_append] at hlook
  have hfound : mapFind (g1.sumoTrajectory.getD (specTick (tickDuration g) r.time) []) k
      = some r.state := hlook
  have hlt := hall r hr
  have hmem : g1.sumoTrajectory.getD (specTick (tickDuration g) r.time) []
      ∈ g1.sumoTrajectory := by
    rw [List.getD_eq_getElem _ [] hlt]
    exact List.getElem_mem hlt
  refine ⟨k, g1.sumoTrajectory.getD (specTick (tickDuration g) r.time) [], hk, ?_, ?_⟩
  · rw [List.getElem?_eq_getElem hlt, List.getD_eq_getElem _ [] hlt]
  · exact filter_key_of_mapFind _ k r.state (hnodup _ hmem) hfound

/-! ### Frame keys and the vehicle count -/

/-- Every key of a loaded frame is the index that the registry gives some accepted
identifier. -/
theorem loaded_key_is_index (lib : Lib) (lines : List (List Char)) (g g1 : Globals) (b : Bool)
    (hload : LoadSumoTrajectory lib (some lines) g = .ok (b, g1))
    (f : Frame) (hf : f ∈ g1.sumoTrajectory) (e : Nat × SumoVehicleState) (he : e ∈ f) :
    ∃ s, mapFind g1.sumoIdToNodeIndex s = some e.1 := by
  obtain ⟨htraj, hreg⟩ := load_frames_registry lib lines g g1 b hload
  obtain ⟨i, hi, hget⟩ := List.getElem_of_mem hf
  have hlook := foldl_specStore_lookup (tickDuration g) (records lib 0 lines) ([], []) i e.1
  rw [← htraj, ← hreg, List.getD_eq_getElem _ [] hi, hget] at hlook
  have hsome : mapFind f e.1 ≠ none := by
    intro hnone
    exact (mapFind_eq_none_iff f e.1).mp hnone (List.mem_map_of_mem Prod.fst he)
  cases hlast : ((records lib 0 lines).filter (fun r => decide
      (specTick (tickDuration g) r.time = i
        ∧ mapFind g1.sumoIdToNodeIndex r.id = some e.1))).getLast? with
  | none =>
    rw [hlast] at hlook
    exact absurd hlook hsome
  | some r =>
    have hr := List.mem_of_getLast?_eq_some hlast
    rw [List.mem_filter] at hr
    exact ⟨r.id, (of_decide_eq_true hr.2).2⟩

/-- C26, amended: after every load that returns, of a trace with fewer than `2 ^ 32`
distinct accepted identifiers, every actor-index key in every frame of the trajectory
is strictly less than the vehicle count, and the keys of a frame are distinct; hence,
for a roster whose size equals the loaded vehicle count, the replay of any frame of the
trajectory drops no entry and the snapshot equals the frame, and in trace mode, in
both programs, the snapshot after `ApplySumoMobility` equals the resolved frame. -/
theorem loaded_keys_below_count (lib : Lib) (lines : List (List Char)) (g g1 : Globals)
    (b : Bool) (hload : LoadSumoTrajectory lib (some lines) g = .ok (b, g1))
    (hsize : (firstOccurrences (acceptedIds lines)).length < U32) :
    (∀ f ∈ g1.sumoTrajectory, ∀ e ∈ f, e.1 < g1.sumoVehicleCount)
    ∧ (∀ f ∈ g1.sumoTrajectory, (f.map Prod.fst).Nodup)
    ∧ (∀ gr : Globals, gr.sumoTrajectory = g1.sumoTrajectory →
        gr.nodes.length = g1.sumoVehicleCount →
        (∀ f ∈ gr.sumoTrajectory, (replayFrame lib f gr).currentSumoState = f)
        ∧ (gr.useSumoMobility = true → gr.sumoTrajectory ≠ [] → ∀ t : Nat,
            (Training.ApplySumoMobility lib t gr).currentSumoState
              = gr.sumoTrajectory.getD (Training.safeIndex gr t) []
            ∧ (Simple.ApplySumoMobility lib t gr).currentSumoState
              = gr.sumoTrajectory.getD (Simple.clampedStep gr t) [])) := by
  obtain ⟨hkeys, _⟩ := loaded_registry lib lines g g1 b hload
  have hlen : g1.sumoIdToNodeIndex.length = (firstOccurrences (acceptedIds lines)).length := by
    rw [← hkeys, List.length_map]
  have hvals := loaded_registry_values lib lines g g1 b hload (le_of_lt hsize)
  obtain ⟨_, _, _, hcount, _, _⟩ := load_summary lib lines g g1 b hload
  have hcount1 : g1.sumoVehicleCount = g1.sumoIdToNodeIndex.length := by
    rw [hcount, Nat.mod_eq_of_lt (by rw [hlen]; exact hsize)]
  have hbelow : ∀ f ∈ g1.sumoTrajectory, ∀ e ∈ f, e.1 < g1.sumoVehicleCount := by
    intro f hf e he
    obtain ⟨s, hs⟩ := loaded_key_is_index lib lines g g1 b hload f hf e he
    have hmem := mapFind_mem_values g1.sumoIdToNodeIndex s e.1 hs
    rw [hvals] at hmem
    rw [hcount1]
    exact List.mem_range.mp hmem
  have hnodup : ∀ f ∈ g1.sumoTrajectory, (f.map Prod.fst).Nodup :=
    fun f hf => nodup_of_sorted_keys f (loaded_frames_sorted lib lines g g1 b hload f hf)
  refine ⟨hbelow, hnodup, ?_⟩
  intro gr htraj hroster
  have hsnap : ∀ f, f ∈ gr.sumoTrajectory ∨ f = [] →
      (replayFrame lib f gr).currentSumoState = f := by
    intro f hf
    rcases hf with hf | hf
    · rw [htraj] at hf
      rw [replayFrame_snapshot_eq lib f gr (hnodup f hf)]
      apply List.filter_eq_self.mpr
      intro e he
      have := hbelow f hf e he
      rw [hroster]
      simpa using this
    · rw [hf, replayFrame_snapshot_eq lib [] gr List.nodup_nil]
      rfl
  have hgetD : ∀ i, gr.sumoTrajectory.getD i [] ∈ gr.sumoTrajectory
      ∨ gr.sumoTrajectory.getD i [] = [] := by
    intro i
    by_cases hi : i < gr.sumoTrajectory.length
    · left
      rw [List.getD_eq_getElem _ [] hi]
      exact List.getElem_mem hi
    · right
      rw [List.getD_eq_default _ _ (by omega)]
  refine ⟨fun f hf => hsnap f (Or.inl hf), ?_⟩
  intro huse hne t
  constructor
  · unfold Training.ApplySumoMobility
    rw [if_neg (by simp [huse, hne])]
    exact hsnap _ (hgetD _)
  · unfold Simple.ApplySumoMobility
    rw [if_neg (by simp [huse, hne])]
    exact hsnap _ (hgetD _)

/-- Witness for C26 amended: the example trace has two distinct identifiers, and the
keys of its frame are below the vehicle count 2. -/
theorem loaded_keys_below_count_witness :
    exampleFrame ∈ (exampleLoaded unitTickState).sumoTrajectory
    ∧ ((1 : Nat), recordB.state) ∈ exampleFrame
    ∧ 1 < (exampleLoaded unitTickState).sumoVehicleCount :=
  ⟨by decide!, by decide!,
    (loaded_keys_below_count sampleLib exampleTrace unitTickState (exampleLoaded unitTickState)
      true exampleTrace_loads (by decide!)).1 exampleFrame (by decide!)
      ((1 : Nat), recordB.state) (by decide!)⟩

/-! ### The records of a trace with more than `2 ^ 32` identifiers -/

/-- The state read from a line `unaryLine n`. -/
theorem recordState_unaryLine (n : Nat) : recordState sampleLib (unaryLine n) = originState := by
  have h0 : sampleLib.stod "0".toList = some 0 := by decide!
  unfold recordState
  rw [unaryLine_x, unaryLine_y, (unaryLine_speed_type n).1, (unaryLine_speed_type n).2, h0]
  rfl

/-- The accepted records of a list of lines `unaryLine n`. -/
theorem records_unaryLines (l : List Nat) (t : ℚ) :
    records sampleLib t (l.map unaryLine) = l.map (fun n => ⟨t, unaryId n, originState⟩) := by
  induction l with
  | nil => rfl
  | cons n rest ih =>
    simp only [List.map_cons, records, unaryLine_accepted, recordState_unaryLine]
    rw [ih]

/-- C26, counterexample: loading `manyIdsTrace`, a trace of `2 ^ 32 + 1` accepted vehicle
records with pairwise distinct identifiers, returns success with a vehicle count of 1
(the registry size modulo `2 ^ 32`), and frame 0 holds an entry with key 1, which is not
below the vehicle count; with a roster of one node, the size of the vehicle count, the
replay of frame 0 drops entries. -/
theorem frame_key_not_below_count :
    ∃ (g1 : Globals) (frame : Frame),
      LoadSumoTrajectory sampleLib (some manyIdsTrace) unitTickState = .ok (true, g1)
      ∧ g1.sumoVehicleCount = 1
      ∧ g1.sumoTrajectory[0]? = some frame
      ∧ (mapFind frame 1).isSome = true
      ∧ (replayFrame sampleLib frame (withRoster g1 [constantNode])).currentSumoState
          ≠ frame := by
  have hpos : 0 < U32 := by simp [U32]
  obtain ⟨fin, hrun, hne⟩ := loadLines_unaryLines (List.range (U32 + 1))
    { unitTickState with sumoTrajectory := [], sumoIdToNodeIndex := [], sumoVehicleCount := 0 }
    rfl
  obtain ⟨b, g1, hload⟩ := LoadSumoTrajectory_of_loadLines sampleLib manyIdsTrace
    unitTickState 0 fin hrun
  obtain ⟨hkeys, hvals⟩ := loaded_registry sampleLib manyIdsTrace unitTickState g1 b hload
  have hids : acceptedIds manyIdsTrace = (List.range (U32 + 1)).map unaryId :=
    acceptedIds_unaryLines _
  have hnodup : ((List.range (U32 + 1)).map unaryId).Nodup :=
    (List.nodup_range _).map unaryId_injective
  rw [hids, firstOccurrences_of_nodup _ hnodup] at hkeys
  have hlen : g1.sumoIdToNodeIndex.length = U32 + 1 := by
    have := congrArg List.length hkeys
    simpa using this
  rw [hlen] at hvals
  have hfind : ∀ k, k < U32 + 1 → mapFind g1.sumoIdToNodeIndex (unaryId k) = some (k % U32) := by
    intro k hk
    have h := mapFind_of_keys_values g1.sumoIdToNodeIndex _ _ hkeys hvals hnodup k
      (by simpa using hk) (by simpa using hk)
    simpa using h
  have h1 : (U32 + 1) % U32 = 1 := by simp [U32]
  obtain ⟨hfold, _, _, hcount, _, hbdef⟩ :=
    load_summary sampleLib manyIdsTrace unitTickState g1 b hload
  obtain ⟨htraj, hreg⟩ := load_frames_registry sampleLib manyIdsTrace unitTickState g1 b hload
  have hrecs : records sampleLib 0 manyIdsTrace
      = (List.range (U32 + 1)).map (fun n => ⟨0, unaryId n, originState⟩) :=
    records_unaryLines _ 0
  have hr : (⟨0, unaryId 1, originState⟩ : Record) ∈ records sampleLib 0 manyIdsTrace := by
    rw [hrecs]
    exact List.mem_map.mpr ⟨1, List.mem_range.mpr (by omega), rfl⟩
  obtain ⟨k, r1, hk, _, _, _, hstored⟩ := foldl_specStore_stored
    (tickDuration unitTickState) (records sampleLib 0 manyIdsTrace) ([], []) _ hr
  obtain ⟨_, hall, _⟩ := foldl_specStore_length (tickDuration unitTickState)
    (records sampleLib 0 manyIdsTrace) ([], [])
  have hlt := hall _ hr
  rw [← htraj] at hstored hlt
  rw [← hreg] at hk
  have htick : specTick (tickDuration unitTickState) 0 = 0 := by decide!
  simp only [htick] at hstored hlt
  have hk1 : k = 1 := by
    have := hfind 1 (by omega)
    rw [hk] at this
    simp only [Option.some.injEq] at this
    rw [this]
    exact Nat.mod_eq_of_lt (by simp [U32])
  rw [hk1] at hstored
  have hb : b = true := by
    rw [hbdef, hlen, h1]
    have : g1.sumoTrajectory ≠ [] := List.length_pos.mp hlt
    simp [this]
  subst hb
  have hframe : g1.sumoTrajectory[0]? = some (g1.sumoTrajectory.getD 0 []) := by
    rw [List.getElem?_eq_getElem hlt, List.getD_eq_getElem _ [] hlt]
  have hmemf : g1.sumoTrajectory.getD 0 [] ∈ g1.sumoTrajectory := by
    rw [List.getD_eq_getElem _ [] hlt]
    exact List.getElem_mem hlt
  have hnd := nodup_of_sorted_keys _
    (loaded_frames_sorted sampleLib manyIdsTrace unitTickState g1 true hload _ hmemf)
  refine ⟨g1, g1.sumoTrajectory.getD 0 [], hload, ?_, hframe, ?_, ?_⟩
  · rw [hcount, hlen, h1]
  · rw [hstored]
    rfl
  · rw [replayFrame_snapshot_eq sampleLib _ _ hnd]
    intro heq
    obtain ⟨j, hj, hget⟩ := mapFind_some_getElem _ 1 r1.state hstored
    have hmem : ((1 : Nat), r1.state) ∈ g1.sumoTrajectory.getD 0 [] := by
      rw [← hget]
      exact List.getElem_mem hj
    have := (List.filter_eq_self.mp heq) _ hmem
    simp [withRoster] at this


/-- The records of a trace that starts with an accepted record. -/
theorem records_cons_accepted (lib : Lib) (t : ℚ) (line : List Char) (rest : List (List Char))
    (s : List Char) (h : acceptedId line = some s) :
    records lib t (line :: rest) = ⟨t, s, recordState lib line⟩ :: records lib t rest := by
  simp only [records, h]

/-- The accepted identifiers of a trace that starts with an accepted record. -/
theorem acceptedIds_cons_accepted (line : List Char) (rest : List (List Char))
    (s : List Char) (h : acceptedId line = some s) :
    acceptedIds (line :: rest) = s :: acceptedIds rest := by
  simp only [acceptedIds, List.filterMap_cons, h]

/-- Lookup in a registry whose keys are a first identifier followed by the identifiers
`f 0, ..., f (n - 1)` and whose values are `0, 1, ...` modulo `2 ^ 32`. -/
theorem mapFind_after_first (reg : List (List Char × Nat)) (s0 : List Char)
    (f : Nat → List Char) (n : Nat)
    (hkeys : reg.map Prod.fst = s0 :: (List.range n).map f)
    (hvals : reg.map Prod.snd = (List.range (n + 1)).map (fun k => k % U32))
    (hnodup : (s0 :: (List.range n).map f).Nodup) :
    mapFind reg s0 = some 0 ∧ ∀ k, k < n → mapFind reg (f k) = some ((k + 1) % U32) := by
  constructor
  · have h := mapFind_of_keys_values reg _ _ hkeys hvals hnodup 0 (by simp) (by simp)
    simpa using h
  · intro k hk
    have h := mapFind_of_keys_values reg _ _ hkeys hvals hnodup (k + 1)
      (by simpa using hk) (by simpa using hk)
    simpa using h

/-- First occurrences of a list that starts with the same identifier twice. -/
theorem firstOccurrences_twice (s : List Char) (ids : List (List Char)) (hs : s ∉ ids)
    (hnodup : ids.Nodup) : firstOccurrences (s :: s :: ids) = s :: ids := by
  have hfilter : ids.filter (fun s1 => decide (s1 ≠ s)) = ids := by
    apply List.filter_eq_self.mpr
    intro a ha
    have : a ≠ s := fun h => hs (h ▸ ha)
    exact decide_eq_true this
  simp only [firstOccurrences, firstOccurrences_of_nodup ids hnodup, List.filter_cons, hfilter,
    ne_eq, not_true_eq_false, decide_False, Bool.false_eq_true, if_false]

/-- The numeric attributes of a line `unaryLine n` are accepted by the sample `stod`. -/
theorem lineParses_unaryLine (n : Nat) : lineParses sampleLib (unaryLine n) = true := by
  have h0 : sampleLib.stod "0".toList = some 0 := by decide!
  unfold lineParses
  rw [unaryLine_timestep, unaryLine_accepted, unaryLine_x, unaryLine_y,
    (unaryLine_speed_type n).1, h0]
  rfl

/-- C19, counterexample: in `overwriteTrace` two accepted records carry the identifier
`b` and stand at time 0, the later one at (2, 0); the load returns success and gives `b`
the actor index 0, and the entry of index 0 in frame 0 holds the state of the last
record of the file, a record of another identifier at the origin: the registry size
has wrapped to 0 for it. -/
theorem later_record_overwritten :
    ∃ (g1 : Globals) (frame : Frame),
      LoadSumoTrajectory sampleLib (some overwriteTrace) unitTickState = .ok (true, g1)
      ∧ (records sampleLib 0 overwriteTrace).take 2
          = [⟨0, "b".toList, { position := ⟨1, 0, 0⟩, speed := 0,
                               vehicleType := "passenger".toList }⟩,
             ⟨0, "b".toList, { position := ⟨2, 0, 0⟩, speed := 0,
                               vehicleType := "passenger".toList }⟩]
      ∧ mapFind g1.sumoIdToNodeIndex "b".toList = some 0
      ∧ g1.sumoTrajectory[specTick (tickDuration unitTickState) 0]? = some frame
      ∧ mapFind frame 0 = some originState
      ∧ originState ≠ { position := ⟨2, 0, 0⟩, speed := 0,
                        vehicleType := "passenger".toList } := by
  obtain ⟨P, hP⟩ : ∃ P, U32 = P + 1 := ⟨U32 - 1, by simp [U32]⟩
  have hacc1 : acceptedId bLineOne = some "b".toList := by decide!
  have hacc2 : acceptedId bLineTwo = some "b".toList := by decide!
  have hst1 : recordState sampleLib bLineOne
      = { position := ⟨1, 0, 0⟩, speed := 0, vehicleType := "passenger".toList } := by decide!
  have hst2 : recordState sampleLib bLineTwo
      = { position := ⟨2, 0, 0⟩, speed := 0, vehicleType := "passenger".toList } := by decide!
  have hrecs : records sampleLib 0 overwriteTrace
      = ⟨0, "b".toList, { position := ⟨1, 0, 0⟩, speed := 0,
                          vehicleType := "passenger".toList }⟩
        :: ⟨0, "b".toList, { position := ⟨2, 0, 0⟩, speed := 0,
                             vehicleType := "passenger".toList }⟩
        :: (List.range U32).map (fun n => ⟨0, unaryId n, originState⟩) := by
    unfold overwriteTrace
    rw [records_cons_accepted sampleLib 0 bLineOne _ _ hacc1,
      records_cons_accepted sampleLib 0 bLineTwo _ _ hacc2, hst1, hst2,
      records_unaryLines (List.range U32) 0]
  have htime : ∀ r ∈ records sampleLib 0 overwriteTrace, r.time = 0 := by
    intro r hr
    rw [hrecs] at hr
    rcases List.mem_cons.mp hr with h | h
    · rw [h]
    · rcases List.mem_cons.mp h with h | h
      · rw [h]
      · obtain ⟨n, _, hn⟩ := List.mem_map.mp h
        rw [← hn]
  have htick : specTick (tickDuration unitTickState) 0 = 0 := by decide!
  have hparse : ∀ line ∈ overwriteTrace, lineParses sampleLib line = true := by
    intro line hline
    rcases List.mem_cons.mp hline with h | h
    · rw [h]
      decide!
    · rcases List.mem_cons.mp h with h | h
      · rw [h]
        decide!
      · obtain ⟨n, _, hn⟩ := List.mem_map.mp h
        rw [← hn]
        exact lineParses_unaryLine n
  have hticks : ∀ r ∈ records sampleLib 0 overwriteTrace,
      0 ≤ roundHalfAway (roundDouble (r.time / tickDuration unitTickState))
      ∧ specTick (tickDuration unitTickState) r.time + 1 < U32 := by
    intro r hr
    rw [htime r hr]
    decide!
  obtain ⟨fin, hrun⟩ := loadLines_total sampleLib overwriteTrace 0
    { unitTickState with sumoTrajectory := [], sumoIdToNodeIndex := [], sumoVehicleCount := 0 }
    (by simp [U32]) hparse hticks
  obtain ⟨b, g1, hload⟩ := LoadSumoTrajectory_of_loadLines sampleLib overwriteTrace
    unitTickState fin.1 fin.2 hrun
  obtain ⟨hkeys, hvals⟩ := loaded_registry sampleLib overwriteTrace unitTickState g1 b hload
  obtain ⟨htraj, hreg⟩ := load_frames_registry sampleLib overwriteTrace unitTickState g1 b hload
  obtain ⟨_, _, _, _, _, hbdef⟩ := load_summary sampleLib overwriteTrace unitTickState g1 b hload
  have hids : acceptedIds overwriteTrace
      = "b".toList :: "b".toList :: (List.range U32).map unaryId := by
    unfold overwriteTrace
    rw [acceptedIds_cons_accepted bLineOne ((bLineTwo :: (List.range U32).map unaryLine))
        "b".toList hacc1,
      acceptedIds_cons_accepted bLineTwo ((List.range U32).map unaryLine) "b".toList hacc2,
      acceptedIds_unaryLines (List.range U32)]
  have hbnot : "b".toList ∉ (List.range U32).map unaryId := by
    intro hmem
    obtain ⟨n, _, hn⟩ := List.mem_map.mp hmem
    have : unaryId n ≠ "b".toList := by
      simp [unaryId, List.replicate_succ]
    exact this hn
  have hnd : ((List.range U32).map unaryId).Nodup :=
    (List.nodup_range _).map unaryId_injective
  have hfirst : firstOccurrences (acceptedIds overwriteTrace)
      = "b".toList :: (List.range U32).map unaryId := by
    rw [hids]
    exact firstOccurrences_twice "b".toList ((List.range U32).map unaryId) hbnot hnd
  rw [hfirst] at hkeys
  have hknodup : ("b".toList :: (List.range U32).map unaryId).Nodup :=
    List.nodup_cons.mpr ⟨hbnot, hnd⟩
  have hlen : g1.sumoIdToNodeIndex.length = U32 + 1 := by
    have := congrArg List.length hkeys
    rw [List.length_map, List.length_cons, List.length_map, List.length_range] at this
    exact this
  rw [hlen] at hvals
  obtain ⟨hb0, hrest⟩ := mapFind_after_first g1.sumoIdToNodeIndex "b".toList unaryId U32
    hkeys hvals hknodup
  have hlast : mapFind g1.sumoIdToNodeIndex (unaryId P) = some 0 := by
    have h := hrest P (by omega)
    have hmod : (P + 1) % U32 = 0 := by rw [← hP]; exact Nat.mod_self _
    rw [hmod] at h
    exact h
  have hsplit : records sampleLib 0 overwriteTrace
      = (⟨0, "b".toList, { position := ⟨1, 0, 0⟩, speed := 0,
                           vehicleType := "passenger".toList }⟩
        :: ⟨0, "b".toList, { position := ⟨2, 0, 0⟩, speed := 0,
                             vehicleType := "passenger".toList }⟩
        :: (List.range P).map (fun n => ⟨0, unaryId n, originState⟩))
        ++ [⟨0, unaryId P, originState⟩] := by
    rw [hrecs, hP, List.range_succ, List.map_append]
    simp only [List.map_cons, List.map_nil, List.cons_append]
  have hlook := foldl_specStore_lookup (tickDuration unitTickState)
    (records sampleLib 0 overwriteTrace) ([], []) 0 0
  rw [← htraj, ← hreg] at hlook
  have hp : decide (specTick (tickDuration unitTickState) (0 : ℚ) = 0
      ∧ mapFind g1.sumoIdToNodeIndex (unaryId P) = some 0) = true := by
    simp [htick, hlast]
  have hfl : [(⟨0, unaryId P, originState⟩ : Record)].filter (fun r => decide
        (specTick (tickDuration unitTickState) r.time = 0
          ∧ mapFind g1.sumoIdToNodeIndex r.id = some 0))
      = [⟨0, unaryId P, originState⟩] := by
    rw [List.filter_cons, if_pos hp, List.filter_nil]
  rw [hsplit, List.filter_append, hfl, List.getLast?_append] at hlook
  have hfound : mapFind (g1.sumoTrajectory.getD 0 []) 0 = some originState := hlook
  obtain ⟨_, hall, _⟩ := foldl_specStore_length (tickDuration unitTickState)
    (records sampleLib 0 overwriteTrace) ([], [])
  rw [← htraj] at hall
  have hlt : 0 < g1.sumoTrajectory.length := by
    have hmem : (⟨0, unaryId P, originState⟩ : Record) ∈ records sampleLib 0 overwriteTrace := by
      rw [hsplit]
      exact List.mem_append_right _ (List.mem_singleton.mpr rfl)
    have := hall _ hmem
    simp only [htick] at this
    exact this
  have hb : b = true := by
    rw [hbdef, hlen]
    have h1 : (U32 + 1) % U32 = 1 := by simp [U32]
    have : g1.sumoTrajectory ≠ [] := List.length_pos.mp hlt
    simp [h1, this]
  subst hb
  refine ⟨g1, g1.sumoTrajectory.getD 0 [], hload, ?_, hb0, ?_, hfound, by decide!⟩
  · rw [hrecs]
    rfl
  · rw [htick, List.getElem?_eq_getElem hlt, List.getD_eq_getElem _ [] hlt]

/-! ### Loads of traces with decimal times -/

/-- A result whose `toOption` is `some a` is `ok a`. -/
theorem ok_of_toOption {ε α : Type} (x : Except ε α) (a : α)
    (h : x.toOption = some a) : x = .ok a := by
  cases x with
  | error e => simp [Except.toOption] at h
  | ok b =>
    simp only [Except.toOption, Option.some.injEq] at h
    rw [h]

/-- The trace `decimalTrace` loads with the sample library and the default tick
duration. -/
theorem decimalTrace_loads :
    LoadSumoTrajectory sampleLib (some decimalTrace) Globals.initial
      = .ok (true, decimalLoaded) :=
  ok_of_toOption _ _ (by decide!)

/-- The trace `repeatTrace` loads with the sample library and the default tick
duration. -/
theorem repeatTrace_loads :
    LoadSumoTrajectory sampleLib (some repeatTrace) Globals.initial
      = .ok (true, repeatLoaded) :=
  ok_of_toOption _ _ (by decide!)

/-- The accepted records of `decimalTrace`. -/
theorem records_decimalTrace :
    records sampleLib 0 decimalTrace = [decimalRecordA, decimalRecordB] := by
  decide!

/-- The accepted records of `repeatTrace`. -/
theorem records_repeatTrace :
    records sampleLib 0 repeatTrace = [repeatRecordOne, repeatRecordTwo] := by
  decide!

/-! ### Frame count and maximum time of a trace with decimal times -/

/-- Witness for C19 amended: in `repeatTrace` two accepted records carry the identifier
`b` and quantize to tick 1; the later one, at (2, 0), is the last of the file, and frame
1 holds exactly one entry for the index of `b`, with the state of the later record. -/
theorem last_record_wins_witness :
    (∃ (k : Nat) (frame : Frame),
      mapFind repeatLoaded.sumoIdToNodeIndex repeatRecordTwo.id = some k
      ∧ repeatLoaded.sumoTrajectory[specTick (tickDuration Globals.initial)
          repeatRecordTwo.time]? = some frame
      ∧ frame.filter (fun e => decide (e.1 = k)) = [(k, repeatRecordTwo.state)])
    ∧ records sampleLib 0 repeatTrace = [repeatRecordOne, repeatRecordTwo]
    ∧ repeatRecordOne.id = repeatRecordTwo.id
    ∧ specTick (tickDuration Globals.initial) repeatRecordOne.time = 1
    ∧ specTick (tickDuration Globals.initial) repeatRecordTwo.time = 1
    ∧ repeatRecordOne.state ≠ repeatRecordTwo.state
    ∧ repeatLoaded.sumoTrajectory[1]? = some [(0, repeatRecordTwo.state)] :=
  ⟨(last_record_wins sampleLib repeatTrace Globals.initial repeatLoaded true
      repeatTrace_loads (by decide!)).2 [repeatRecordOne] [] repeatRecordTwo
      records_repeatTrace (fun r1 h1 => absurd h1 (List.not_mem_nil r1)),
    records_repeatTrace, by decide!, by decide!, by decide!, by decide!, by decide!⟩

/-- Witness for C20 amended: in `decimalTrace`, loaded with the default tick duration,
the record of `A` is scoped to time 0.15 and stored in frame 1, and the record of `B` is
scoped to time 0.85 and stored in frame 9: the quotients, taken in double arithmetic,
are below 1.5 and exactly 8.5. -/
theorem record_stored_at_rounded_tick_witness :
    decimalRecordA ∈ records sampleLib 0 decimalTrace
    ∧ (roundHalfAway (roundDouble (decimalRecordA.time / tickDuration Globals.initial))
        = ((specTick (tickDuration Globals.initial) decimalRecordA.time : Nat) : Int)
      ∧ ∃ frame k,
          decimalLoaded.sumoTrajectory[specTick (tickDuration Globals.initial)
            decimalRecordA.time]? = some frame
          ∧ mapFind decimalLoaded.sumoIdToNodeIndex decimalRecordA.id = some k
          ∧ (mapFind frame k).isSome = true)
    ∧ specTick (tickDuration Globals.initial) decimalRecordA.time = 1
    ∧ specTick (tickDuration Globals.initial) decimalRecordB.time = 9
    ∧ roundDouble (decimalRecordB.time / tickDuration Globals.initial) = 17 / 2
    ∧ decimalLoaded.sumoTrajectory[1]? = some [(0, decimalRecordA.state)]
    ∧ decimalLoaded.sumoTrajectory[9]? = some [(1, decimalRecordB.state)] :=
  ⟨by decide!,
    (record_stored_at_rounded_tick sampleLib decimalTrace Globals.initial).2.2 true
      decimalLoaded decimalTrace_loads decimalRecordA (by decide!),
    by decide!, by decide!, by decide!, by decide!, by decide!⟩

/-! ### A record at tick `2 ^ 32 - 1` and a record at time 0.15 -/

/-- C20, as stated, fails, in two ways. With a tick duration of 1, the vehicle record of
the example trace scoped to a timestep of time 4294967295 (not negative; its rounded
tick is `2 ^ 32 - 1`) is not stored in the frame of that index: the frame sequence is
resized to `(tick + 1) mod 2 ^ 32 = 0` frames and the subscript is out of range, so the
load does not return. And with the default tick duration the record of `decimalTrace`
scoped to the timestep of time 0.15 is stored in frame 1, while 0.15 / 0.1 is 1.5, which
rounds half away from zero to 2; frame 2 is empty: the quotient of the two doubles is
taken in double arithmetic and lies below 1.5. -/
theorem record_at_last_tick_not_stored :
    (0 : ℚ) ≤ 4294967295
    ∧ timeAfter sampleLib 0 lateTimestepLine = 4294967295
    ∧ roundHalfAway (roundDouble (4294967295 / tickDuration unitTickState)) = 4294967295
    ∧ acceptedId vehicleLineA = some "A".toList
    ∧ LoadSumoTrajectory sampleLib (some [lateTimestepLine, vehicleLineA]) unitTickState
      = .error .frameOutOfRange
    ∧ LoadSumoTrajectory sampleLib (some decimalTrace) Globals.initial
      = .ok (true, decimalLoaded)
    ∧ timeAfter sampleLib 0 earlyTimestepLine = roundDouble (15 / 100)
    ∧ roundHalfAway ((15 / 100 : ℚ) / (1 / 10)) = 2
    ∧ decimalLoaded.sumoTrajectory[2]? = some []
    ∧ decimalLoaded.sumoTrajectory[1]? = some [(0, decimalRecordA.state)] := by
  have hkind : (strFind lateTimestepLine "<timestep".toList).isSome = true := by decide!
  have htime : ExtractAttribute lateTimestepLine "time".toList = "4294967295".toList := by
    decide!
  have hstod : sampleLib.stod "4294967295".toList = some 4294967295 := by decide!
  have hround :
      roundHalfAway (roundDouble (4294967295 / tickDuration unitTickState)) = 4294967295 := by
    decide!
  have hcast : toUInt32 4294967295 = some 4294967295 := by decide!
  have h1 : sampleLib.stod "1".toList = some 1 := by decide!
  have h2 : sampleLib.stod "2".toList = some 2 := by decide!
  have h3 : sampleLib.stod "3".toList = some 3 := by decide!
  have hd : (if unitTickState.envStepTime ≤ 0 then roundDouble (1 / 10)
      else unitTickState.envStepTime) = tickDuration unitTickState := rfl
  have hstart : ({ unitTickState with sumoTrajectory := [], sumoIdToNodeIndex := [],
                                       sumoVehicleCount := 0 } : Globals)
      = unitTickState := rfl
  have hmod : (4294967295 + 1) % U32 = 0 := by decide
  have hstore : ∀ (s : List Char) (state : SumoVehicleState),
      storeVehicle unitTickState 4294967295 s state = .error .frameOutOfRange := by
    intro s state
    have htraj : unitTickState.sumoTrajectory = [] := rfl
    simp only [storeVehicle, hd, hround, hcast, htraj, List.length_nil, Nat.zero_le,
      if_true, hmod, resizeFrames]
    rfl
  have hline1 : loadLine sampleLib (0, unitTickState) lateTimestepLine
      = .ok (4294967295, unitTickState) := by
    simp only [loadLine, hkind, htime, hstod, if_true]
    simp
  have hline2 : loadLine sampleLib (4294967295, unitTickState) vehicleLineA
      = .error .frameOutOfRange := by
    obtain ⟨hid, hx, hy, hs, hty⟩ := vehicleLineA_attributes
    simp only [loadLine, vehicleLineA_kind, hid, hx, hy, hs, hty, h1, h2, h3, hstore]
    simp
  refine ⟨by norm_num, ?_, hround, by decide!, ?_, decimalTrace_loads, by decide!,
    by decide!, by decide!, by decide!⟩
  · simp only [timeAfter, hkind, htime, hstod, if_true]
    simp
  · simp only [LoadSumoTrajectory, loadLines, hstart, hline1, hline2]

end V2X
